import Mathlib

/-!
# Verification of the relationship-chart core of `wildermyth-renderer`

Shallow embedding of `wildermyth_renderer/relationship_chart.py` (together with
`RelationshipStatus` from `params.py`).  Python dictionaries are modelled as
insertion-ordered association lists with unique keys, Python sets as
insertion-ordered duplicate-free lists (`add` appends, `discard` filters), and
Python exceptions (`AssertionError` from `assert`, `MissingNodeError`,
dictionary `KeyError`) as an `Except Err` monad.  The unbounded recursion of
`trim._get_related_nodes` is modelled with explicit fuel; a dedicated
`Err.fuelExhausted` marker records fuel running out, and a theorem below shows
the marker is unreachable for the fuel bound used by `trim`.
-/

/-- `RelationshipStatus` from `params.py`: `IntEnum` with `PAST = 0`,
`LOCKED = 1`. -/
inductive RelationshipStatus where
  | PAST
  | LOCKED
deriving DecidableEq, Repr

namespace RelationshipStatus

/-- The `IntEnum` value of a status (`PAST = 0`, `LOCKED = 1`), which drives
Python's `sorted` on statuses. -/
def val : RelationshipStatus → Nat
  | .PAST => 0
  | .LOCKED => 1

end RelationshipStatus

/-- A relationship key: the `(status, kind)` pair used to index
`CharacterNode.relationships`. -/
abbrev RelKey := RelationshipStatus × String

/-- Exceptions raised by the Python code, plus a fuel marker for the modelled
recursion of `trim._get_related_nodes`.  `duplicateId` is Modelled from the
spec: the spec names a `DuplicateIdError` exception class for duplicate node
insertion, but no such class exists in the source (which uses a bare
`assert`); the constructor exists only so that the spec's claim about it can
be stated, and no embedded operation ever produces it. -/
inductive Err where
  | assertionFailed
  | missingNode (id : String)
  | keyError (id : String)
  | duplicateId (id : String)
  | fuelExhausted
deriving DecidableEq, Repr

/-! ## Python set and dict primitives

Python `set`s are modelled as insertion-ordered lists without duplicates:
`set.add` appends a missing element, `set.discard` filters it out,
`intersection_update` / `difference` filter the receiver keeping its order.
-/

/-- `s.add(x)` on a Python set. -/
def sAdd (s : List String) (x : String) : List String :=
  if x ∈ s then s else s ++ [x]

/-- `s.discard(x)` on a Python set. -/
def sDiscard (s : List String) (x : String) : List String :=
  s.filter (fun y => y ≠ x)

/-- `s.update(t)` on a Python set. -/
def sUpdate (s : List String) (t : List String) : List String :=
  t.foldl sAdd s

/-- `s.intersection_update(t)` / `s & t` on Python sets (receiver order). -/
def sInter (s : List String) (t : List String) : List String :=
  s.filter (fun y => y ∈ t)

/-- `s.difference(t)` / `s - t` on Python sets (receiver order). -/
def sDiff (s : List String) (t : List String) : List String :=
  s.filter (fun y => y ∉ t)

/-- `s <= t` on Python sets: `not s.difference(t)` is how the source tests
subset. -/
def sSubset (s : List String) (t : List String) : Bool :=
  s.all (fun y => y ∈ t)

/-- `CharacterNode` from `relationship_chart.py`.  The optional
`character_data` payload is omitted: it is never read or written by any of
the graph algorithms under verification and does not affect any claim. -/
structure CharacterNode where
  id : String
  label : String
  is_phantom : Bool := false
  child_ids : List String := []
  parent_ids : List String := []
  /-- `DefaultDict[Tuple[RelationshipStatus, str], Set[str]]`, modelled as an
  insertion-ordered association list; missing-key access appends an empty
  entry (defaultdict semantics). -/
  relationships : List (RelKey × List String) := []
deriving DecidableEq, Repr

namespace CharacterNode

/-- Look up a relationship entry (`dict.get`). -/
def relGet (n : CharacterNode) (k : RelKey) : Option (List String) :=
  (n.relationships.find? (fun e => e.1 = k)).map Prod.snd

/-- `node.relationships[k].add(x)`: defaultdict access followed by
`set.add`. -/
def relAdd (n : CharacterNode) (k : RelKey) (x : String) : CharacterNode :=
  match n.relGet k with
  | some _ =>
      { n with relationships :=
          n.relationships.map (fun e => if e.1 = k then (e.1, sAdd e.2 x) else e) }
  | none => { n with relationships := n.relationships ++ [(k, sAdd [] x)] }

/-- `node.relationships[k].discard(x)`: defaultdict access (which creates an
empty entry when the key is absent) followed by `set.discard`. -/
def relDiscard (n : CharacterNode) (k : RelKey) (x : String) : CharacterNode :=
  match n.relGet k with
  | some _ =>
      { n with relationships :=
          n.relationships.map (fun e => if e.1 = k then (e.1, sDiscard e.2 x) else e) }
  | none => { n with relationships := n.relationships ++ [(k, [])] }

end CharacterNode

/-- `RelationshipChart` from `relationship_chart.py`: a dict from node id to
node, modelled as an insertion-ordered association list with unique keys. -/
structure RelationshipChart where
  nodes : List (String × CharacterNode) := []
deriving DecidableEq, Repr

namespace RelationshipChart

/-- The dict keys, in insertion order. -/
def keys (g : RelationshipChart) : List String :=
  g.nodes.map Prod.fst

/-- `self.nodes.get(node_id)`: plain dictionary lookup. -/
def findNode (g : RelationshipChart) (id : String) : Option CharacterNode :=
  (g.nodes.find? (fun e => e.1 = id)).map Prod.snd

/-- `self.nodes[node_id]` as used in `children` / `parents`: raises
`KeyError` when absent. -/
def dictGet (g : RelationshipChart) (id : String) : Except Err CharacterNode :=
  match g.findNode id with
  | some n => .ok n
  | none => .error (.keyError id)

/-- `get_node`: raises `MissingNodeError` when absent. -/
def get_node (g : RelationshipChart) (id : String) : Except Err CharacterNode :=
  match g.findNode id with
  | some n => .ok n
  | none => .error (.missingNode id)

/-- Replace the stored node object for `id` by `f` of it (Python mutates the
node object in place; absent ids are untouched, which never occurs on the
paths that use this). -/
def setF (g : RelationshipChart) (id : String) (f : CharacterNode → CharacterNode) :
    RelationshipChart :=
  { nodes := g.nodes.map (fun e => if e.1 = id then (e.1, f e.2) else e) }

/-- `self.nodes.pop(node_id)`. -/
def popNode (g : RelationshipChart) (id : String) : RelationshipChart :=
  { nodes := g.nodes.filter (fun e => e.1 ≠ id) }

/-- `add_node`: `assert node.id not in self.nodes` then insert. -/
def add_node (g : RelationshipChart) (n : CharacterNode) :
    Except Err RelationshipChart :=
  match g.findNode n.id with
  | some _ => .error .assertionFailed
  | none => .ok { nodes := g.nodes ++ [(n.id, n)] }

/-- `children(node)`: `[self.nodes[cid] for cid in node.child_ids]`. -/
def children (g : RelationshipChart) (n : CharacterNode) :
    Except Err (List CharacterNode) :=
  n.child_ids.mapM (fun cid => g.dictGet cid)

/-- `parents(node)`: `[self.nodes[cid] for cid in node.parent_ids]`. -/
def parents (g : RelationshipChart) (n : CharacterNode) :
    Except Err (List CharacterNode) :=
  n.parent_ids.mapM (fun cid => g.dictGet cid)

end RelationshipChart

namespace RelationshipChart

/-- `iter_relationships(target=node)`: every `(source.id, key)` such that the
source's relationship entry at `key` contains `target.id`, in dictionary and
entry order (this path performs no node lookups; `source.id` is the source
object's id attribute, as the caller `remove_node` uses it). -/
def iterRelsTarget (g : RelationshipChart) (tid : String) :
    List (String × RelKey) :=
  g.nodes.flatMap (fun e =>
    e.2.relationships.filterMap (fun r =>
      if tid ∈ r.2 then some (e.2.id, r.1) else none))

/-- `remove_relationship`: looks up both endpoints, then discards each id from
the other endpoint's entry at `(status, kind)` (defaultdict semantics). -/
def remove_relationship (g : RelationshipChart) (first_id second_id : String)
    (k : RelKey) : Except Err RelationshipChart := do
  let _first ← g.get_node first_id
  let _second ← g.get_node second_id
  let g := g.setF first_id (fun n => n.relDiscard k second_id)
  return g.setF second_id (fun n => n.relDiscard k first_id)

/-- `add_relationship`: `assert first_id != second_id`, look up both
endpoints, add each id to the other endpoint's entry at `(status, kind)`. -/
def add_relationship (g : RelationshipChart) (first_id second_id : String)
    (k : RelKey) : Except Err RelationshipChart := do
  if first_id = second_id then .error .assertionFailed
  let _first ← g.get_node first_id
  let _second ← g.get_node second_id
  let g := g.setF first_id (fun n => n.relAdd k second_id)
  return g.setF second_id (fun n => n.relAdd k first_id)

/-- `remove_node(node_id, clear_relations)`: when clearing, discard the id
from every child's parent set, every parent's child set (parents are re-read
after the first loop, as the live Python objects would be), remove every
relationship edge targeting the node, then pop it from the store. -/
def remove_node (g : RelationshipChart) (node_id : String)
    (clear_relations : Bool := true) : Except Err RelationshipChart := do
  let node ← g.get_node node_id
  if clear_relations then
    let _cs ← g.children node
    let g := node.child_ids.foldl (fun g cid =>
      g.setF cid (fun n => { n with parent_ids := sDiscard n.parent_ids node_id })) g
    let node2 ← g.get_node node_id
    let _ps ← g.parents node2
    let g := node2.parent_ids.foldl (fun g pid2 =>
      g.setF pid2 (fun n => { n with child_ids := sDiscard n.child_ids node_id })) g
    let g ← (g.iterRelsTarget node2.id).foldlM (fun g t =>
      g.remove_relationship t.1 node_id t.2) g
    return g.popNode node_id
  else
    return g.popNode node_id

/-- The phantom-handling scan at the end of `add_child`: for each parent id of
the child other than the new parent (nodes re-read from the live store at
each step, as Python reads the live objects), remove it when it is a phantom
whose child set is contained in the new parent's current child set. -/
def handlePhantomsScan (parent_id : String) (pids : List String)
    (g : RelationshipChart) : Except Err RelationshipChart :=
  pids.foldlM (fun g other_id => do
    let other ← g.dictGet other_id
    let parent ← g.dictGet parent_id
    if other.id = parent.id then
      return g
    else if other.is_phantom ∧ sSubset other.child_ids parent.child_ids then
      g.remove_node other.id
    else
      return g) g

/-- `add_child(parent_id, child_id, handle_phantoms)`. -/
def add_child (g : RelationshipChart) (parent_id child_id : String)
    (handle_phantoms : Bool := true) : Except Err RelationshipChart := do
  if parent_id = child_id then .error .assertionFailed
  let _parent ← g.get_node parent_id
  let _child ← g.get_node child_id
  let g := g.setF parent_id (fun n => { n with child_ids := sAdd n.child_ids child_id })
  let g := g.setF child_id (fun n => { n with parent_ids := sAdd n.parent_ids parent_id })
  if handle_phantoms then
    let child ← g.get_node child_id
    let _ps ← g.parents child
    handlePhantomsScan parent_id child.parent_ids g
  else
    return g

/-- Concatenation of all the keys of the store, used to model a fresh id. -/
def concatKeys : List String → String
  | [] => ""
  | s :: t => s ++ concatKeys t

/-- The id of the next phantom node.  The source uses
`f"phantom_{uuid.uuid4()}"`, an id "freshly generated and guaranteed distinct
from all other node ids"; the shallow embedding realises that guarantee
deterministically with a string provably longer than (hence distinct from)
every existing key. -/
def freshPhantomId (g : RelationshipChart) : String :=
  "phantom_" ++ concatKeys g.keys

/-- `create_phantom_node`. -/
def create_phantom_node (g : RelationshipChart) :
    Except Err (String × RelationshipChart) := do
  let node : CharacterNode :=
    { id := g.freshPhantomId, label := "unknown parent", is_phantom := true }
  let g ← g.add_node node
  return (node.id, g)

/-- `add_sibling(first_id, second_id)`: no-op when the two nodes already
share a parent, otherwise synthesize a phantom parent and attach both as its
children (with `add_child`'s default `handle_phantoms=True`, exactly as the
source calls it). -/
def add_sibling (g : RelationshipChart) (first_id second_id : String) :
    Except Err RelationshipChart := do
  if first_id = second_id then .error .assertionFailed
  let first_node ← g.get_node first_id
  let second_node ← g.get_node second_id
  if (sInter first_node.parent_ids second_node.parent_ids) ≠ [] then
    return g
  else
    let (pid, g) ← g.create_phantom_node
    let g ← g.add_child pid first_id
    g.add_child pid second_id

end RelationshipChart

namespace RelationshipChart

/-- `set(lst)` on a Python list: deduplicate keeping first-occurrence
order. -/
def pySet (l : List String) : List String :=
  l.foldl sAdd []

/-- The `phantom_siblings` accumulation inside `remove_redundant_phantoms`:
for one child, extend a list with the child sets of every phantom parent
other than the phantom under consideration. -/
def phantomSiblings (g : RelationshipChart) (selfId : String)
    (child : CharacterNode) : Except Err (List String) := do
  let ps ← g.parents child
  return ps.foldl (fun acc op =>
    if op.is_phantom ∧ op.id ≠ selfId then acc ++ op.child_ids else acc) []

/-- The `common_phantom_siblings` computation inside
`remove_redundant_phantoms`: starts as `None`, is seeded with
`set(phantom_siblings)` of the first child and intersected with the
`phantom_siblings` of each further child. -/
def computeCommon (g : RelationshipChart) (selfId : String)
    (cs : List CharacterNode) : Except Err (Option (List String)) :=
  cs.foldlM (fun acc child => do
    let sibs ← g.phantomSiblings selfId child
    match acc with
    | none => return some (pySet sibs)
    | some com => return some (sInter com sibs)) none

/-- One iteration of the main loop of `remove_redundant_phantoms`, for the
node currently stored under `nid`: phantom nodes with no children or with a
child set contained in another parent's child set are marked for removal
(`remove_ids`); otherwise siblings known through other phantom parents of
every child are attached as children (`add_child` with phantom handling
disabled). -/
def rrpStep (g : RelationshipChart) (remove_ids : List String) (nid : String) :
    Except Err (RelationshipChart × List String) := do
  let node ← g.dictGet nid
  if ¬node.is_phantom then
    return (g, remove_ids)
  else if node.child_ids = [] then
    return (g, remove_ids ++ [node.id])
  else
    let cs ← g.children node
    let child0 ← g.dictGet (node.child_ids.headI)
    let ps ← g.parents child0
    if ps.any (fun op => op.id ≠ node.id ∧ sSubset node.child_ids op.child_ids) then
      return (g, remove_ids ++ [node.id])
    else
      match ← g.computeCommon node.id cs with
      | none => return (g, remove_ids)
      | some com =>
        if com ≠ [] then
          let g ← com.foldlM (fun g sib => g.add_child node.id sib false) g
          return (g, remove_ids)
        else
          return (g, remove_ids)

/-- `remove_redundant_phantoms(clear_relations)`: scan every node (removals
are deferred, so the key list never changes during the scan), then remove
the marked phantom ids. -/
def remove_redundant_phantoms (g : RelationshipChart)
    (clear_relations : Bool := true) : Except Err RelationshipChart := do
  let (g, remove_ids) ← g.keys.foldlM
    (fun (p : RelationshipChart × List String) nid => rrpStep p.1 p.2 nid) (g, [])
  remove_ids.foldlM (fun g rid => g.remove_node rid clear_relations) g

/-- `remove_dead_edges`: intersect every parent, child and relationship
target set with the current key universe.  Total: performs no lookups. -/
def remove_dead_edges (g : RelationshipChart) : RelationshipChart :=
  { nodes := g.nodes.map (fun e =>
      (e.1, { e.2 with
        parent_ids := sInter e.2.parent_ids g.keys
        child_ids := sInter e.2.child_ids g.keys
        relationships := e.2.relationships.map (fun r => (r.1, sInter r.2 g.keys)) })) }

/-- The body of `ensure_everything_mutual` for one node id `x`: add `x` to
every child's parent set, then (re-reading the live node) to every parent's
child set, then (re-reading again) add the reciprocal relationship entry on
every relationship target. -/
def ensureMutualStep (g : RelationshipChart) (x : String) :
    Except Err RelationshipChart := do
  let node ← g.dictGet x
  let _cs ← g.children node
  let g := node.child_ids.foldl (fun g cid =>
    g.setF cid (fun n => { n with parent_ids := sAdd n.parent_ids node.id })) g
  let node2 ← g.dictGet x
  let _ps ← g.parents node2
  let g := node2.parent_ids.foldl (fun g pid2 =>
    g.setF pid2 (fun n => { n with child_ids := sAdd n.child_ids node.id })) g
  let node3 ← g.dictGet x
  node3.relationships.foldlM (fun g r =>
    r.2.foldlM (fun g t => do
      let _tn ← g.get_node t
      return g.setF t (fun n => n.relAdd r.1 node.id)) g) g

/-- `ensure_everything_mutual`: run `ensureMutualStep` over every node (the
key list never changes during the pass). -/
def ensure_everything_mutual (g : RelationshipChart) :
    Except Err RelationshipChart :=
  g.keys.foldlM ensureMutualStep g

/-- `postprocess`: `remove_redundant_phantoms(clear_relations=False)`, then
`remove_dead_edges`, then `ensure_everything_mutual`. -/
def postprocess (g : RelationshipChart) : Except Err RelationshipChart := do
  let g ← g.remove_redundant_phantoms false
  let g := g.remove_dead_edges
  g.ensure_everything_mutual

end RelationshipChart

/-- `FilterParams` from `params.py` (the renderer-only fields are not part of
the graph core). -/
structure FilterParams where
  include_relationships : Option (List RelKey) := none
  exclude_relationships : Option (List RelKey) := none
  include_heroes : Option (List String) := none
  exclude_heroes : Option (List String) := none
deriving DecidableEq, Repr

namespace RelationshipChart

/-- The per-entry test of `filter_relationships`: an entry is dropped when it
matches the disallowed list (exact kind or wildcard kind under its status),
and otherwise kept when the allowed list is absent or matched (exact or
wildcard). -/
def relEntryKept (allowed disallowed : Option (List RelKey)) (k : RelKey) : Bool :=
  match disallowed with
  | some d => if k ∈ d ∨ (k.1, "*") ∈ d then false else
      match allowed with
      | none => true
      | some a => k ∈ a ∨ (k.1, "*") ∈ a
  | none =>
      match allowed with
      | none => true
      | some a => k ∈ a ∨ (k.1, "*") ∈ a

/-- `filter_relationships(..., inplace=True)`: rebuild every node's
relationship dictionary keeping only the entries that pass
`relEntryKept`. -/
def filter_relationships (g : RelationshipChart)
    (allowed disallowed : Option (List RelKey)) : RelationshipChart :=
  { nodes := g.nodes.map (fun e =>
      (e.1, { e.2 with relationships :=
        e.2.relationships.filter (fun r => relEntryKept allowed disallowed r.1) })) }

/-- `filter_relationships(..., inplace=False)`: the source deep-copies the
chart and recurses with
`chart.filter_relationships(allowed_relationships, inplace=True)` — the
`disallowed_relationships` argument is not forwarded. -/
def filter_relationships_copy (g : RelationshipChart)
    (allowed disallowed : Option (List RelKey)) : RelationshipChart :=
  let _ := disallowed
  g.filter_relationships allowed none

/-- `trim._get_related_nodes(current_node_ids, res_set)`, with explicit fuel
standing in for the Python call stack: add the current frontier to the
visited set, expand through parent and child edges, drop already-visited and
excluded ids, and recurse while the new frontier is non-empty. -/
def getRelatedNodes (g : RelationshipChart) (exclude : List String) :
    Nat → List String → List String → Except Err (List String)
  | 0, _, _ => .error .fuelExhausted
  | fuel + 1, current, res => do
    let res := sUpdate res current
    let new ← current.foldlM (fun acc cid => do
      let n ← g.get_node cid
      return sUpdate (sUpdate acc n.parent_ids) n.child_ids) []
    let new := sDiff new res
    let new := sDiff new exclude
    if new = [] then
      return res
    else
      getRelatedNodes g exclude fuel new res

/-- Every id mentioned in a parent or child set anywhere in the chart. -/
def mentionedIds (g : RelationshipChart) : List String :=
  g.nodes.flatMap (fun e => e.2.parent_ids ++ e.2.child_ids)

/-- Fuel sufficient for `getRelatedNodes`: one more than the number of
distinct ids that can ever enter the visited set. -/
def trimFuel (g : RelationshipChart) (anchors : List String) : Nat :=
  (g.keys ++ g.mentionedIds ++ anchors).dedup.length + 1

/-- `trim(..., inplace=True)`: compute the reachability closure of the
anchors, add the non-excluded relationship targets of the non-excluded
anchors, keep only the nodes in the resulting set, and optionally clean
up. -/
def trim (g : RelationshipChart) (anchor_ids exclude_ids : Option (List String))
    (clear_relations : Bool := true) : Except Err RelationshipChart := do
  let anchors := match anchor_ids with
    | some l => pySet l
    | none => g.keys
  let exclude := match exclude_ids with
    | some l => pySet l
    | none => []
  let related ← getRelatedNodes g exclude (g.trimFuel anchors) anchors []
  let related ← (sDiff anchors exclude).foldlM (fun related nid => do
    let node ← g.get_node nid
    return node.relationships.foldl
      (fun rel r => sUpdate rel (sDiff r.2 exclude)) related) related
  let g : RelationshipChart := { nodes := g.nodes.filter (fun e => e.1 ∈ related) }
  if clear_relations then
    let g ← g.remove_redundant_phantoms false
    return g.remove_dead_edges
  else
    return g

/-- `trim(..., inplace=False)`: the source deep-copies the chart and recurses
with `chart.trim(anchor_ids, inplace=True)` — neither `exclude_ids` nor
`clear_relations` is forwarded (so the copy is trimmed with no exclusions
and with the default `clear_relations=True`). -/
def trim_copy (g : RelationshipChart) (anchor_ids exclude_ids : Option (List String))
    (clear_relations : Bool := true) : Except Err RelationshipChart :=
  let _ := exclude_ids
  let _ := clear_relations
  g.trim anchor_ids none true

/-- `apply_filter_params(params, inplace=True)`. -/
def apply_filter_params (g : RelationshipChart) (params : FilterParams) :
    Except Err RelationshipChart := do
  let g :=
    if params.include_relationships.isSome ∨ params.exclude_relationships.isSome then
      g.filter_relationships params.include_relationships params.exclude_relationships
    else g
  let g ←
    if params.include_heroes.isSome ∨ params.exclude_heroes.isSome then
      g.trim params.include_heroes params.exclude_heroes false
    else pure g
  let g ← g.remove_redundant_phantoms true
  return g.remove_dead_edges

/-- `apply_filter_params(params, inplace=False)`: deep copy then the in-place
operation with the same arguments. -/
def apply_filter_params_copy (g : RelationshipChart) (params : FilterParams) :
    Except Err RelationshipChart :=
  g.apply_filter_params params

/-- `iter_relationships()` with no filters, as consumed by
`clean_relationships`: for every node in dictionary order, every
relationship entry in order and every target id in set order, look the
target up and yield `(source_id, target_id, key)`. -/
def iterRelsAll (g : RelationshipChart) :
    Except Err (List (String × String × RelKey)) := do
  let nested ← g.nodes.mapM (fun e => do
    let inner ← e.2.relationships.mapM (fun r =>
      r.2.mapM (fun t => do
        let tn ← g.get_node t
        return (e.2.id, tn.id, r.1)))
    return inner.flatten)
  return nested.flatten

/-- `sorted((first, second))` on two strings: Python compares strings
lexicographically by code point, which is the lexicographic order on the
underlying character lists. -/
def pairSorted (a b : String) : String × String :=
  if b.data < a.data then (b, a) else (a, b)

/-- `sorted((rel_status, prev_status))` on two statuses (IntEnum order). -/
def statusSorted (a b : RelationshipStatus) :
    RelationshipStatus × RelationshipStatus :=
  if b.val < a.val then (b, a) else (a, b)

/-- The key of `rel_status_dict`: the sorted endpoint pair and the
relationship kind. -/
abbrev CleanKey := (String × String) × String

/-- One step of the observation loop of `clean_relationships`, threading the
pending removal list and the status dictionary. -/
def cleanStep (st : List (String × String × RelationshipStatus × String) ×
      List (CleanKey × RelationshipStatus))
    (obs : String × String × RelKey) :
    List (String × String × RelationshipStatus × String) ×
      List (CleanKey × RelationshipStatus) :=
  let (removes, dict) := st
  let key : CleanKey := (pairSorted obs.1 obs.2.1, obs.2.2.2)
  match (dict.find? (fun e => e.1 = key)).map Prod.snd with
  | some prev =>
      let (worse, better) := statusSorted obs.2.2.1 prev
      if worse ≠ better then
        (removes ++ [(obs.1, obs.2.1, worse, obs.2.2.2)],
         dict.map (fun e => if e.1 = key then (e.1, better) else e))
      else
        (removes, dict)
  | none => (removes, dict ++ [(key, obs.2.2.1)])

/-- `clean_relationships(inplace=True)`: collect, for every relationship kind
between every unordered pair, the weaker-status entries, then remove them
from both endpoints. -/
def clean_relationships (g : RelationshipChart) : Except Err RelationshipChart := do
  let obs ← g.iterRelsAll
  let (removes, _) := obs.foldl cleanStep ([], [])
  removes.foldlM (fun g r => g.remove_relationship r.1 r.2.1 (r.2.2.1, r.2.2.2)) g

/-- `clean_relationships(inplace=False)`: deep copy then the in-place
operation. -/
def clean_relationships_copy (g : RelationshipChart) : Except Err RelationshipChart :=
  g.clean_relationships

end RelationshipChart

namespace RelationshipChart

/-! ## The graph invariants of spec §3, as decidable checkers -/

/-- `parentId ∈ nodes[childId].parent_ids`, `false` when the child is
absent. -/
def hasParent (g : RelationshipChart) (childId parentId : String) : Bool :=
  match g.findNode childId with
  | some n => parentId ∈ n.parent_ids
  | none => false

/-- `childId ∈ nodes[parentId].child_ids`, `false` when the parent is
absent. -/
def hasChild (g : RelationshipChart) (parentId childId : String) : Bool :=
  match g.findNode parentId with
  | some n => childId ∈ n.child_ids
  | none => false

/-- `tId ∈ nodes[aId].relationships[k]`, `false` when the node or the entry
is absent. -/
def hasRelTarget (g : RelationshipChart) (aId : String) (k : RelKey)
    (tId : String) : Bool :=
  match g.findNode aId with
  | some n =>
      match n.relGet k with
      | some ts => tId ∈ ts
      | none => false
  | none => false

/-- Invariant 1: every id referenced in any parent, child or relationship
target set exists as a node. -/
def inv1 (g : RelationshipChart) : Bool :=
  g.nodes.all (fun e =>
    e.2.parent_ids.all (fun i => i ∈ g.keys) &&
    e.2.child_ids.all (fun i => i ∈ g.keys) &&
    e.2.relationships.all (fun r => r.2.all (fun i => i ∈ g.keys)))

/-- Invariant 2: all edges are mutual — every child edge has the reverse
parent edge, every parent edge the reverse child edge, and every
relationship entry its reciprocal on the target. -/
def inv2 (g : RelationshipChart) : Bool :=
  g.nodes.all (fun e =>
    e.2.child_ids.all (fun c => g.hasParent c e.1) &&
    e.2.parent_ids.all (fun p => g.hasChild p e.1) &&
    e.2.relationships.all (fun r => r.2.all (fun t => g.hasRelTarget t r.1 e.1)))

/-- Invariant 3: no phantom node has an empty child set. -/
def inv3 (g : RelationshipChart) : Bool :=
  g.nodes.all (fun e => !e.2.is_phantom || !e.2.child_ids.isEmpty)

/-- Invariant 4: no phantom node's child set is a non-empty subset of another
node's child set. -/
def inv4 (g : RelationshipChart) : Bool :=
  g.nodes.all (fun e =>
    !(e.2.is_phantom && !e.2.child_ids.isEmpty) ||
    g.nodes.all (fun o => o.1 == e.1 || !(sSubset e.2.child_ids o.2.child_ids)))

/-- The status other than `s`. -/
def otherStatus : RelationshipStatus → RelationshipStatus
  | .PAST => .LOCKED
  | .LOCKED => .PAST

/-- A relationship of status `s` and kind `k` is recorded between `a` and `b`
when either endpoint holds the other in the corresponding entry. -/
def recorded (g : RelationshipChart) (a b : String) (s : RelationshipStatus)
    (k : String) : Bool :=
  g.hasRelTarget a (s, k) b || g.hasRelTarget b (s, k) a

/-- Invariant 5: for every pair and kind, at most one status is recorded —
no target is held under one status while the opposite status is also
recorded between the same pair for the same kind. -/
def inv5 (g : RelationshipChart) : Bool :=
  g.nodes.all (fun e =>
    e.2.relationships.all (fun r =>
      r.2.all (fun t => !(g.recorded e.1 t (otherStatus r.1.1) r.1.2))))

/-- Invariant 6: no node is its own parent, child or relationship target. -/
def inv6 (g : RelationshipChart) : Bool :=
  g.nodes.all (fun e =>
    e.1 ∉ e.2.parent_ids && e.1 ∉ e.2.child_ids &&
    e.2.relationships.all (fun r => e.1 ∉ r.2))

end RelationshipChart

deriving instance DecidableEq for Except

/-! ## Concrete graphs used by counterexamples and witnesses -/

/-- Build a node entry for a concrete chart. -/
def mkNode (id : String) (ph : Bool := false) (cs : List String := [])
    (ps : List String := []) (rel : List (RelKey × List String) := []) :
    String × CharacterNode :=
  (id, { id := id, label := id, is_phantom := ph, child_ids := cs,
         parent_ids := ps, relationships := rel })

/-- Two nodes with one mutual PAST "rival" relationship. -/
def c1RelGraph : RelationshipChart :=
  { nodes := [
      mkNode "a" false [] [] [((.PAST, "rival"), ["b"])],
      mkNode "b" false [] [] [((.PAST, "rival"), ["a"])] ] }

/-- A two-node parent chain `c → d`. -/
def c1ChainGraph : RelationshipChart :=
  { nodes := [mkNode "c" false ["d"], mkNode "d" false [] ["c"]] }

/-- A graph combining three independent gadgets: a self-loop node `s`
(invariant 6), a phantom `P` whose only child is the childless phantom `q`
(invariant 3), and a phantom `P2` whose child set `{a, b}` is subsumed by the
real parent `R` with one-sided child edges (invariant 4). -/
def c2Graph : RelationshipChart :=
  { nodes := [
      mkNode "s" false ["s"],
      mkNode "P" true ["q"],
      mkNode "q" true [] ["P"],
      mkNode "P2" true ["a", "b"],
      mkNode "R" false ["a", "b", "c"],
      mkNode "a" false [] ["P2"],
      mkNode "b" false [] ["P2"],
      mkNode "c"] }

/-- The invariant-4 gadget alone: phantom `P2` with children `{a, b}` and a
real node `R` whose child edges to `a`, `b`, `c` are one-sided. -/
def c3Graph : RelationshipChart :=
  { nodes := [
      mkNode "P2" true ["a", "b"],
      mkNode "R" false ["a", "b", "c"],
      mkNode "a" false [] ["P2"],
      mkNode "b" false [] ["P2"],
      mkNode "c"] }

/-- A phantom node `a` that is the sole parent of `b`. -/
def c5Graph : RelationshipChart :=
  { nodes := [mkNode "a" true ["b"], mkNode "b" false [] ["a"]] }

/-- A phantom `Q` that is the sole parent of `a`, plus an unrelated `b`. -/
def c6Graph : RelationshipChart :=
  { nodes := [mkNode "Q" true ["a"], mkNode "a" false [] ["Q"], mkNode "b"] }

/-- Two nodes where `c` is already a child of `p`. -/
def c9Graph : RelationshipChart :=
  { nodes := [mkNode "p" false ["c"], mkNode "c" false [] ["p"]] }

/-- C1 — counterexample evaluation.  On `c1RelGraph`, the non-mutating
`filter_relationships` ignores its `disallowed_relationships` argument (the
forbidden PAST "rival" edge survives in the returned copy although the
in-place run deletes it), and on `c1ChainGraph` the non-mutating `trim`
ignores its `exclude_ids` argument (the excluded node `d` survives in the
returned copy although the in-place run deletes it). -/
theorem C1_copy_mode_drops_arguments :
    ((c1RelGraph.filter_relationships_copy none
        (some [(.PAST, "rival")])).hasRelTarget "a" (.PAST, "rival") "b" = true ∧
      (c1RelGraph.filter_relationships none
        (some [(.PAST, "rival")])).hasRelTarget "a" (.PAST, "rival") "b" = false) ∧
    ((c1ChainGraph.trim_copy (some ["c"]) (some ["d"]) true).map
        (fun g => g.keys.contains "d") = .ok true ∧
      (c1ChainGraph.trim (some ["c"]) (some ["d"]) true).map
        (fun g => g.keys.contains "d") = .ok false) := by
  decide

/-- C2 — counterexample: on `c2Graph`, `postprocess` completes but leaves a
childless phantom in the graph (invariant 3 fails), a phantom whose child
set is a non-empty subset of another parent's (invariant 4 fails), and a
node that is its own parent and child (invariant 6 fails). -/
theorem C2_counterexample :
    c2Graph.postprocess.map
      (fun g => (RelationshipChart.inv3 g, RelationshipChart.inv4 g,
        RelationshipChart.inv6 g)) = .ok (false, false, false) := by
  decide

/-- C3 — counterexample: on `c3Graph` the first `postprocess` keeps the
phantom `P2` (it only symmetrizes the one-sided edges of `R`), while the
second `postprocess` then deletes `P2` as redundant — the second run changes
the graph, so `postprocess` is not idempotent. -/
theorem C3_counterexample :
    c3Graph.postprocess.map (fun g => g.keys.contains "P2") = .ok true ∧
    (c3Graph.postprocess.bind RelationshipChart.postprocess).map
      (fun g => g.keys.contains "P2") = .ok false := by
  decide

/-- C5 — counterexample: on `c5Graph` (where the sibling `a` is itself a
phantom parent of `b`), `add_sibling "a" "b"` deletes the pre-existing node
`a` and leaves the newly created phantom with child set `{b}`, not
`{a, b}`. -/
theorem C5_counterexample :
    c5Graph.add_sibling "a" "b" = .ok
      { nodes := [
          mkNode "b" false [] ["phantom_ab"],
          ("phantom_ab",
            { id := "phantom_ab", label := "unknown parent", is_phantom := true,
              child_ids := ["b"], parent_ids := [], relationships := [] })] } := by
  decide

/-- C6 — counterexample: on `c6Graph`, `add_sibling "a" "b"` removes the
pre-existing phantom parent `Q` of `a` (the synthesis runs `add_child` with
phantom handling enabled, not disabled), so the resulting node set is not
the previous node set plus the new phantom. -/
theorem C6_counterexample :
    (c6Graph.add_sibling "a" "b").map (fun g => g.keys.contains "Q") = .ok false := by
  decide

/-- C7 — counterexample: inserting a node with a duplicate id fails with a
bare `AssertionError`, not with the `DuplicateIdError` the claim names (no
such exception class exists in the source). -/
theorem C7_counterexample :
    c9Graph.add_node { id := "p", label := "again" } = .error .assertionFailed ∧
    Err.assertionFailed ≠ Err.duplicateId "p" := by
  decide

/-- C9 — counterexample: on `c9Graph`, where `c` is already a child of `p`,
`add_child p c` followed by `remove_node(c, clear_relations=true)` leaves
`p` with an empty child set instead of restoring the pre-add state
`{c}`. -/
theorem C9_counterexample :
    ((c9Graph.add_child "p" "c" true).bind
        (fun g => g.remove_node "c" true)).map
      (fun g => (g.findNode "p").map (fun n => n.child_ids)) =
      .ok (some []) ∧ (c9Graph.findNode "p").map (fun n => n.child_ids) = some ["c"] := by
  decide

/-! ## Basic lemmas about the set and dictionary primitives -/

theorem mem_sAdd {s : List String} {x y : String} :
    y ∈ sAdd s x ↔ y ∈ s ∨ y = x := by
  unfold sAdd
  split
  · next h => simp only [iff_self_or]; rintro rfl; exact h
  · simp [List.mem_append]

theorem mem_sAdd_self {s : List String} {x : String} : x ∈ sAdd s x :=
  mem_sAdd.mpr (Or.inr rfl)

theorem mem_sAdd_of_mem {s : List String} {x y : String} (h : y ∈ s) :
    y ∈ sAdd s x :=
  mem_sAdd.mpr (Or.inl h)

theorem sAdd_of_mem {s : List String} {x : String} (h : x ∈ s) :
    sAdd s x = s := by
  unfold sAdd; simp [h]

theorem mem_sUpdate {s t : List String} {y : String} :
    y ∈ sUpdate s t ↔ y ∈ s ∨ y ∈ t := by
  unfold sUpdate
  induction t generalizing s with
  | nil => simp
  | cons a t ih =>
      simp only [List.foldl_cons, ih, mem_sAdd, List.mem_cons]
      tauto

theorem mem_sDiscard {s : List String} {x y : String} :
    y ∈ sDiscard s x ↔ y ∈ s ∧ y ≠ x := by
  unfold sDiscard; simp [List.mem_filter]

theorem mem_sInter {s t : List String} {y : String} :
    y ∈ sInter s t ↔ y ∈ s ∧ y ∈ t := by
  unfold sInter; simp [List.mem_filter]

theorem mem_sDiff {s t : List String} {y : String} :
    y ∈ sDiff s t ↔ y ∈ s ∧ y ∉ t := by
  unfold sDiff; simp [List.mem_filter]

theorem sSubset_iff {s t : List String} :
    sSubset s t = true ↔ ∀ y ∈ s, y ∈ t := by
  unfold sSubset; simp [List.all_eq_true]

theorem mem_pySet {l : List String} {y : String} :
    y ∈ RelationshipChart.pySet l ↔ y ∈ l := by
  show y ∈ sUpdate [] l ↔ y ∈ l
  simp [mem_sUpdate]

theorem sInter_eq_self {s t : List String} (h : ∀ y ∈ s, y ∈ t) :
    sInter s t = s := by
  unfold sInter
  exact List.filter_eq_self.mpr (fun y hy => by simpa using h y hy)

theorem sAdd_idem {s : List String} {x : String} :
    sAdd (sAdd s x) x = sAdd s x :=
  sAdd_of_mem mem_sAdd_self

theorem sDiscard_idem {s : List String} {x : String} :
    sDiscard (sDiscard s x) x = sDiscard s x := by
  unfold sDiscard
  rw [List.filter_filter]
  congr 1
  funext a
  exact Bool.and_self _

/-! ## Lemmas about `Except` computations -/

theorem exBind_ok {α β : Type} {x : Except Err α} {f : α → Except Err β}
    {b : β} (h : x >>= f = .ok b) : ∃ a, x = .ok a ∧ f a = .ok b := by
  cases x with
  | ok a => exact ⟨a, rfl, h⟩
  | error e => exact Except.noConfusion h

theorem exMap_ok {α β : Type} {x : Except Err α} {f : α → β} {b : β}
    (h : x.map f = .ok b) : ∃ a, x = .ok a ∧ f a = b := by
  cases x with
  | ok a =>
      injection h with h2
      exact ⟨a, rfl, h2⟩
  | error e => exact Except.noConfusion h

/-! ## Lemmas about chart access -/

namespace RelationshipChart

theorem findNode_isSome_iff {g : RelationshipChart} {i : String} :
    (g.findNode i).isSome ↔ i ∈ g.keys := by
  unfold findNode keys
  rcases h : g.nodes.find? (fun e => e.1 = i) with _ | e
  · rw [h]
    simp only [Option.map_none', Option.isSome_none]
    rw [List.find?_eq_none] at h
    constructor
    · intro hF; cases hF
    · intro hmem
      exfalso
      rcases List.mem_map.mp hmem with ⟨e, he, hkey⟩
      exact h e he (by simp [hkey])
  · rw [h]
    simp only [Option.map_some', Option.isSome_some]
    constructor
    case mpr => intro hmem; trivial
    intro hT
    clear hT
    have hmem := List.mem_of_find?_eq_some h
    have hkey := List.find?_some h
    simp only [decide_eq_true_eq] at hkey
    exact hkey ▸ List.mem_map_of_mem Prod.fst hmem

theorem findNode_eq_some_of_mem_keys {g : RelationshipChart} {i : String}
    (h : i ∈ g.keys) : ∃ n, g.findNode i = some n := by
  have := findNode_isSome_iff.mpr h
  rcases hfn : g.findNode i with _ | n
  · rw [hfn] at this; simp at this
  · exact ⟨n, rfl⟩

theorem mem_keys_of_findNode {g : RelationshipChart} {i : String}
    {n : CharacterNode} (h : g.findNode i = some n) : i ∈ g.keys :=
  findNode_isSome_iff.mp (by simp [h])

theorem mem_values_of_findNode {g : RelationshipChart} {i : String}
    {n : CharacterNode} (h : g.findNode i = some n) : (i, n) ∈ g.nodes := by
  unfold findNode at h
  rcases he : g.nodes.find? (fun e => e.1 = i) with _ | e
  · rw [he] at h; simp at h
  · rw [he] at h
    simp only [Option.map_some', Option.some.injEq] at h
    have hmem := List.mem_of_find?_eq_some he
    have hkey := List.find?_some he
    simp only [decide_eq_true_eq] at hkey
    have : e = (i, n) := by
      rcases e with ⟨k, v⟩
      simp only at hkey h
      rw [hkey, h]
    exact this ▸ hmem

theorem dictGet_ok_iff {g : RelationshipChart} {i : String} {n : CharacterNode} :
    g.dictGet i = .ok n ↔ g.findNode i = some n := by
  unfold dictGet
  rcases g.findNode i with _ | m <;> simp

theorem get_node_ok_iff {g : RelationshipChart} {i : String} {n : CharacterNode} :
    g.get_node i = .ok n ↔ g.findNode i = some n := by
  unfold get_node
  rcases g.findNode i with _ | m <;> simp

theorem keys_setF {g : RelationshipChart} {i : String}
    {f : CharacterNode → CharacterNode} : (g.setF i f).keys = g.keys := by
  unfold setF keys
  rw [List.map_map]
  apply List.map_congr_left
  intro e _
  by_cases h : e.1 = i <;> simp [h]

theorem findNode_setF {g : RelationshipChart} {i j : String}
    {f : CharacterNode → CharacterNode} :
    (g.setF i f).findNode j =
      if j = i then (g.findNode j).map f else g.findNode j := by
  unfold setF findNode
  induction g.nodes with
  | nil => simp [List.find?]
  | cons e t ih =>
      by_cases he : e.1 = i
      · by_cases hj : j = i
        · subst hj
          simp [List.find?, he, Option.map]
        · simp only [List.map_cons, if_pos he, List.find?]
          have : (decide (e.1 = j)) = false := by
            simp; rintro rfl; exact hj (he ▸ rfl)
          simp only [this]
          simpa [hj] using ih
      · by_cases hej : e.1 = j
        · subst hej
          have hj : ¬ (e.1 = i) := he
          simp [List.find?, if_neg he, if_neg (by exact fun h => hj (h ▸ rfl) : ¬ (e.1 = i)), hj]
        · simp only [List.map_cons, if_neg he, List.find?]
          have : (decide (e.1 = j)) = false := by simp [hej]
          simp only [this]
          simpa using ih

theorem findNode_popNode {g : RelationshipChart} {i j : String} :
    (g.popNode i).findNode j = if j = i then none else g.findNode j := by
  unfold popNode findNode
  induction g.nodes with
  | nil => simp [List.find?]
  | cons e t ih =>
      by_cases he : e.1 = i
      · by_cases hj : j = i
        · subst hj
          simp only [if_pos rfl] at ih ⊢
          rw [List.filter_cons_of_neg (by simp [he])]
          exact ih
        · rw [List.filter_cons_of_neg (by simp [he])]
          simp only [if_neg hj] at ih ⊢
          rw [ih, List.find?]
          have : (decide (e.1 = j)) = false := by
            simp; rintro rfl; exact hj (he ▸ rfl)
          simp [this]
      · rw [List.filter_cons_of_pos (by simp [he])]
        by_cases hej : e.1 = j
        · subst hej
          have hj : ¬ (e.1 = i) := he
          simp [List.find?, hj]
        · simp only [List.find?]
          have : (decide (e.1 = j)) = false := by simp [hej]
          simp only [this]
          exact ih

theorem keys_popNode {g : RelationshipChart} {i j : String} :
    j ∈ (g.popNode i).keys ↔ j ∈ g.keys ∧ j ≠ i := by
  unfold popNode keys
  constructor
  · intro h
    rcases List.mem_map.mp h with ⟨e, he, hkey⟩
    have := List.mem_filter.mp he
    refine ⟨hkey ▸ List.mem_map_of_mem Prod.fst this.1, ?_⟩
    have h2 := this.2
    simp only [decide_eq_true_eq] at h2
    exact hkey ▸ h2
  · rintro ⟨h, hne⟩
    rcases List.mem_map.mp h with ⟨e, he, hkey⟩
    refine List.mem_map.mpr ⟨e, List.mem_filter.mpr ⟨he, ?_⟩, hkey⟩
    simp only [decide_eq_true_eq]
    exact hkey ▸ hne

end RelationshipChart

/-- C7 — amended claim: inserting a node whose id is already present fails
with `AssertionError` (the source uses a bare `assert`, and no
`DuplicateIdError` class exists) and, the failure happening before any
write, leaves the store unchanged; inserting a node with an absent id
succeeds and appends it to the store. -/
theorem C7_amended (g : RelationshipChart) (n : CharacterNode) :
    ((g.findNode n.id).isSome = true →
      g.add_node n = .error .assertionFailed) ∧
    (g.findNode n.id = none →
      g.add_node n = .ok { nodes := g.nodes ++ [(n.id, n)] }) := by
  constructor
  · intro h
    unfold RelationshipChart.add_node
    rcases hf : g.findNode n.id with _ | m
    · rw [hf] at h; simp at h
    · rfl
  · intro h
    unfold RelationshipChart.add_node
    rw [h]

/-- Witness for `C7_amended` at concrete inputs. -/
theorem C7_amended_witness :
    c9Graph.add_node { id := "p", label := "x" } = .error .assertionFailed ∧
    c9Graph.add_node { id := "z", label := "z" } =
      .ok { nodes := c9Graph.nodes ++ [("z", { id := "z", label := "z" })] } :=
  ⟨(C7_amended c9Graph { id := "p", label := "x" }).1 (by decide),
   (C7_amended c9Graph { id := "z", label := "z" }).2 (by decide)⟩

namespace RelationshipChart

/-- One-step unfolding of `getRelatedNodes` at positive fuel. -/
theorem grn_succ (g : RelationshipChart) (exclude : List String)
    (fuel : Nat) (current res : List String) :
    getRelatedNodes g exclude (fuel + 1) current res =
      (current.foldlM (fun acc cid => do
        let n ← g.get_node cid
        return sUpdate (sUpdate acc n.parent_ids) n.child_ids) []) >>=
      (fun new =>
        if sDiff (sDiff new (sUpdate res current)) exclude = [] then
          pure (sUpdate res current)
        else
          getRelatedNodes g exclude fuel
            (sDiff (sDiff new (sUpdate res current)) exclude)
            (sUpdate res current)) := rfl

/-- The closure result contains the initial frontier and the initial visited
set. -/
theorem grn_subset (g : RelationshipChart) (exclude : List String) :
    ∀ (fuel : Nat) (current res out : List String),
      getRelatedNodes g exclude fuel current res = .ok out →
      ∀ i, (i ∈ current ∨ i ∈ res) → i ∈ out := by
  intro fuel
  induction fuel with
  | zero =>
      intro c r out h
      exact Except.noConfusion h
  | succ fuel ih =>
      intro c r out h i hi
      rw [grn_succ] at h
      rcases exBind_ok h with ⟨new, _, hrest⟩
      have hmem : i ∈ sUpdate r c := mem_sUpdate.mpr hi.symm
      by_cases hnil : sDiff (sDiff new (sUpdate r c)) exclude = []
      · rw [if_pos hnil] at hrest
        injection hrest with h2
        exact h2 ▸ hmem
      · rw [if_neg hnil] at hrest
        exact ih _ _ _ hrest i (Or.inr hmem)

/-- Folding set updates over a list only grows the set. -/
theorem mem_foldl_sUpdate {β : Type} (f : β → List String) :
    ∀ (l : List β) (s : List String) (i : String),
      i ∈ s → i ∈ l.foldl (fun acc b => sUpdate acc (f b)) s := by
  intro l
  induction l with
  | nil => intro s i h; exact h
  | cons b t ih =>
      intro s i h
      exact ih _ i (mem_sUpdate.mpr (Or.inl h))

/-- The relationship-target augmentation loop inside `trim` only grows the
related set. -/
theorem trim_aug_supset (g : RelationshipChart) (exclude : List String) :
    ∀ (l : List String) (s out : List String),
      l.foldlM (fun related nid => do
          let node ← g.get_node nid
          return node.relationships.foldl
            (fun rel (r : RelKey × List String) =>
              sUpdate rel (sDiff r.2 exclude)) related) s = .ok out →
      ∀ i ∈ s, i ∈ out := by
  intro l
  induction l with
  | nil =>
      intro s out h i hi
      rw [List.foldlM_nil] at h
      injection h with h2
      exact h2 ▸ hi
  | cons a t ih =>
      intro s out h i hi
      rw [List.foldlM_cons] at h
      rcases exBind_ok h with ⟨s1, hs1, hrest⟩
      rcases exBind_ok hs1 with ⟨node, _, hpure⟩
      injection hpure with h2
      refine ih _ _ hrest i ?_
      rw [← h2]
      exact mem_foldl_sUpdate (fun r => sDiff r.2 exclude) node.relationships s i hi

/-- C10 — implicit claim: an in-place `trim` with `clear_relations=false`
never deletes a non-phantom anchor node, even when the same id also appears
in the exclusion list: exclusion only stops the closure from expanding and
filters relationship targets, while the anchor set is unconditionally added
to the visited set before expansion. -/
theorem C10_trim_keeps_anchors (g : RelationshipChart)
    (anchors excludes : List String) (g' : RelationshipChart)
    (aid : String) (na : CharacterNode)
    (h : g.trim (some anchors) (some excludes) false = .ok g')
    (ha : aid ∈ anchors) (hmem : g.findNode aid = some na)
    (hph : na.is_phantom = false) : aid ∈ g'.keys := by
  have h2 :
      (g.getRelatedNodes (pySet excludes) (g.trimFuel (pySet anchors))
        (pySet anchors) []) >>= (fun related =>
        ((sDiff (pySet anchors) (pySet excludes)).foldlM (fun rel nid => do
            let node ← g.get_node nid
            pure (node.relationships.foldl
              (fun rel (r : RelKey × List String) =>
                sUpdate rel (sDiff r.2 (pySet excludes))) rel)) related) >>=
          (fun related2 =>
            pure { nodes := g.nodes.filter (fun e => e.1 ∈ related2) })) =
      .ok g' := h
  rcases exBind_ok h2 with ⟨related, hrel, hrest⟩
  rcases exBind_ok hrest with ⟨related2, hrel2, hfin⟩
  injection hfin with hfin
  have h1 : aid ∈ related :=
    grn_subset g (pySet excludes) _ _ _ _ hrel aid (Or.inl (mem_pySet.mpr ha))
  have h3 : aid ∈ related2 := trim_aug_supset g (pySet excludes) _ _ _ hrel2 aid h1
  have hentry : (aid, na) ∈ g.nodes := mem_values_of_findNode hmem
  rw [← hfin]
  unfold keys
  exact List.mem_map.mpr ⟨(aid, na),
    List.mem_filter.mpr ⟨hentry, by simpa using h3⟩, rfl⟩

end RelationshipChart

/-- Witness for `C10_trim_keeps_anchors`: trimming the chain `c → d` with
anchor `c` that is simultaneously excluded keeps `c`. -/
theorem C10_trim_keeps_anchors_witness :
    c1ChainGraph.trim (some ["c"]) (some ["c"]) false =
      .ok { nodes := c1ChainGraph.nodes } ∧
    "c" ∈ RelationshipChart.keys { nodes := c1ChainGraph.nodes } :=
  ⟨by decide,
   RelationshipChart.C10_trim_keeps_anchors c1ChainGraph ["c"] ["c"]
     { nodes := c1ChainGraph.nodes } "c"
     { id := "c", label := "c", is_phantom := false, child_ids := ["d"],
       parent_ids := [], relationships := [] }
     (by decide) (by decide) (by decide) (by decide)⟩

theorem exBind_error {α β : Type} {x : Except Err α} {f : α → Except Err β}
    {e : Err} (h : x >>= f = .error e) :
    x = .error e ∨ ∃ a, x = .ok a ∧ f a = .error e := by
  cases x with
  | ok a => exact Or.inr ⟨a, rfl, h⟩
  | error e2 =>
      left
      have : e2 = e := by
        have h2 : (Except.error e2 : Except Err β) = .error e := h
        injection h2
      rw [this]

namespace RelationshipChart

theorem get_node_error {g : RelationshipChart} {i : String} {e : Err}
    (h : g.get_node i = .error e) : e = .missingNode i := by
  unfold get_node at h
  rcases hf : g.findNode i with _ | n <;> rw [hf] at h
  · injection h with h2
    exact h2.symm
  · exact Except.noConfusion h

/-- Errors of the frontier-expansion fold inside `_get_related_nodes` are
always `MissingNodeError`s. -/
theorem grn_expand_error (g : RelationshipChart) :
    ∀ (l : List String) (acc : List String) (e : Err),
      l.foldlM (fun acc cid => do
        let n ← g.get_node cid
        return sUpdate (sUpdate acc n.parent_ids) n.child_ids) acc = .error e →
      ∃ id, e = .missingNode id := by
  intro l
  induction l with
  | nil =>
      intro acc e h
      exact Except.noConfusion h
  | cons a t ih =>
      intro acc e h
      rw [List.foldlM_cons] at h
      rcases exBind_error h with hstep | ⟨acc', _, hrest⟩
      · rcases exBind_error hstep with herr | ⟨n, _, hpure⟩
        · exact ⟨a, get_node_error herr⟩
        · exact Except.noConfusion hpure
      · exact ih _ _ hrest

/-- Every id produced by the frontier-expansion fold is either already in
the accumulator or mentioned in some parent/child set of the chart. -/
theorem grn_expand_subset (g : RelationshipChart) :
    ∀ (l : List String) (acc out : List String),
      l.foldlM (fun acc cid => do
        let n ← g.get_node cid
        return sUpdate (sUpdate acc n.parent_ids) n.child_ids) acc = .ok out →
      ∀ i ∈ out, i ∈ acc ∨ i ∈ g.mentionedIds := by
  intro l
  induction l with
  | nil =>
      intro acc out h i hi
      injection h with h2
      exact Or.inl (h2 ▸ hi)
  | cons a t ih =>
      intro acc out h i hi
      rw [List.foldlM_cons] at h
      rcases exBind_ok h with ⟨acc', hstep, hrest⟩
      rcases exBind_ok hstep with ⟨n, hget, hpure⟩
      injection hpure with hpure
      rcases ih _ _ hrest i hi with hin | hin
      · rw [← hpure] at hin
        rcases mem_sUpdate.mp hin with hin2 | hin2
        · rcases mem_sUpdate.mp hin2 with hin3 | hin3
          · exact Or.inl hin3
          · refine Or.inr ?_
            have hfn := get_node_ok_iff.mp hget
            have hmm := mem_values_of_findNode hfn
            exact List.mem_flatMap.mpr ⟨(a, n), hmm, by
              simp [List.mem_append, hin3]⟩
        · refine Or.inr ?_
          have hfn := get_node_ok_iff.mp hget
          have hmm := mem_values_of_findNode hfn
          exact List.mem_flatMap.mpr ⟨(a, n), hmm, by
            simp [List.mem_append, hin2]⟩
      · exact Or.inr hin

end RelationshipChart

theorem length_filter_mono {p q : String → Bool}
    (h : ∀ a, q a = true → p a = true) :
    ∀ l : List String, (l.filter q).length ≤ (l.filter p).length := by
  intro l
  induction l with
  | nil => exact Nat.le_refl _
  | cons a t ih =>
      by_cases hq : q a = true
      · rw [List.filter_cons_of_pos hq, List.filter_cons_of_pos (h a hq)]
        exact Nat.succ_le_succ ih
      · rw [List.filter_cons_of_neg (by simpa using hq)]
        by_cases hp : p a = true
        · rw [List.filter_cons_of_pos hp]
          exact Nat.le_trans ih (Nat.le_succ _)
        · rw [List.filter_cons_of_neg (by simpa using hp)]
          exact ih

theorem length_filter_notMem_strict {res res' : List String}
    (hsub : ∀ i ∈ res, i ∈ res') (x : String) (hx' : x ∈ res') (hxn : x ∉ res) :
    ∀ l : List String, x ∈ l →
      (l.filter (fun i => i ∉ res')).length <
        (l.filter (fun i => i ∉ res)).length := by
  have hpq : ∀ a : String, (decide (a ∉ res') = true) → (decide (a ∉ res) = true) := by
    intro a ha
    simp only [decide_eq_true_eq] at ha ⊢
    exact fun hmem => ha (hsub a hmem)
  intro l
  induction l with
  | nil => intro hx; cases hx
  | cons a t ih =>
      intro hx
      by_cases hax : a = x
      · subst hax
        rw [List.filter_cons_of_neg (by simpa using hx'),
          List.filter_cons_of_pos (by simpa using hxn)]
        exact Nat.lt_succ_of_le (length_filter_mono hpq t)
      · have hxt : x ∈ t := by
          rcases List.mem_cons.mp hx with h1 | h1
          · exact absurd h1.symm hax
          · exact h1
        by_cases hq : (decide (a ∉ res')) = true
        · have hqP : a ∉ res' := by simpa using hq
          have hpP : a ∉ res := by simpa using hpq a hq
          have e1 : List.filter (fun i => decide (i ∉ res')) (a :: t) =
              a :: List.filter (fun i => decide (i ∉ res')) t := by
            simp [List.filter_cons, hqP]
          have e2 : List.filter (fun i => decide (i ∉ res)) (a :: t) =
              a :: List.filter (fun i => decide (i ∉ res)) t := by
            simp [List.filter_cons, hpP]
          rw [e1, e2]
          exact Nat.succ_lt_succ (ih hxt)
        · have hqP : a ∈ res' := by simpa using hq
          have e1 : List.filter (fun i => decide (i ∉ res')) (a :: t) =
              List.filter (fun i => decide (i ∉ res')) t := by
            simp [List.filter_cons, hqP]
          rw [e1]
          by_cases hp : (decide (a ∉ res)) = true
          · have hpP : a ∉ res := by simpa using hp
            have e2 : List.filter (fun i => decide (i ∉ res)) (a :: t) =
                a :: List.filter (fun i => decide (i ∉ res)) t := by
              simp [List.filter_cons, hpP]
            rw [e2]
            exact Nat.lt_trans (ih hxt) (Nat.lt_succ_self _)
          · have hpP : a ∈ res := by simpa using hp
            have e2 : List.filter (fun i => decide (i ∉ res)) (a :: t) =
                List.filter (fun i => decide (i ∉ res)) t := by
              simp [List.filter_cons, hpP]
            rw [e2]
            exact ih hxt

namespace RelationshipChart

/-- Fuel bound for the closure recursion: as long as more fuel remains than
there are ids that could still be visited, the recursion never exhausts the
modelled stack — each level adds the non-empty, disjoint frontier to the
visited set, so the unvisited portion of the universe strictly shrinks. -/
theorem grn_fuel_sufficient (g : RelationshipChart) (exclude : List String)
    (U : List String) (hU : ∀ i ∈ g.mentionedIds, i ∈ U) :
    ∀ (fuel : Nat) (current res : List String),
      (∀ i ∈ current, i ∈ U) → (∀ i ∈ res, i ∈ U) →
      (∀ i ∈ current, i ∉ res) →
      (U.dedup.filter (fun i => i ∉ res)).length < fuel →
      getRelatedNodes g exclude fuel current res ≠ .error .fuelExhausted := by
  intro fuel
  induction fuel with
  | zero =>
      intro c r _ _ _ hlt
      exact absurd hlt (Nat.not_lt_zero _)
  | succ fuel ih =>
      intro c r hcU hrU hdisj hlt
      rw [grn_succ]
      intro hcontra
      rcases exBind_error hcontra with herr | ⟨new, hfold, hrest⟩
      · rcases grn_expand_error g _ _ _ herr with ⟨id, hid⟩
        exact Err.noConfusion hid
      · by_cases hnil : sDiff (sDiff new (sUpdate r c)) exclude = []
        · rw [if_pos hnil] at hrest
          exact Except.noConfusion hrest
        · rw [if_neg hnil] at hrest
          have hcne : c ≠ [] := by
            rintro rfl
            rw [List.foldlM_nil] at hfold
            injection hfold with h2
            exact hnil (by rw [← h2]; rfl)
          rcases List.exists_mem_of_ne_nil c hcne with ⟨x, hx⟩
          refine ih (sDiff (sDiff new (sUpdate r c)) exclude) (sUpdate r c)
            ?_ ?_ ?_ ?_ hrest
          · intro i hi
            have hi2 := (mem_sDiff.mp hi).1
            have hi3 := (mem_sDiff.mp hi2).1
            rcases grn_expand_subset g _ _ _ hfold i hi3 with h0 | h0
            · cases h0
            · exact hU i h0
          · intro i hi
            rcases mem_sUpdate.mp hi with h0 | h0
            · exact hrU i h0
            · exact hcU i h0
          · intro i hi
            have hi2 := (mem_sDiff.mp hi).1
            exact (mem_sDiff.mp hi2).2
          · have hstrict := @length_filter_notMem_strict r (sUpdate r c)
              (fun i hi => mem_sUpdate.mpr (Or.inl hi)) x
              (mem_sUpdate.mpr (Or.inr hx)) (hdisj x hx) U.dedup
              (List.mem_dedup.mpr (hcU x hx))
            omega

/-- C4 — the reachability closure inside `trim` reaches its fixpoint after
finitely many expansion steps: with fuel covering one recursion level per
distinct id that can ever be visited (the bound `trim` itself uses), the
modelled recursion never runs out.  The visited set (`res_set`) strictly
absorbs the non-empty disjoint frontier at every level, so the unvisited
universe strictly shrinks.  (The stack-safety half of the claim is refuted
by the source, which implements this as genuine call-stack recursion; see
the results entry.) -/
theorem C4_closure_terminates (g : RelationshipChart)
    (exclude anchors : List String) :
    g.getRelatedNodes exclude (g.trimFuel anchors) anchors [] ≠
      .error .fuelExhausted := by
  have hU : ∀ i ∈ g.mentionedIds, i ∈ (g.keys ++ g.mentionedIds ++ anchors) := by
    intro i hi
    simp [List.mem_append, hi]
  refine grn_fuel_sufficient g exclude (g.keys ++ g.mentionedIds ++ anchors) hU
    (g.trimFuel anchors) anchors [] ?_ ?_ ?_ ?_
  · intro i hi
    simp [List.mem_append, hi]
  · intro i hi
    cases hi
  · intro i _
    exact List.not_mem_nil i
  · unfold trimFuel
    have : ((g.keys ++ g.mentionedIds ++ anchors).dedup.filter
        (fun i => i ∉ ([] : List String))) =
        (g.keys ++ g.mentionedIds ++ anchors).dedup := by
      apply List.filter_eq_self.mpr
      intro a _
      simp
    rw [this]
    exact Nat.lt_succ_self _

end RelationshipChart

theorem exPure_ok {α : Type} {a b : α}
    (h : (pure a : Except Err α) = .ok b) : a = b := by
  injection h

/-- Generic invariant-preservation for `foldlM` over `Except`. -/
theorem foldlM_graph_inv {β : Type}
    (step : RelationshipChart → β → Except Err RelationshipChart)
    (motive : RelationshipChart → Prop)
    (hstep : ∀ s b s', motive s → step s b = .ok s' → motive s') :
    ∀ (l : List β) (s s' : RelationshipChart),
      motive s → l.foldlM step s = .ok s' → motive s' := by
  intro l
  induction l with
  | nil =>
      intro s s' hm h
      rw [List.foldlM_nil] at h
      exact (exPure_ok h) ▸ hm
  | cons b t ih =>
      intro s s' hm h
      rw [List.foldlM_cons] at h
      rcases exBind_ok h with ⟨s1, hs1, hrest⟩
      exact ih s1 s' (hstep s b s1 hm hs1) hrest

namespace RelationshipChart

theorem findNode_addEntry {g : RelationshipChart} {i : String}
    {n : CharacterNode} {k : String} :
    RelationshipChart.findNode { nodes := g.nodes ++ [(i, n)] } k =
      (match g.findNode k with
       | some m => some m
       | none => if k = i then some n else none) := by
  unfold findNode
  rw [List.find?_append]
  rcases h : g.nodes.find? (fun e => e.1 = k) with _ | e
  · rw [h]
    by_cases hk : k = i
    · subst hk
      simp [List.find?, Option.or]
    · have hd : (decide ((i, n).1 = k)) = false := by
        simp only [decide_eq_false_iff_not]
        exact fun hh => hk (hh ▸ rfl)
      simp [List.find?, hd, Option.or, hk]
  · rw [h]
    simp [Option.or]

/-- The freshly generated phantom id is longer than every key, hence new. -/
theorem concatKeys_length_ge :
    ∀ (l : List String) (k : String), k ∈ l → k.length ≤ (concatKeys l).length := by
  intro l
  induction l with
  | nil => intro k hk; cases hk
  | cons a t ih =>
      intro k hk
      rcases List.mem_cons.mp hk with rfl | hk
      · show k.length ≤ (k ++ concatKeys t).length
        rw [String.length_append]
        exact Nat.le_add_right _ _
      · show k.length ≤ (a ++ concatKeys t).length
        rw [String.length_append]
        exact Nat.le_trans (ih k hk) (Nat.le_add_left _ _)

theorem freshPhantomId_not_mem (g : RelationshipChart) :
    g.freshPhantomId ∉ g.keys := by
  intro hmem
  have h1 := concatKeys_length_ge g.keys _ hmem
  unfold freshPhantomId at h1
  rw [String.length_append] at h1
  have h8 : ("phantom_" : String).length = 8 := rfl
  omega

theorem freshPhantomId_findNode (g : RelationshipChart) :
    g.findNode g.freshPhantomId = none := by
  rcases h : g.findNode g.freshPhantomId with _ | n
  · rfl
  · exact absurd (mem_keys_of_findNode h) (freshPhantomId_not_mem g)

/-- The core fields of a node, every one the phantom-handling analysis needs
to track. -/
def fieldMap (g : RelationshipChart) (k : String) :
    Option (String × Bool × List String × List String) :=
  (g.findNode k).map (fun n => (n.id, n.is_phantom, n.child_ids, n.parent_ids))

theorem setF_fieldMap {g : RelationshipChart} {i : String}
    {f : CharacterNode → CharacterNode}
    (hpres : ∀ n, (f n).id = n.id ∧ (f n).is_phantom = n.is_phantom ∧
      (f n).child_ids = n.child_ids ∧ (f n).parent_ids = n.parent_ids) :
    ∀ k, (g.setF i f).fieldMap k = g.fieldMap k := by
  intro k
  unfold fieldMap
  rw [findNode_setF]
  by_cases hk : k = i
  · rw [if_pos hk]
    rcases g.findNode k with _ | n
    · rfl
    · simp only [Option.map_some']
      rcases hpres n with ⟨h1, h2, h3, h4⟩
      rw [h1, h2, h3, h4]
  · rw [if_neg hk]

theorem relDiscard_fieldPres (key : RelKey) (x : String) :
    ∀ n : CharacterNode, (n.relDiscard key x).id = n.id ∧
      (n.relDiscard key x).is_phantom = n.is_phantom ∧
      (n.relDiscard key x).child_ids = n.child_ids ∧
      (n.relDiscard key x).parent_ids = n.parent_ids := by
  intro n
  unfold CharacterNode.relDiscard
  rcases h : n.relGet key with _ | ts <;> exact ⟨rfl, rfl, rfl, rfl⟩

theorem remove_relationship_fieldMap {g g' : RelationshipChart}
    {a b : String} {key : RelKey}
    (h : g.remove_relationship a b key = .ok g') :
    ∀ k, g'.fieldMap k = g.fieldMap k := by
  intro k
  unfold remove_relationship at h
  rcases exBind_ok h with ⟨n1, _, h2⟩
  rcases exBind_ok h2 with ⟨n2, _, h3⟩
  have hg' : g' = (g.setF a (fun n => n.relDiscard key b)).setF b
      (fun n => n.relDiscard key a) := (exPure_ok h3).symm
  rw [hg', setF_fieldMap (relDiscard_fieldPres key a),
    setF_fieldMap (relDiscard_fieldPres key b)]

theorem keys_addEntry {g : RelationshipChart} {i : String} {n : CharacterNode} :
    RelationshipChart.keys { nodes := g.nodes ++ [(i, n)] } = g.keys ++ [i] := by
  unfold keys
  simp

/-- Characterization of a fold of idempotent node updates over a list of
keys: every node is either untouched or updated exactly once. -/
theorem foldl_setF_char {β : Type} (kf : β → String)
    (f : CharacterNode → CharacterNode) (hidem : ∀ n, f (f n) = f n) :
    ∀ (l : List β) (g : RelationshipChart) (k : String),
      (l.foldl (fun g b => g.setF (kf b) f) g).findNode k = g.findNode k ∨
      (l.foldl (fun g b => g.setF (kf b) f) g).findNode k = (g.findNode k).map f := by
  intro l
  induction l with
  | nil => intro g k; exact Or.inl rfl
  | cons b t ih =>
      intro g k
      rw [List.foldl_cons]
      rcases ih (g.setF (kf b) f) k with hc | hc <;> rw [hc, findNode_setF]
      · by_cases hk : k = kf b
        · rw [if_pos hk]; exact Or.inr rfl
        · rw [if_neg hk]; exact Or.inl rfl
      · by_cases hk : k = kf b
        · rw [if_pos hk]
          right
          rcases g.findNode k with _ | n
          · rfl
          · simp only [Option.map_some']
            rw [hidem n]
        · rw [if_neg hk]; exact Or.inr rfl

theorem foldl_setF_keys {β : Type} (kf : β → String)
    (f : CharacterNode → CharacterNode) :
    ∀ (l : List β) (g : RelationshipChart),
      (l.foldl (fun g b => g.setF (kf b) f) g).keys = g.keys := by
  intro l
  induction l with
  | nil => intro g; rfl
  | cons b t ih =>
      intro g
      rw [List.foldl_cons, ih, keys_setF]

end RelationshipChart

namespace RelationshipChart

/-- What `remove_node` can do to the store: it deletes exactly the entry of
the removed id, and every surviving node keeps its id and phantom flag while
its child and parent sets are at most stripped of the removed id. -/
theorem remove_node_effect {g : RelationshipChart} {q : String} {c : Bool}
    {g' : RelationshipChart} (h : g.remove_node q c = .ok g') :
    (∀ k, k ∈ g'.keys ↔ k ∈ g.keys ∧ k ≠ q) ∧
    (∀ k n', g'.findNode k = some n' → ∃ n, g.findNode k = some n ∧
      n'.id = n.id ∧ n'.is_phantom = n.is_phantom ∧
      (n'.child_ids = n.child_ids ∨ n'.child_ids = sDiscard n.child_ids q) ∧
      (n'.parent_ids = n.parent_ids ∨ n'.parent_ids = sDiscard n.parent_ids q)) := by
  unfold remove_node at h
  rcases exBind_ok h with ⟨node, hnode, h2⟩
  cases c with
  | false =>
      rw [if_neg (by simp)] at h2
      have hg' : g' = g.popNode q := (exPure_ok h2).symm
      subst hg'
      constructor
      · intro k; exact keys_popNode
      · intro k n' hk
        rw [findNode_popNode] at hk
        by_cases hkq : k = q
        · rw [if_pos hkq] at hk; exact Option.noConfusion hk
        · rw [if_neg hkq] at hk
          exact ⟨n', hk, rfl, rfl, Or.inl rfl, Or.inl rfl⟩
  | true =>
      rw [if_pos rfl] at h2
      rcases exBind_ok h2 with ⟨cs, _, h3⟩
      rcases exBind_ok h3 with ⟨node2, _, h4⟩
      rcases exBind_ok h4 with ⟨ps, _, h5⟩
      rcases exBind_ok h5 with ⟨g3, hg3, h6⟩
      have hg' : g' = g3.popNode q := (exPure_ok h6).symm
      set f1 : CharacterNode → CharacterNode :=
        fun n => { n with parent_ids := sDiscard n.parent_ids q } with hf1
      set f2 : CharacterNode → CharacterNode :=
        fun n => { n with child_ids := sDiscard n.child_ids q } with hf2
      set g1 := node.child_ids.foldl (fun g cid => g.setF cid f1) g with hg1
      set g2 := node2.parent_ids.foldl (fun g pid2 => g.setF pid2 f2) g1 with hg2
      have hfm : ∀ k, g3.fieldMap k = g2.fieldMap k := by
        have := foldlM_graph_inv
          (fun g t => g.remove_relationship t.1 q t.2)
          (fun s => ∀ k, s.fieldMap k = g2.fieldMap k)
          (fun s b s' hm hs => by
            intro k
            rw [remove_relationship_fieldMap hs k]
            exact hm k)
          (g2.iterRelsTarget node2.id) g2 g3 (fun k => rfl) hg3
        exact this
      have hkeys2 : g2.keys = g.keys := by
        rw [hg2, foldl_setF_keys, hg1, foldl_setF_keys]
      have hkeys3 : ∀ k, k ∈ g3.keys ↔ k ∈ g.keys := by
        intro k
        rw [← findNode_isSome_iff, ← hkeys2, ← findNode_isSome_iff]
        have h1 := hfm k
        unfold fieldMap at h1
        rcases hA : g3.findNode k with _ | nA <;>
          rcases hB : g2.findNode k with _ | nB <;>
          rw [hA, hB] at h1 <;> simp at h1 ⊢
      constructor
      · intro k
        rw [hg']
        rw [keys_popNode]
        rw [hkeys3 k]
      · intro k n' hk
        rw [hg', findNode_popNode] at hk
        by_cases hkq : k = q
        · rw [if_pos hkq] at hk; exact Option.noConfusion hk
        · rw [if_neg hkq] at hk
          have h1 := hfm k
          unfold fieldMap at h1
          rw [hk] at h1
          rcases hB : g2.findNode k with _ | n2 <;> rw [hB] at h1
          · simp at h1
          · simp only [Option.map_some', Option.some.injEq, Prod.mk.injEq] at h1
            rcases h1 with ⟨hid, hph, hch, hpr⟩
            have hchar2 := foldl_setF_char (fun pid2 => pid2) f2
              (by intro n; simp [hf2, sDiscard_idem]) node2.parent_ids g1 k
            rw [← hg2] at hchar2
            rcases hchar2 with hc2 | hc2 <;> rw [hc2] at hB
            · rcases hA1 : g1.findNode k with _ | n1 <;> rw [hA1] at hB
              · exact Option.noConfusion hB
              · have hn2 : n2 = n1 := by injection hB with hh; exact hh.symm
                have hchar1 := foldl_setF_char (fun cid => cid) f1
                  (by intro n; simp [hf1, sDiscard_idem]) node.child_ids g k
                rw [← hg1] at hchar1
                rcases hchar1 with hc1 | hc1 <;> rw [hc1] at hA1
                · exact ⟨n1, hA1, by rw [hid, hn2], by rw [hph, hn2],
                    Or.inl (by rw [hch, hn2]), Or.inl (by rw [hpr, hn2])⟩
                · rcases hA0 : g.findNode k with _ | n0 <;> rw [hA0] at hA1
                  · exact Option.noConfusion hA1
                  · have hn1 : n1 = f1 n0 := by injection hA1 with hh; exact hh.symm
                    refine ⟨n0, rfl, ?_, ?_, ?_, ?_⟩
                    · rw [hid, hn2, hn1]
                    · rw [hph, hn2, hn1]
                    · exact Or.inl (by rw [hch, hn2, hn1])
                    · exact Or.inr (by rw [hpr, hn2, hn1])
            · rcases hA1 : g1.findNode k with _ | n1 <;> rw [hA1] at hB
              · exact Option.noConfusion hB
              · have hn2 : n2 = f2 n1 := by injection hB with hh; exact hh.symm
                have hchar1 := foldl_setF_char (fun cid => cid) f1
                  (by intro n; simp [hf1, sDiscard_idem]) node.child_ids g k
                rw [← hg1] at hchar1
                rcases hchar1 with hc1 | hc1 <;> rw [hc1] at hA1
                · refine ⟨n1, hA1, ?_, ?_, ?_, ?_⟩
                  · rw [hid, hn2]
                  · rw [hph, hn2]
                  · exact Or.inr (by rw [hch, hn2])
                  · exact Or.inl (by rw [hpr, hn2])
                · rcases hA0 : g.findNode k with _ | n0 <;> rw [hA0] at hA1
                  · exact Option.noConfusion hA1
                  · have hn1 : n1 = f1 n0 := by injection hA1 with hh; exact hh.symm
                    refine ⟨n0, rfl, ?_, ?_, ?_, ?_⟩
                    · rw [hid, hn2, hn1]
                    · rw [hph, hn2, hn1]
                    · exact Or.inr (by rw [hch, hn2, hn1])
                    · exact Or.inr (by rw [hpr, hn2, hn1])

end RelationshipChart

namespace RelationshipChart

/-- Python-dict consistency: every stored node's `id` attribute equals its
dictionary key.  Every chart reachable through the class's own operations
satisfies this (nodes are keyed by `node.id` on insertion). -/
def wfIds (g : RelationshipChart) : Bool :=
  g.nodes.all (fun e => e.2.id == e.1)

theorem wfIds_findNode {g : RelationshipChart} (hwf : wfIds g = true)
    {k : String} {n : CharacterNode} (h : g.findNode k = some n) : n.id = k := by
  have hmem := mem_values_of_findNode h
  have := (List.all_eq_true.mp hwf) (k, n) hmem
  simpa using this

/-- The invariant carried through `add_sibling`'s synthesis: ids match keys,
no key beyond the original ones plus the fresh phantom id ever appears, every
dropped original key belonged to a phantom, and surviving nodes keep their
original phantom flag. -/
def phantomOnlyInv (g₀ : RelationshipChart) (pid : String)
    (cur : RelationshipChart) : Prop :=
  (∀ k n, cur.findNode k = some n → n.id = k) ∧
  (∀ k, k ∈ cur.keys → k ∈ g₀.keys ∨ k = pid) ∧
  (∀ k, k ∈ g₀.keys → k ∉ cur.keys →
    ∃ n₀, g₀.findNode k = some n₀ ∧ n₀.is_phantom = true) ∧
  (∀ k n, cur.findNode k = some n → k ≠ pid →
    ∃ n₀, g₀.findNode k = some n₀ ∧ n₀.is_phantom = n.is_phantom)

theorem phantomOnlyInv_setF {g₀ : RelationshipChart} {pid : String}
    {cur : RelationshipChart} {i : String} {f : CharacterNode → CharacterNode}
    (hInv : phantomOnlyInv g₀ pid cur)
    (hf : ∀ n, (f n).id = n.id ∧ (f n).is_phantom = n.is_phantom) :
    phantomOnlyInv g₀ pid (cur.setF i f) := by
  obtain ⟨hwf, h1, h2, h3⟩ := hInv
  refine ⟨?_, ?_, ?_, ?_⟩
  · intro k n hk
    rw [findNode_setF] at hk
    by_cases hki : k = i
    · rw [if_pos hki] at hk
      rcases hA : cur.findNode k with _ | m <;> rw [hA] at hk
      · exact Option.noConfusion hk
      · injection hk with hk
        rw [← hk, (hf m).1]
        exact hwf k m hA
    · rw [if_neg hki] at hk
      exact hwf k n hk
  · intro k hk
    rw [keys_setF] at hk
    exact h1 k hk
  · intro k hk hnk
    rw [keys_setF] at hnk
    exact h2 k hk hnk
  · intro k n hk hkp
    rw [findNode_setF] at hk
    by_cases hki : k = i
    · rw [if_pos hki] at hk
      rcases hA : cur.findNode k with _ | m <;> rw [hA] at hk
      · exact Option.noConfusion hk
      · injection hk with hk
        rcases h3 k m hA hkp with ⟨n₀, hn₀, hph⟩
        exact ⟨n₀, hn₀, by rw [hph, ← hk, (hf m).2]⟩
    · rw [if_neg hki] at hk
      exact h3 k n hk hkp

theorem phantomOnlyInv_remove {g₀ : RelationshipChart} {pid : String}
    {cur cur' : RelationshipChart} {oid : String} {other : CharacterNode}
    {c : Bool} (hInv : phantomOnlyInv g₀ pid cur)
    (hother : cur.findNode oid = some other)
    (hph : other.is_phantom = true) (hnp : other.id ≠ pid)
    (h : cur.remove_node other.id c = .ok cur') :
    phantomOnlyInv g₀ pid cur' := by
  obtain ⟨hwf, h1, h2, h3⟩ := hInv
  have hoid : other.id = oid := hwf oid other hother
  obtain ⟨hkeys, hfield⟩ := remove_node_effect h
  refine ⟨?_, ?_, ?_, ?_⟩
  · intro k n hk
    rcases hfield k n hk with ⟨m, hm, hid, _, _, _⟩
    rw [hid]
    exact hwf k m hm
  · intro k hk
    exact h1 k ((hkeys k).mp hk).1
  · intro k hk hnk
    by_cases hcur : k ∈ cur.keys
    · have hkq : k = other.id := by
        by_contra hne
        exact hnk ((hkeys k).mpr ⟨hcur, hne⟩)
      rw [hkq, hoid]
      rcases h3 oid other hother (by rw [← hoid]; exact hnp) with ⟨n₀, hn₀, hp⟩
      exact ⟨n₀, hn₀, by rw [hp, hph]⟩
    · exact h2 k hk hcur
  · intro k n hk hkp
    rcases hfield k n hk with ⟨m, hm, _, hphm, _, _⟩
    rcases h3 k m hm hkp with ⟨n₀, hn₀, hp⟩
    exact ⟨n₀, hn₀, by rw [hp, ← hphm]⟩

theorem phantomOnlyInv_scan {g₀ : RelationshipChart} {pid : String} :
    ∀ (pids : List String) (cur cur' : RelationshipChart),
      phantomOnlyInv g₀ pid cur →
      handlePhantomsScan pid pids cur = .ok cur' →
      phantomOnlyInv g₀ pid cur' := by
  intro pids cur cur' hInv h
  refine foldlM_graph_inv _ (phantomOnlyInv g₀ pid) ?_ pids cur cur' hInv h
  intro s oid s' hI hstep
  rcases exBind_ok hstep with ⟨other, hother, h2⟩
  rcases exBind_ok h2 with ⟨parent, hparent, h3⟩
  by_cases heq : other.id = parent.id
  · rw [if_pos heq] at h3
    exact (exPure_ok h3) ▸ hI
  · rw [if_neg heq] at h3
    by_cases hcond : (other.is_phantom = true ∧ sSubset other.child_ids parent.child_ids = true)
    · rw [if_pos hcond] at h3
      have hpid : parent.id = pid := hI.1 pid parent (dictGet_ok_iff.mp hparent)
      exact phantomOnlyInv_remove hI (dictGet_ok_iff.mp hother) hcond.1
        (by rw [hpid] at heq; exact heq) h3
    · rw [if_neg hcond] at h3
      exact (exPure_ok h3) ▸ hI

theorem phantomOnlyInv_add_child {g₀ : RelationshipChart} {pid : String}
    {cur cur' : RelationshipChart} {x : String}
    (hInv : phantomOnlyInv g₀ pid cur)
    (h : cur.add_child pid x true = .ok cur') :
    phantomOnlyInv g₀ pid cur' := by
  by_cases hpx : pid = x
  · have e : cur.add_child pid x true = .error .assertionFailed := by
      unfold add_child
      rw [if_pos hpx]
      rfl
    rw [e] at h
    exact Except.noConfusion h
  · have e : cur.add_child pid x true =
        (cur.get_node pid >>= fun np =>
          cur.get_node x >>= fun nx =>
          ((cur.setF pid (fun n => { n with child_ids := sAdd n.child_ids x })).setF x
            (fun n => { n with parent_ids := sAdd n.parent_ids pid })).get_node x >>=
            fun child =>
          ((cur.setF pid (fun n => { n with child_ids := sAdd n.child_ids x })).setF x
            (fun n => { n with parent_ids := sAdd n.parent_ids pid })).parents child >>=
            fun ps =>
          handlePhantomsScan pid child.parent_ids
            ((cur.setF pid (fun n => { n with child_ids := sAdd n.child_ids x })).setF x
              (fun n => { n with parent_ids := sAdd n.parent_ids pid }))) := by
      unfold add_child
      rw [if_neg hpx]
      rfl
    rw [e] at h
    rcases exBind_ok h with ⟨np, _, h3⟩
    rcases exBind_ok h3 with ⟨nx, _, h4⟩
    rcases exBind_ok h4 with ⟨child, _, h5⟩
    rcases exBind_ok h5 with ⟨ps, _, h6⟩
    have hInv2 : phantomOnlyInv g₀ pid
        ((cur.setF pid (fun n => { n with child_ids := sAdd n.child_ids x })).setF x
          (fun n => { n with parent_ids := sAdd n.parent_ids pid })) :=
      phantomOnlyInv_setF (phantomOnlyInv_setF hInv (fun n => ⟨rfl, rfl⟩))
        (fun n => ⟨rfl, rfl⟩)
    exact phantomOnlyInv_scan child.parent_ids _ cur' hInv2 h6

end RelationshipChart

/-- C6 — amended claim: whenever `add_sibling(a, b)` on a consistent chart
completes, the only id possibly added to the node set is the one freshly
synthesized phantom id, and every id dropped from the node set belonged to a
phantom node of the original graph — `add_sibling` never removes a
non-phantom node (it can, however, remove phantoms, because the synthesis
runs `add_child` with phantom handling enabled). -/
theorem C6_amended (g g' : RelationshipChart) (a b : String)
    (hwf : RelationshipChart.wfIds g = true)
    (h : g.add_sibling a b = .ok g') :
    (∀ k, k ∈ g'.keys → k ∈ g.keys ∨ k = g.freshPhantomId) ∧
    (∀ k, k ∈ g.keys → k ∉ g'.keys →
      ∃ n₀, g.findNode k = some n₀ ∧ n₀.is_phantom = true) := by
  by_cases hab : a = b
  · have e : g.add_sibling a b = .error .assertionFailed := by
      unfold RelationshipChart.add_sibling
      rw [if_pos hab]
      rfl
    rw [e] at h
    exact Except.noConfusion h
  have e : g.add_sibling a b =
      (g.get_node a >>= fun na =>
        g.get_node b >>= fun nb =>
        if sInter na.parent_ids nb.parent_ids ≠ [] then pure g
        else (g.create_phantom_node >>= fun pg =>
          (pg.2.add_child pg.1 a true) >>= fun g2 => g2.add_child pg.1 b true)) := by
    unfold RelationshipChart.add_sibling
    rw [if_neg hab]
    rfl
  rw [e] at h
  rcases exBind_ok h with ⟨na, hna, h3⟩
  rcases exBind_ok h3 with ⟨nb, hnb, h4⟩
  by_cases hint : sInter na.parent_ids nb.parent_ids ≠ []
  · rw [if_pos hint] at h4
    have : g = g' := exPure_ok h4
    subst this
    exact ⟨fun k hk => Or.inl hk, fun k hk hnk => absurd hk hnk⟩
  · rw [if_neg hint] at h4
    rcases exBind_ok h4 with ⟨pg, hpg, h5⟩
    have hcreate : g.create_phantom_node = .ok (g.freshPhantomId,
        { nodes := g.nodes ++ [(g.freshPhantomId,
          { id := g.freshPhantomId, label := "unknown parent",
            is_phantom := true })] }) := by
      have hfind := RelationshipChart.freshPhantomId_findNode g
      unfold RelationshipChart.create_phantom_node RelationshipChart.add_node
      dsimp only
      rw [hfind]
      rfl
    rw [hcreate] at hpg
    injection hpg with hpg
    rcases exBind_ok h5 with ⟨g2, hg2, h6⟩
    have hInv0 : RelationshipChart.phantomOnlyInv g g.freshPhantomId pg.2 := by
      rw [← hpg]
      refine ⟨?_, ?_, ?_, ?_⟩
      · intro k n hk
        rw [RelationshipChart.findNode_addEntry] at hk
        rcases hA : g.findNode k with _ | m <;> rw [hA] at hk
        · by_cases hki : k = g.freshPhantomId
          · rw [if_pos hki] at hk
            injection hk with hk
            rw [← hk, hki]
          · rw [if_neg hki] at hk
            exact Option.noConfusion hk
        · injection hk with hk
          rw [← hk]
          exact RelationshipChart.wfIds_findNode hwf hA
      · intro k hk
        rw [RelationshipChart.keys_addEntry] at hk
        rcases List.mem_append.mp hk with hk | hk
        · exact Or.inl hk
        · exact Or.inr (by simpa using hk)
      · intro k hk hnk
        exfalso
        apply hnk
        rw [RelationshipChart.keys_addEntry]
        exact List.mem_append.mpr (Or.inl hk)
      · intro k n hk hkp
        rw [RelationshipChart.findNode_addEntry] at hk
        rcases hA : g.findNode k with _ | m <;> rw [hA] at hk
        · rw [if_neg hkp] at hk
          exact Option.noConfusion hk
        · injection hk with hk
          exact ⟨m, by simp [hA], by rw [hk]⟩
    have hpid : pg.1 = g.freshPhantomId := by rw [← hpg]
    rw [hpid] at hg2 h6
    have hInv1 := RelationshipChart.phantomOnlyInv_add_child hInv0 hg2
    have hInv2 := RelationshipChart.phantomOnlyInv_add_child hInv1 h6
    obtain ⟨_, k1, k2, _⟩ := hInv2
    exact ⟨k1, k2⟩

/-- The chart produced by `add_sibling "a" "b"` on `c6Graph`. -/
def c6Result : RelationshipChart :=
  { nodes := [
      mkNode "a" false [] ["phantom_Qab"],
      mkNode "b" false [] ["phantom_Qab"],
      ("phantom_Qab",
        { id := "phantom_Qab", label := "unknown parent", is_phantom := true,
          child_ids := ["a", "b"], parent_ids := [], relationships := [] })] }

/-- Witness for `C6_amended`: on `c6Graph` the slibling synthesis succeeds
and the id it drops (`"Q"`) is indeed a phantom of the original graph. -/
theorem C6_amended_witness :
    c6Graph.add_sibling "a" "b" = .ok c6Result ∧
    ∃ n₀, c6Graph.findNode "Q" = some n₀ ∧ n₀.is_phantom = true := by
  have hok : c6Graph.add_sibling "a" "b" = .ok c6Result := by decide
  exact ⟨hok,
    (C6_amended c6Graph c6Result "a" "b" (by decide) hok).2 "Q"
      (by decide) (by decide)⟩

theorem sDiscard_of_not_mem {s : List String} {x : String} (h : x ∉ s) :
    sDiscard s x = s := by
  unfold sDiscard
  apply List.filter_eq_self.mpr
  intro y hy
  simp only [decide_eq_true_eq]
  rintro rfl
  exact h hy

theorem exOk_bind {α β : Type} (a : α) (f : α → Except Err β) :
    (Except.ok a >>= f) = f a := rfl

namespace RelationshipChart

/-- The state tracked through `add_sibling`'s two `add_child` calls for the
amended C5 claim: the new phantom keeps child list `C`, `a` keeps its
non-phantom flag and its parent edge to the phantom, `b` keeps its
non-phantom flag (and, once attached, its parent edge to the phantom). -/
def c5Inv (g₀ : RelationshipChart) (pid a b : String) (C : List String)
    (bpar : Bool) (cur : RelationshipChart) : Prop :=
  phantomOnlyInv g₀ pid cur ∧
  (∃ P, cur.findNode pid = some P ∧ P.is_phantom = true ∧ P.child_ids = C) ∧
  (∃ n, cur.findNode a = some n ∧ n.is_phantom = false ∧ pid ∈ n.parent_ids) ∧
  (∃ n, cur.findNode b = some n ∧ n.is_phantom = false ∧
    (bpar = true → pid ∈ n.parent_ids))

theorem c5Inv_scan {g₀ : RelationshipChart} {pid a b : String}
    {C : List String} {bpar : Bool} (haC : ∀ y ∈ C, y = a ∨ y = b) :
    ∀ (pids : List String) (cur cur' : RelationshipChart),
      c5Inv g₀ pid a b C bpar cur →
      handlePhantomsScan pid pids cur = .ok cur' →
      c5Inv g₀ pid a b C bpar cur' := by
  intro pids cur cur' hInv h
  refine foldlM_graph_inv _ (c5Inv g₀ pid a b C bpar) ?_ pids cur cur' hInv h
  intro s oid s' hI hstep
  obtain ⟨hpo, ⟨P, hP, hPph, hPch⟩, ⟨nA, hA, hAph, hApar⟩, ⟨nB, hB, hBph, hBpar⟩⟩ := hI
  rcases exBind_ok hstep with ⟨other, hother, h2⟩
  rcases exBind_ok h2 with ⟨parent, hparent, h3⟩
  by_cases heq : other.id = parent.id
  · rw [if_pos heq] at h3
    exact (exPure_ok h3) ▸
      ⟨hpo, ⟨P, hP, hPph, hPch⟩, ⟨nA, hA, hAph, hApar⟩, ⟨nB, hB, hBph, hBpar⟩⟩
  · rw [if_neg heq] at h3
    by_cases hcond : (other.is_phantom = true ∧
        sSubset other.child_ids parent.child_ids = true)
    · rw [if_pos hcond] at h3
      have hpid : parent.id = pid := hpo.1 pid parent (dictGet_ok_iff.mp hparent)
      have hqpid : other.id ≠ pid := by rw [hpid] at heq; exact heq
      have hoid : other.id = oid := hpo.1 oid other (dictGet_ok_iff.mp hother)
      have hqa : other.id ≠ a := by
        intro hqa
        rw [hqa] at hoid
        have : other = nA := by
          rw [hoid] at hA
          rw [dictGet_ok_iff.mp hother] at hA
          exact Option.some.inj hA
        rw [this] at hcond
        rw [hAph] at hcond
        exact Bool.noConfusion hcond.1
      have hqb : other.id ≠ b := by
        intro hqb
        rw [hqb] at hoid
        have : other = nB := by
          rw [hoid] at hB
          rw [dictGet_ok_iff.mp hother] at hB
          exact Option.some.inj hB
        rw [this] at hcond
        rw [hBph] at hcond
        exact Bool.noConfusion hcond.1
      obtain ⟨hkeys, hfield⟩ := remove_node_effect h3
      have hsurv : ∀ (k : String) (n : CharacterNode), s.findNode k = some n →
          k ≠ other.id → ∃ n', s'.findNode k = some n' ∧
            n'.is_phantom = n.is_phantom ∧
            (n'.child_ids = n.child_ids ∨ n'.child_ids = sDiscard n.child_ids other.id) ∧
            (n'.parent_ids = n.parent_ids ∨ n'.parent_ids = sDiscard n.parent_ids other.id) := by
        intro k n hk hkq
        have hmem : k ∈ s'.keys :=
          (hkeys k).mpr ⟨mem_keys_of_findNode hk, hkq⟩
        rcases findNode_eq_some_of_mem_keys hmem with ⟨n', hn'⟩
        rcases hfield k n' hn' with ⟨m, hm, _, hph2, hch2, hpr2⟩
        have : m = n := by
          rw [hk] at hm
          injection hm with hh
          exact hh.symm
        subst this
        exact ⟨n', hn', hph2, hch2, hpr2⟩
      refine ⟨phantomOnlyInv_remove hpo (dictGet_ok_iff.mp hother) hcond.1 hqpid h3,
        ?_, ?_, ?_⟩
      · rcases hsurv pid P hP (fun hh => hqpid hh.symm) with ⟨P', hP', hph2, hch2, _⟩
        refine ⟨P', hP', by rw [hph2, hPph], ?_⟩
        rcases hch2 with hch2 | hch2
        · rw [hch2, hPch]
        · rw [hch2, hPch, sDiscard_of_not_mem]
          intro hmem
          rcases haC _ hmem with rfl | rfl
          · exact hqa rfl
          · exact hqb rfl
      · rcases hsurv a nA hA (fun hh => hqa hh.symm) with ⟨n', hn', hph2, _, hpr2⟩
        refine ⟨n', hn', by rw [hph2, hAph], ?_⟩
        rcases hpr2 with hpr2 | hpr2
        · rw [hpr2]; exact hApar
        · rw [hpr2]
          exact mem_sDiscard.mpr ⟨hApar, fun hh => hqpid hh.symm⟩
      · rcases hsurv b nB hB (fun hh => hqb hh.symm) with ⟨n', hn', hph2, _, hpr2⟩
        refine ⟨n', hn', by rw [hph2, hBph], ?_⟩
        intro hbp
        rcases hpr2 with hpr2 | hpr2
        · rw [hpr2]; exact hBpar hbp
        · rw [hpr2]
          exact mem_sDiscard.mpr ⟨hBpar hbp, fun hh => hqpid hh.symm⟩
    · rw [if_neg hcond] at h3
      exact (exPure_ok h3) ▸
        ⟨hpo, ⟨P, hP, hPph, hPch⟩, ⟨nA, hA, hAph, hApar⟩, ⟨nB, hB, hBph, hBpar⟩⟩

/-- Decomposition of a successful `add_child` with phantom handling into its
stages. -/
theorem add_child_decomp {cur cur' : RelationshipChart} {p x : String}
    (hne : p ≠ x) (h : cur.add_child p x true = .ok cur') :
    ∃ child,
      ((cur.setF p (fun n => { n with child_ids := sAdd n.child_ids x })).setF x
        (fun n => { n with parent_ids := sAdd n.parent_ids p })).get_node x =
        .ok child ∧
      handlePhantomsScan p child.parent_ids
        ((cur.setF p (fun n => { n with child_ids := sAdd n.child_ids x })).setF x
          (fun n => { n with parent_ids := sAdd n.parent_ids p })) = .ok cur' := by
  have e : cur.add_child p x true =
      (cur.get_node p >>= fun np =>
        cur.get_node x >>= fun nx =>
        ((cur.setF p (fun n => { n with child_ids := sAdd n.child_ids x })).setF x
          (fun n => { n with parent_ids := sAdd n.parent_ids p })).get_node x >>=
          fun child =>
        ((cur.setF p (fun n => { n with child_ids := sAdd n.child_ids x })).setF x
          (fun n => { n with parent_ids := sAdd n.parent_ids p })).parents child >>=
          fun ps =>
        handlePhantomsScan p child.parent_ids
          ((cur.setF p (fun n => { n with child_ids := sAdd n.child_ids x })).setF x
            (fun n => { n with parent_ids := sAdd n.parent_ids p }))) := by
    unfold add_child
    rw [if_neg hne]
    rfl
  rw [e] at h
  rcases exBind_ok h with ⟨np, _, h3⟩
  rcases exBind_ok h3 with ⟨nx, _, h4⟩
  rcases exBind_ok h4 with ⟨child, hchild, h5⟩
  rcases exBind_ok h5 with ⟨ps, _, h6⟩
  exact ⟨child, hchild, h6⟩

end RelationshipChart

theorem sAdd_nil {x : String} : sAdd [] x = [x] := rfl

namespace RelationshipChart

theorem phantomOnlyInv_addPhantom (g : RelationshipChart)
    (hwf : wfIds g = true) (P₀ : CharacterNode)
    (hid : P₀.id = g.freshPhantomId) :
    phantomOnlyInv g g.freshPhantomId
      { nodes := g.nodes ++ [(g.freshPhantomId, P₀)] } := by
  refine ⟨?_, ?_, ?_, ?_⟩
  · intro k n hk
    rw [findNode_addEntry] at hk
    rcases hA : g.findNode k with _ | m <;> rw [hA] at hk
    · by_cases hki : k = g.freshPhantomId
      · rw [if_pos hki] at hk
        injection hk with hk
        rw [← hk, hki, hid]
      · rw [if_neg hki] at hk
        exact Option.noConfusion hk
    · injection hk with hk
      rw [← hk]
      exact wfIds_findNode hwf hA
  · intro k hk
    rw [keys_addEntry] at hk
    rcases List.mem_append.mp hk with hk | hk
    · exact Or.inl hk
    · exact Or.inr (by simpa using hk)
  · intro k hk hnk
    exfalso
    apply hnk
    rw [keys_addEntry]
    exact List.mem_append.mpr (Or.inl hk)
  · intro k n hk hkp
    rw [findNode_addEntry] at hk
    rcases hA : g.findNode k with _ | m <;> rw [hA] at hk
    · rw [if_neg hkp] at hk
      exact Option.noConfusion hk
    · injection hk with hk
      exact ⟨m, by simp [hA], by rw [hk]⟩

end RelationshipChart

/-- C5 — amended claim: for distinct, existing, *non-phantom* nodes `a` and
`b` that share no parent, a completing `add_sibling(a, b)` adds exactly one
new node — a phantom (under the fresh id) whose child set is exactly
`{a, b}` — and a second `add_sibling(a, b)` immediately afterwards is a
no-op returning the unchanged graph.  (Restricting `a` and `b` to
non-phantom nodes is forced by the counterexample: with a phantom sibling
the enabled phantom handling can delete `a` itself.) -/
theorem C5_amended (g g' : RelationshipChart) (a b : String)
    (na nb : CharacterNode)
    (hwf : RelationshipChart.wfIds g = true)
    (hna : g.findNode a = some na) (hnb : g.findNode b = some nb)
    (hpa : na.is_phantom = false) (hpb : nb.is_phantom = false)
    (hab : a ≠ b)
    (hnosh : sInter na.parent_ids nb.parent_ids = [])
    (h : g.add_sibling a b = .ok g') :
    g.freshPhantomId ∉ g.keys ∧
    (∃ P, g'.findNode g.freshPhantomId = some P ∧ P.is_phantom = true ∧
      P.child_ids = [a, b]) ∧
    (∀ k, k ∈ g'.keys → k ∈ g.keys ∨ k = g.freshPhantomId) ∧
    g'.add_sibling a b = .ok g' := by
  have hfresh := RelationshipChart.freshPhantomId_not_mem g
  have e : g.add_sibling a b =
      (g.get_node a >>= fun na =>
        g.get_node b >>= fun nb =>
        if sInter na.parent_ids nb.parent_ids ≠ [] then pure g
        else (g.create_phantom_node >>= fun pg =>
          (pg.2.add_child pg.1 a true) >>= fun g2 => g2.add_child pg.1 b true)) := by
    unfold RelationshipChart.add_sibling
    rw [if_neg hab]
    rfl
  rw [e, RelationshipChart.get_node_ok_iff.mpr hna, exOk_bind,
    RelationshipChart.get_node_ok_iff.mpr hnb, exOk_bind,
    if_neg (fun hc => hc hnosh)] at h
  have hcreate : g.create_phantom_node = .ok (g.freshPhantomId,
      { nodes := g.nodes ++ [(g.freshPhantomId,
        { id := g.freshPhantomId, label := "unknown parent",
          is_phantom := true })] }) := by
    have hfind := RelationshipChart.freshPhantomId_findNode g
    unfold RelationshipChart.create_phantom_node RelationshipChart.add_node
    dsimp only
    rw [hfind]
    rfl
  rw [hcreate, exOk_bind] at h
  rcases exBind_ok h with ⟨g2, hg2, h6⟩
  have hpid_ne_a : g.freshPhantomId ≠ a := by
    intro heq
    exact hfresh (heq ▸ RelationshipChart.mem_keys_of_findNode hna)
  have hpid_ne_b : g.freshPhantomId ≠ b := by
    intro heq
    exact hfresh (heq ▸ RelationshipChart.mem_keys_of_findNode hnb)
  rcases RelationshipChart.add_child_decomp hpid_ne_a hg2 with ⟨child1, _, hscan1⟩
  have hInvP : RelationshipChart.phantomOnlyInv g g.freshPhantomId
      { nodes := g.nodes ++ [(g.freshPhantomId,
        { id := g.freshPhantomId, label := "unknown parent",
          is_phantom := true })] } :=
    RelationshipChart.phantomOnlyInv_addPhantom g hwf _ rfl
  have hgPpid : ({ nodes := g.nodes ++ [(g.freshPhantomId,
        { id := g.freshPhantomId, label := "unknown parent",
          is_phantom := true })] } : RelationshipChart).findNode g.freshPhantomId =
      some { id := g.freshPhantomId, label := "unknown parent",
             is_phantom := true } := by
    rw [RelationshipChart.findNode_addEntry,
      RelationshipChart.freshPhantomId_findNode]
    simp
  have hgPa : ({ nodes := g.nodes ++ [(g.freshPhantomId,
        { id := g.freshPhantomId, label := "unknown parent",
          is_phantom := true })] } : RelationshipChart).findNode a = some na := by
    rw [RelationshipChart.findNode_addEntry, hna]
  have hgPb : ({ nodes := g.nodes ++ [(g.freshPhantomId,
        { id := g.freshPhantomId, label := "unknown parent",
          is_phantom := true })] } : RelationshipChart).findNode b = some nb := by
    rw [RelationshipChart.findNode_addEntry, hnb]
  have hInv1 : RelationshipChart.c5Inv g g.freshPhantomId a b [a] false g2 := by
    refine RelationshipChart.c5Inv_scan (by intro y hy; simp at hy; exact Or.inl hy)
      child1.parent_ids _ g2 ⟨?_, ?_, ?_, ?_⟩ hscan1
    · exact RelationshipChart.phantomOnlyInv_setF
        (RelationshipChart.phantomOnlyInv_setF hInvP (fun n => ⟨rfl, rfl⟩))
        (fun n => ⟨rfl, rfl⟩)
    · refine ⟨{ id := g.freshPhantomId, label := "unknown parent",
                is_phantom := true, child_ids := sAdd [] a }, ?_, rfl, sAdd_nil⟩
      rw [RelationshipChart.findNode_setF, if_neg hpid_ne_a,
        RelationshipChart.findNode_setF, if_pos rfl, hgPpid]
      rfl
    · refine ⟨{ na with parent_ids := sAdd na.parent_ids g.freshPhantomId },
        ?_, hpa, mem_sAdd_self⟩
      rw [RelationshipChart.findNode_setF, if_pos rfl,
        RelationshipChart.findNode_setF, if_neg (fun hh => hpid_ne_a hh.symm), hgPa]
      rfl
    · refine ⟨nb, ?_, hpb, fun hff => Bool.noConfusion hff⟩
      rw [RelationshipChart.findNode_setF, if_neg (fun hh => hab hh.symm),
        RelationshipChart.findNode_setF, if_neg (fun hh => hpid_ne_b hh.symm), hgPb]
  obtain ⟨hpo1, ⟨P1, hP1, hP1ph, hP1ch⟩, ⟨nA1, hA1, hA1ph, hA1par⟩,
    ⟨nB1, hB1, hB1ph, _⟩⟩ := hInv1
  rcases RelationshipChart.add_child_decomp hpid_ne_b h6 with ⟨child2, _, hscan2⟩
  have hInv2 : RelationshipChart.c5Inv g g.freshPhantomId a b [a, b] true g' := by
    refine RelationshipChart.c5Inv_scan (by intro y hy; simpa using hy)
      child2.parent_ids _ g' ⟨?_, ?_, ?_, ?_⟩ hscan2
    · exact RelationshipChart.phantomOnlyInv_setF
        (RelationshipChart.phantomOnlyInv_setF hpo1 (fun n => ⟨rfl, rfl⟩))
        (fun n => ⟨rfl, rfl⟩)
    · refine ⟨{ P1 with child_ids := sAdd P1.child_ids b }, ?_, hP1ph, ?_⟩
      · rw [RelationshipChart.findNode_setF, if_neg hpid_ne_b,
          RelationshipChart.findNode_setF, if_pos rfl, hP1]
        rfl
      · show sAdd P1.child_ids b = [a, b]
        rw [hP1ch]
        unfold sAdd
        rw [if_neg (by simp; exact fun hh => hab hh.symm)]
        rfl
    · refine ⟨nA1, ?_, hA1ph, hA1par⟩
      rw [RelationshipChart.findNode_setF, if_neg hab,
        RelationshipChart.findNode_setF, if_neg (fun hh => hpid_ne_a hh.symm), hA1]
    · refine ⟨{ nB1 with parent_ids := sAdd nB1.parent_ids g.freshPhantomId },
        ?_, hB1ph, fun _ => mem_sAdd_self⟩
      rw [RelationshipChart.findNode_setF, if_pos rfl,
        RelationshipChart.findNode_setF, if_neg (fun hh => hpid_ne_b hh.symm), hB1]
      rfl
  obtain ⟨hpo2, ⟨P2, hP2, hP2ph, hP2ch⟩, ⟨nA2, hA2, hA2ph, hA2par⟩,
    ⟨nB2, hB2, hB2ph, hB2par⟩⟩ := hInv2
  refine ⟨hfresh, ⟨P2, hP2, hP2ph, hP2ch⟩, hpo2.2.1, ?_⟩
  have e2 : g'.add_sibling a b =
      (g'.get_node a >>= fun na =>
        g'.get_node b >>= fun nb =>
        if sInter na.parent_ids nb.parent_ids ≠ [] then pure g'
        else (g'.create_phantom_node >>= fun pg =>
          (pg.2.add_child pg.1 a true) >>= fun g2 => g2.add_child pg.1 b true)) := by
    unfold RelationshipChart.add_sibling
    rw [if_neg hab]
    rfl
  rw [e2, RelationshipChart.get_node_ok_iff.mpr hA2, exOk_bind,
    RelationshipChart.get_node_ok_iff.mpr hB2, exOk_bind,
    if_pos (List.ne_nil_of_mem (mem_sInter.mpr ⟨hA2par, hB2par rfl⟩))]
  rfl

/-- Concrete two-node graph for exercising the amended sibling claim. -/
def c5WitnessGraph : RelationshipChart := { nodes := [mkNode "a", mkNode "b"] }

/-- The graph produced by `add_sibling "a" "b"` on `c5WitnessGraph`. -/
def c5WitnessResult : RelationshipChart :=
  { nodes := [
      ("a", { id := "a", label := "a", parent_ids := ["phantom_ab"] }),
      ("b", { id := "b", label := "b", parent_ids := ["phantom_ab"] }),
      ("phantom_ab", { id := "phantom_ab", label := "unknown parent",
                       is_phantom := true, child_ids := ["a", "b"] })] }

/-- Closed witness for the amended C5 theorem at the concrete graph. -/
theorem C5_amended_witness :
    c5WitnessGraph.add_sibling "a" "b" = .ok c5WitnessResult ∧
    (c5WitnessGraph.freshPhantomId ∉ c5WitnessGraph.keys ∧
     (∃ P, c5WitnessResult.findNode c5WitnessGraph.freshPhantomId = some P ∧
       P.is_phantom = true ∧ P.child_ids = ["a", "b"]) ∧
     (∀ k, k ∈ c5WitnessResult.keys → k ∈ c5WitnessGraph.keys ∨
       k = c5WitnessGraph.freshPhantomId) ∧
     c5WitnessResult.add_sibling "a" "b" = .ok c5WitnessResult) :=
  ⟨by decide,
   C5_amended c5WitnessGraph c5WitnessResult "a" "b"
     (mkNode "a").2 (mkNode "b").2 (by decide) (by decide) (by decide)
     (by decide) (by decide) (by decide) (by decide) (by decide)⟩

theorem sDiscard_sAdd_self {s : List String} {x : String} (h : x ∉ s) :
    sDiscard (sAdd s x) x = s := by
  unfold sAdd
  rw [if_neg h]
  show sDiscard (s ++ [x]) x = s
  unfold sDiscard
  rw [List.filter_append]
  have h2 : List.filter (fun y => y ≠ x) [x] = ([] : List String) := by simp
  rw [h2, List.append_nil]
  exact sDiscard_of_not_mem h

namespace RelationshipChart

/-- The phantom scan leaves the store untouched when the designated parent
exists under its own id and every listed parent id resolves to a non-phantom
node (or is the parent itself). -/
theorem handlePhantomsScan_noop {g : RelationshipChart} {pid : String}
    {mp : CharacterNode} (hmp : g.findNode pid = some mp)
    (hmpid : mp.id = pid) :
    ∀ pids : List String,
      (∀ q ∈ pids, q = pid ∨ ∃ m, g.findNode q = some m ∧ m.id = q ∧
        m.is_phantom = false) →
      handlePhantomsScan pid pids g = .ok g := by
  intro pids
  induction pids with
  | nil => intro hq; rfl
  | cons q t ih =>
      intro hq
      unfold handlePhantomsScan
      rw [List.foldlM_cons]
      rcases hq q (List.mem_cons_self q t) with hqp | ⟨m, hm, hmid, hmph⟩
      · subst hqp
        rw [dictGet_ok_iff.mpr hmp, exOk_bind, exOk_bind, if_pos rfl]
        exact ih (fun x hx => hq x (List.mem_cons_of_mem q hx))
      · by_cases hne : m.id = mp.id
        · rw [dictGet_ok_iff.mpr hm, exOk_bind, dictGet_ok_iff.mpr hmp,
            exOk_bind, if_pos hne]
          exact ih (fun x hx => hq x (List.mem_cons_of_mem q hx))
        · rw [dictGet_ok_iff.mpr hm, exOk_bind, dictGet_ok_iff.mpr hmp,
            exOk_bind, if_neg hne,
            if_neg (fun hc => by rw [hmph] at hc; exact Bool.noConfusion hc.1)]
          exact ih (fun x hx => hq x (List.mem_cons_of_mem q hx))

/-- When the key is hit by the fold of an idempotent node update, its node is
updated exactly once. -/
theorem foldl_setF_char_mem {β : Type} (kf : β → String)
    (f : CharacterNode → CharacterNode) (hidem : ∀ n, f (f n) = f n) :
    ∀ (l : List β) (g : RelationshipChart) (k : String), k ∈ l.map kf →
      (l.foldl (fun g b => g.setF (kf b) f) g).findNode k =
        (g.findNode k).map f := by
  intro l
  induction l with
  | nil =>
      intro g k hk
      exact absurd hk (List.not_mem_nil k)
  | cons b t ih =>
      intro g k hk
      rw [List.foldl_cons]
      by_cases hkb : k = kf b
      · rcases foldl_setF_char kf f hidem t (g.setF (kf b) f) k with hc | hc <;>
          rw [hc, findNode_setF, if_pos hkb]
        rcases g.findNode k with _ | n
        · rfl
        · simp only [Option.map_some']
          rw [hidem n]
      · have hk' : k ∈ t.map kf := by
          rw [List.map_cons] at hk
          rcases List.mem_cons.mp hk with hc | hc
          · exact absurd hc hkb
          · exact hc
        rw [ih (g.setF (kf b) f) k hk', findNode_setF, if_neg hkb]

end RelationshipChart

/-- C9 — amended claim: for distinct nodes `p` and `c` where `c` is not yet a
child of `p` and every recorded parent of `c` resolves to a non-phantom node,
a completing `add_child(p, c)` followed by
`remove_node(c, clear_relations=True)` restores `p`'s child set to exactly
its original value.  (The restrictions are forced by the counterexample: a
pre-existing edge is destroyed rather than restored, and a phantom parent of
`c` can be swallowed by `add_child`'s phantom handling.) -/
theorem C9_amended (g g2 : RelationshipChart) (p c : String)
    (np nc : CharacterNode)
    (hwf : RelationshipChart.wfIds g = true)
    (hnp : g.findNode p = some np) (hnc : g.findNode c = some nc)
    (hpc : p ≠ c)
    (hnotchild : c ∉ np.child_ids)
    (hpars : ∀ q ∈ nc.parent_ids, ∃ m, g.findNode q = some m ∧
      m.is_phantom = false)
    (h : g.add_child p c true >>= (fun g1 => g1.remove_node c true) = .ok g2) :
    ∃ np2, g2.findNode p = some np2 ∧ np2.child_ids = np.child_ids := by
  rcases exBind_ok h with ⟨g1, hg1, h2⟩
  rcases RelationshipChart.add_child_decomp hpc hg1 with ⟨child, hchild, hscan⟩
  have hcp : ¬ (c = p) := fun hh => hpc hh.symm
  set gA := ((g.setF p (fun n => { n with child_ids := sAdd n.child_ids c })).setF
      c (fun n => { n with parent_ids := sAdd n.parent_ids p })) with hgAdef
  have hgAc : gA.findNode c =
      some { nc with parent_ids := sAdd nc.parent_ids p } := by
    rw [hgAdef, RelationshipChart.findNode_setF, if_pos rfl,
      RelationshipChart.findNode_setF, if_neg hcp, hnc]
    rfl
  have hgAp : gA.findNode p =
      some { np with child_ids := sAdd np.child_ids c } := by
    rw [hgAdef, RelationshipChart.findNode_setF, if_neg hpc,
      RelationshipChart.findNode_setF, if_pos rfl, hnp]
    rfl
  have hnpid : np.id = p := RelationshipChart.wfIds_findNode hwf hnp
  have hncid : nc.id = c := RelationshipChart.wfIds_findNode hwf hnc
  have hchild_eq : child = { nc with parent_ids := sAdd nc.parent_ids p } := by
    have h1 := RelationshipChart.get_node_ok_iff.mp hchild
    rw [hgAc] at h1
    exact (Option.some.inj h1).symm
  have hscan0 : RelationshipChart.handlePhantomsScan p child.parent_ids gA =
      .ok gA := by
    refine RelationshipChart.handlePhantomsScan_noop hgAp ?_ child.parent_ids ?_
    · exact hnpid
    · intro q hq
      rw [hchild_eq] at hq
      have hq' : q ∈ sAdd nc.parent_ids p := hq
      rcases mem_sAdd.mp hq' with hq2 | hq2
      · by_cases hqp : q = p
        · exact Or.inl hqp
        · rcases hpars q hq2 with ⟨m, hm, hmph⟩
          by_cases hqc : q = c
          · subst hqc
            have hmnc : nc = m := by
              rw [hnc] at hm
              exact Option.some.inj hm
            refine Or.inr ⟨{ nc with parent_ids := sAdd nc.parent_ids p },
              hgAc, hncid, ?_⟩
            show nc.is_phantom = false
            rw [hmnc]
            exact hmph
          · refine Or.inr ⟨m, ?_, RelationshipChart.wfIds_findNode hwf hm, hmph⟩
            rw [hgAdef, RelationshipChart.findNode_setF, if_neg hqc,
              RelationshipChart.findNode_setF, if_neg hqp]
            exact hm
      · exact Or.inl hq2
  have hg1A : g1 = gA := by
    rw [hscan0] at hscan
    injection hscan with hh
    exact hh.symm
  rw [hg1A] at h2
  unfold RelationshipChart.remove_node at h2
  rcases exBind_ok h2 with ⟨node, hnode, h3⟩
  rw [if_pos rfl] at h3
  rcases exBind_ok h3 with ⟨cs, _, h4⟩
  rcases exBind_ok h4 with ⟨node2, hnode2, h5⟩
  rcases exBind_ok h5 with ⟨ps, _, h6⟩
  rcases exBind_ok h6 with ⟨g3, hg3, h7⟩
  have hg2def : g2 = g3.popNode c := (exPure_ok h7).symm
  set f1 : CharacterNode → CharacterNode :=
    fun n => { n with parent_ids := sDiscard n.parent_ids c } with hf1
  set f2 : CharacterNode → CharacterNode :=
    fun n => { n with child_ids := sDiscard n.child_ids c } with hf2
  set gB := node.child_ids.foldl (fun g cid => g.setF cid f1) gA with hgB
  set gC := node2.parent_ids.foldl (fun g pid2 => g.setF pid2 f2) gB with hgC
  have hgBp : ∃ n1, gB.findNode p = some n1 ∧
      n1.child_ids = sAdd np.child_ids c := by
    rcases RelationshipChart.foldl_setF_char (fun cid => cid) f1
        (by intro n; simp [hf1, sDiscard_idem]) node.child_ids gA p with hc | hc <;>
      rw [← hgB] at hc <;> rw [hc, hgAp]
    · exact ⟨{ np with child_ids := sAdd np.child_ids c }, rfl, rfl⟩
    · exact ⟨f1 { np with child_ids := sAdd np.child_ids c }, rfl, rfl⟩
  have hnode2f : gB.findNode c = some node2 :=
    RelationshipChart.get_node_ok_iff.mp hnode2
  have hp2 : p ∈ node2.parent_ids := by
    rcases RelationshipChart.foldl_setF_char (fun cid => cid) f1
        (by intro n; simp [hf1, sDiscard_idem]) node.child_ids gA c with hc | hc <;>
      rw [← hgB] at hc <;> rw [hc, hgAc] at hnode2f
    · have he : node2 = { nc with parent_ids := sAdd nc.parent_ids p } :=
        (Option.some.inj hnode2f).symm
      rw [he]
      exact mem_sAdd_self
    · have he : node2 = f1 { nc with parent_ids := sAdd nc.parent_ids p } := by
        rw [Option.map_some'] at hnode2f
        exact (Option.some.inj hnode2f).symm
      rw [he]
      show p ∈ sDiscard (sAdd nc.parent_ids p) c
      exact mem_sDiscard.mpr ⟨mem_sAdd_self, hpc⟩
  have hgCp : gC.findNode p = (gB.findNode p).map f2 := by
    have h1 := RelationshipChart.foldl_setF_char_mem (fun pid2 => pid2) f2
      (by intro n; simp [hf2, sDiscard_idem]) node2.parent_ids gB p
      (by simpa using hp2)
    rw [← hgC] at h1
    exact h1
  have hfm : ∀ k, g3.fieldMap k = gC.fieldMap k := by
    refine foldlM_graph_inv (fun g t => g.remove_relationship t.1 c t.2)
      (fun s => ∀ k, s.fieldMap k = gC.fieldMap k) ?_
      (gC.iterRelsTarget node2.id) gC g3 (fun k => rfl) ?_
    · intro s b s' hm hs k
      rw [RelationshipChart.remove_relationship_fieldMap hs k]
      exact hm k
    · exact hg3
  rcases hgBp with ⟨n1, hn1, hn1ch⟩
  have hCp : gC.findNode p = some (f2 n1) := by
    rw [hgCp, hn1]
    rfl
  have h3p := hfm p
  unfold RelationshipChart.fieldMap at h3p
  rw [hCp] at h3p
  rcases hA : g3.findNode p with _ | n3
  · rw [hA] at h3p
    simp at h3p
  · rw [hA] at h3p
    simp only [Option.map_some', Option.some.injEq, Prod.mk.injEq] at h3p
    rcases h3p with ⟨_, _, hch, _⟩
    refine ⟨n3, ?_, ?_⟩
    · rw [hg2def, RelationshipChart.findNode_popNode, if_neg hpc]
      exact hA
    · rw [hch]
      show sDiscard n1.child_ids c = np.child_ids
      rw [hn1ch]
      exact sDiscard_sAdd_self hnotchild

/-- Concrete two-node graph for exercising the amended add/remove claim. -/
def c9WitnessGraph : RelationshipChart := { nodes := [mkNode "p", mkNode "c"] }

/-- The graph left by `add_child "p" "c"` then `remove_node "c"` on
`c9WitnessGraph`. -/
def c9WitnessResult : RelationshipChart :=
  { nodes := [("p", { id := "p", label := "p" })] }

/-- Closed witness for the amended C9 theorem at the concrete graph. -/
theorem C9_amended_witness :
    (c9WitnessGraph.add_child "p" "c" true >>=
      (fun g1 => g1.remove_node "c" true)) = .ok c9WitnessResult ∧
    (∃ np2, c9WitnessResult.findNode "p" = some np2 ∧
      np2.child_ids = (mkNode "p").2.child_ids) :=
  ⟨by decide,
   C9_amended c9WitnessGraph c9WitnessResult "p" "c"
     (mkNode "p").2 (mkNode "c").2 (by decide) (by decide) (by decide)
     (by decide) (by decide) (by decide) (by decide)⟩

theorem mapM_ok_of_all {α β : Type} (f : α → Except Err β) (gg : α → β) :
    ∀ l : List α, (∀ a ∈ l, f a = .ok (gg a)) → l.mapM f = .ok (l.map gg) := by
  intro l
  induction l with
  | nil => intro _; rfl
  | cons a t ih =>
      intro h
      rw [List.mapM_cons, h a (List.mem_cons_self a t),
        ih (fun x hx => h x (List.mem_cons_of_mem a hx))]
      rfl

theorem mapM_ok_mem {α β : Type} (f : α → Except Err β) :
    ∀ (l : List α) (bs : List β), l.mapM f = .ok bs →
      ∀ a ∈ l, ∃ b, f a = .ok b := by
  intro l
  induction l with
  | nil =>
      intro bs _ a ha
      exact absurd ha (List.not_mem_nil a)
  | cons c t ih =>
      intro bs h a ha
      rw [List.mapM_cons] at h
      rcases exBind_ok h with ⟨b, hb, h2⟩
      rcases exBind_ok h2 with ⟨ts, hts, _⟩
      rcases List.mem_cons.mp ha with rfl | ha2
      · exact ⟨b, hb⟩
      · exact ih ts hts a ha2

theorem status_cases (s : RelationshipStatus) : s = .PAST ∨ s = .LOCKED := by
  cases s
  · exact Or.inl rfl
  · exact Or.inr rfl

namespace RelationshipChart

theorem pairSorted_comm (a b : String) : pairSorted a b = pairSorted b a := by
  unfold pairSorted
  rcases lt_trichotomy a.data b.data with h | h | h
  · rw [if_neg (asymm h), if_pos h]
  · have hab : a = b := by
      cases a
      cases b
      exact congrArg String.mk h
    subst hab
    rw [if_neg (lt_irrefl a.data)]
  · rw [if_pos h, if_neg (asymm h)]

theorem pairSorted_eq {a b c d : String} (h : pairSorted a b = pairSorted c d) :
    (a = c ∧ b = d) ∨ (a = d ∧ b = c) := by
  unfold pairSorted at h
  by_cases h1 : b.data < a.data <;> by_cases h2 : d.data < c.data
  · rw [if_pos h1, if_pos h2] at h
    injection h with e1 e2
    exact Or.inl ⟨e2, e1⟩
  · rw [if_pos h1, if_neg h2] at h
    injection h with e1 e2
    exact Or.inr ⟨e2, e1⟩
  · rw [if_neg h1, if_pos h2] at h
    injection h with e1 e2
    exact Or.inr ⟨e1, e2⟩
  · rw [if_neg h1, if_neg h2] at h
    injection h with e1 e2
    exact Or.inl ⟨e1, e2⟩

end RelationshipChart

namespace RelationshipChart

/-- The full observation stream of `iter_relationships()` on a chart whose
node ids match their keys: one `(source_id, target_id, key)` triple per
stored target, in iteration order. -/
def canonicalObs (g : RelationshipChart) : List (String × String × RelKey) :=
  g.nodes.flatMap (fun e => e.2.relationships.flatMap (fun r =>
    r.2.map (fun t => (e.2.id, t, r.1))))

/-- Every relationship target names an existing node. -/
def relTargetsOk (g : RelationshipChart) : Prop :=
  ∀ e ∈ g.nodes, ∀ r ∈ e.2.relationships, ∀ t ∈ r.2, t ∈ g.keys

theorem iterRelsAll_targets {g : RelationshipChart}
    {obs : List (String × String × RelKey)}
    (h : g.iterRelsAll = .ok obs) : relTargetsOk g := by
  unfold iterRelsAll at h
  rcases exBind_ok h with ⟨nested, hnested, _⟩
  intro e he r hr t htm
  rcases mapM_ok_mem _ g.nodes nested hnested e he with ⟨be, hbe⟩
  rcases exBind_ok hbe with ⟨inner, hinner, _⟩
  rcases mapM_ok_mem _ e.2.relationships inner hinner r hr with ⟨br, hbr⟩
  rcases mapM_ok_mem _ r.2 br hbr t htm with ⟨bt, hbt⟩
  rcases exBind_ok hbt with ⟨tn, htn, _⟩
  exact mem_keys_of_findNode (get_node_ok_iff.mp htn)

theorem iterRelsAll_eq {g : RelationshipChart} (hwf : wfIds g = true)
    (ht : relTargetsOk g) : g.iterRelsAll = .ok (canonicalObs g) := by
  unfold iterRelsAll
  have h1 : g.nodes.mapM (fun (e : String × CharacterNode) => do
      let inner ← e.2.relationships.mapM (fun (r : RelKey × List String) =>
        r.2.mapM (fun (t : String) => do
          let tn ← g.get_node t
          return (e.2.id, tn.id, r.1)))
      return inner.flatten) =
      .ok (g.nodes.map (fun (e : String × CharacterNode) =>
        (e.2.relationships.map (fun (r : RelKey × List String) =>
          r.2.map (fun (t : String) => (e.2.id, t, r.1)))).flatten)) := by
    apply mapM_ok_of_all
    intro e he
    have h2 : e.2.relationships.mapM (fun (r : RelKey × List String) =>
        r.2.mapM (fun (t : String) => do
          let tn ← g.get_node t
          return (e.2.id, tn.id, r.1))) =
        .ok (e.2.relationships.map (fun (r : RelKey × List String) =>
          r.2.map (fun (t : String) => (e.2.id, t, r.1)))) := by
      apply mapM_ok_of_all
      intro r hr
      apply mapM_ok_of_all
      intro t htm
      rcases findNode_eq_some_of_mem_keys (ht e he r hr t htm) with ⟨n, hn⟩
      rw [get_node_ok_iff.mpr hn, exOk_bind, wfIds_findNode hwf hn]
      rfl
    rw [h2, exOk_bind]
    rfl
  rw [h1, exOk_bind]
  unfold canonicalObs
  simp only [List.flatMap]
  rfl

theorem mem_canonicalObs {g : RelationshipChart} {a b : String} {κ : RelKey} :
    (a, b, κ) ∈ g.canonicalObs ↔
      ∃ e ∈ g.nodes, e.2.id = a ∧
        ∃ r ∈ e.2.relationships, r.1 = κ ∧ b ∈ r.2 := by
  unfold canonicalObs
  simp only [List.mem_flatMap, List.mem_map, Prod.mk.injEq]
  constructor
  · rintro ⟨e, he, r, hr, t, htm, hid, rfl, rfl⟩
    exact ⟨e, he, hid, r, hr, rfl, htm⟩
  · rintro ⟨e, he, hid, r, hr, rfl, htm⟩
    exact ⟨e, he, r, hr, b, htm, hid, rfl, rfl⟩

end RelationshipChart

theorem find_assoc_of_mem_nodup {α β : Type} [DecidableEq α] :
    ∀ (l : List (α × β)) (k : α) (v : β), (l.map Prod.fst).Nodup →
      (k, v) ∈ l → l.find? (fun e => e.1 = k) = some (k, v) := by
  intro l
  induction l with
  | nil =>
      intro k v _ hm
      exact absurd hm (List.not_mem_nil _)
  | cons e t ih =>
      intro k v hnd hm
      rw [List.map_cons, List.nodup_cons] at hnd
      rcases List.mem_cons.mp hm with rfl | hm2
      · rw [List.find?_cons_of_pos]
        simp
      · have hek : (decide (e.1 = k)) = false := by
          simp only [decide_eq_false_iff_not]
          intro he
          exact hnd.1 (he ▸ List.mem_map_of_mem Prod.fst hm2)
        rw [List.find?]
        rw [hek]
        exact ih k v hnd.2 hm2

namespace RelationshipChart

/-- The representation invariants every chart built through the Python class
satisfies: node ids equal their dictionary keys, the node dictionary has no
duplicate keys, and no node's relationship dictionary has duplicate keys. -/
def wfChart (g : RelationshipChart) : Prop :=
  wfIds g = true ∧ g.keys.Nodup ∧
  ∀ e ∈ g.nodes, (e.2.relationships.map Prod.fst).Nodup

theorem findNode_of_mem_nodup {g : RelationshipChart} {k : String}
    {n : CharacterNode} (hnd : g.keys.Nodup) (hm : (k, n) ∈ g.nodes) :
    g.findNode k = some n := by
  unfold findNode
  rw [find_assoc_of_mem_nodup g.nodes k n hnd hm]
  rfl

theorem relGet_of_mem_nodup {n : CharacterNode} {κ : RelKey}
    {ts : List String} (hnd : (n.relationships.map Prod.fst).Nodup)
    (hm : (κ, ts) ∈ n.relationships) : n.relGet κ = some ts := by
  unfold CharacterNode.relGet
  rw [find_assoc_of_mem_nodup n.relationships κ ts hnd hm]
  rfl

theorem relGet_mem {n : CharacterNode} {κ : RelKey} {ts : List String}
    (h : n.relGet κ = some ts) : (κ, ts) ∈ n.relationships := by
  unfold CharacterNode.relGet at h
  rcases he : n.relationships.find? (fun e => e.1 = κ) with _ | r
  · rw [he] at h; simp at h
  · rw [he] at h
    simp only [Option.map_some', Option.some.injEq] at h
    have hmem := List.mem_of_find?_eq_some he
    have hkey := List.find?_some he
    simp only [decide_eq_true_eq] at hkey
    have : r = (κ, ts) := by
      rcases r with ⟨k1, v1⟩
      simp only at hkey h
      rw [hkey, h]
    exact this ▸ hmem

theorem hasRelTarget_true_iff {g : RelationshipChart} {a b : String}
    {κ : RelKey} :
    g.hasRelTarget a κ b = true ↔
      ∃ n, g.findNode a = some n ∧ ∃ ts, n.relGet κ = some ts ∧ b ∈ ts := by
  unfold hasRelTarget
  rcases h1 : g.findNode a with _ | n
  · simp
  · rcases h2 : n.relGet κ with _ | ts
    · simp [h2]
    · simp [h2]

theorem hasRelTarget_iff_canonical {g : RelationshipChart} {a b : String}
    {κ : RelKey} (hwf : wfChart g) :
    g.hasRelTarget a κ b = true ↔ (a, b, κ) ∈ g.canonicalObs := by
  rcases hwf with ⟨hids, hnd, hrk⟩
  rw [hasRelTarget_true_iff, mem_canonicalObs]
  constructor
  · rintro ⟨n, hn, ts, hts, htm⟩
    exact ⟨(a, n), mem_values_of_findNode hn, wfIds_findNode hids hn,
      (κ, ts), relGet_mem hts, rfl, htm⟩
  · rintro ⟨e, he, hid, r, hr, rfl, htm⟩
    have hkey : e.2.id = e.1 := by
      have := (List.all_eq_true.mp hids) e he
      simpa using this
    have he1 : e.1 = a := by rw [← hkey, hid]
    have hfind : g.findNode a = some e.2 := by
      apply findNode_of_mem_nodup hnd
      rw [← he1]
      exact he
    exact ⟨e.2, hfind, r.2, relGet_of_mem_nodup (hrk e he) (by
      rcases r with ⟨k1, v1⟩; exact hr), htm⟩

end RelationshipChart

namespace RelationshipChart

/-- The `rel_status_dict` key of an observation. -/
def obsKey (o : String × String × RelKey) : CleanKey :=
  (pairSorted o.1 o.2.1, o.2.2.2)

/-- The status of an observation. -/
def obsStat (o : String × String × RelKey) : RelationshipStatus := o.2.2.1

/-- The `rel_status_dict` key of a pending removal. -/
def remKey (r : String × String × RelationshipStatus × String) : CleanKey :=
  (pairSorted r.1 r.2.1, r.2.2.2)

/-- `rel_status_dict.get(key)`. -/
def dlook (dict : List (CleanKey × RelationshipStatus)) (κ : CleanKey) :
    Option RelationshipStatus :=
  (dict.find? (fun e => e.1 = κ)).map Prod.snd

theorem dlook_append (d1 d2 : List (CleanKey × RelationshipStatus))
    (κ : CleanKey) : dlook (d1 ++ d2) κ = (dlook d1 κ).or (dlook d2 κ) := by
  unfold dlook
  rw [List.find?_append]
  rcases hf : d1.find? (fun e => e.1 = κ) with _ | e <;> rw [hf] <;> rfl

theorem dlook_singleton (κ0 : CleanKey) (s0 : RelationshipStatus)
    (κ : CleanKey) :
    dlook [(κ0, s0)] κ = if κ = κ0 then some s0 else none := by
  unfold dlook
  by_cases h : κ = κ0
  · rw [if_pos h]
    have hd : (decide (((κ0, s0) : CleanKey × RelationshipStatus).1 = κ)) =
        true := by simp [h.symm]
    rw [List.find?, hd]
    rfl
  · rw [if_neg h]
    have hd : (decide (((κ0, s0) : CleanKey × RelationshipStatus).1 = κ)) =
        false := by simp; exact fun he => h he.symm
    rw [List.find?, hd]
    rfl

theorem dlook_update (κ0 : CleanKey) (s0 : RelationshipStatus) :
    ∀ (dict : List (CleanKey × RelationshipStatus)) (κ : CleanKey),
      dlook (dict.map (fun e => if e.1 = κ0 then (e.1, s0) else e)) κ =
        if κ = κ0 then (dlook dict κ).map (fun _ => s0) else dlook dict κ := by
  intro dict
  induction dict with
  | nil =>
      intro κ
      by_cases h : κ = κ0 <;> simp [dlook, h]
  | cons e t ih =>
      intro κ
      rw [List.map_cons]
      unfold dlook
      simp only [List.find?]
      have h1 : (if e.1 = κ0 then ((e.1, s0) : CleanKey × RelationshipStatus)
          else e).1 = e.1 := by split <;> rfl
      rw [h1]
      by_cases he : e.1 = κ
      · have hd : (decide (e.1 = κ)) = true := by simp [he]
        rw [hd]
        by_cases h : κ = κ0
        · rw [if_pos h, if_pos (show e.1 = κ0 by rw [he]; exact h)]
          rfl
        · rw [if_neg h, if_neg (show ¬ e.1 = κ0 by rw [he]; exact h)]
      · have hd : (decide (e.1 = κ)) = false := by simp [he]
        rw [hd]
        have hih := ih κ
        unfold dlook at hih
        by_cases h : κ = κ0
        · rw [if_pos h] at hih ⊢
          exact hih
        · rw [if_neg h] at hih ⊢
          exact hih

theorem statusSorted_self (a : RelationshipStatus) :
    statusSorted a a = (a, a) := by
  cases a <;> rfl

theorem statusSorted_ne {a b : RelationshipStatus} (h : ¬ a = b) :
    statusSorted a b = (.PAST, .LOCKED) := by
  rcases status_cases a with rfl | rfl <;> rcases status_cases b with rfl | rfl
  · exact absurd rfl h
  · rfl
  · rfl
  · exact absurd rfl h

/-- The invariant threaded through the observation loop of
`clean_relationships`: the status dictionary stores, per key, whether a
LOCKED observation was seen; every pending removal is a PAST removal of a
key observed under both statuses; and every key observed under both
statuses has a pending removal. -/
def cleanInv (done : List (String × String × RelKey))
    (st : List (String × String × RelationshipStatus × String) ×
      List (CleanKey × RelationshipStatus)) : Prop :=
  (∀ κ s, dlook st.2 κ = some s →
    (∃ o ∈ done, obsKey o = κ) ∧
    (s = .LOCKED ↔ ∃ o ∈ done, obsKey o = κ ∧ obsStat o = .LOCKED)) ∧
  (∀ κ, dlook st.2 κ = none → ¬∃ o ∈ done, obsKey o = κ) ∧
  (∀ r ∈ st.1, r.2.2.1 = .PAST ∧
    (∃ o ∈ done, obsKey o = remKey r ∧ obsStat o = .PAST) ∧
    (∃ o ∈ done, obsKey o = remKey r ∧ obsStat o = .LOCKED)) ∧
  (∀ κ, (∃ o ∈ done, obsKey o = κ ∧ obsStat o = .PAST) →
    (∃ o ∈ done, obsKey o = κ ∧ obsStat o = .LOCKED) →
    ∃ r ∈ st.1, remKey r = κ)

theorem cleanInv_init : cleanInv [] ([], []) := by
  refine ⟨?_, ?_, ?_, ?_⟩
  · intro κ s hs
    exact absurd hs (by simp [dlook])
  · intro κ _
    rintro ⟨o, ho, _⟩
    exact absurd ho (List.not_mem_nil o)
  · intro r hr
    exact absurd hr (List.not_mem_nil r)
  · intro κ hP _
    rcases hP with ⟨o, ho, _⟩
    exact absurd ho (List.not_mem_nil o)

end RelationshipChart

namespace RelationshipChart

theorem cleanStep_inv {done : List (String × String × RelKey)}
    {removes : List (String × String × RelationshipStatus × String)}
    {dict : List (CleanKey × RelationshipStatus)}
    (hI : cleanInv done (removes, dict)) (o : String × String × RelKey) :
    cleanInv (done ++ [o]) (cleanStep (removes, dict) o) := by
  obtain ⟨I1, I2, I3, I4⟩ := hI
  have hoin : o ∈ done ++ [o] :=
    List.mem_append.mpr (Or.inr (List.mem_singleton.mpr rfl))
  rcases hd : dlook dict (obsKey o) with _ | prev
  · -- the key has not been seen yet: record the status
    have hd' : (dict.find? (fun e =>
        e.1 = ((pairSorted o.1 o.2.1, o.2.2.2) : CleanKey))).map Prod.snd =
        (none : Option RelationshipStatus) := hd
    have hred : cleanStep (removes, dict) o =
        (removes, dict ++ [(obsKey o, obsStat o)]) := by
      unfold cleanStep
      dsimp only
      rw [hd']
      rfl
    rw [hred]
    refine ⟨?_, ?_, ?_, ?_⟩
    · intro κ s hs
      rw [dlook_append, dlook_singleton] at hs
      rcases hA : dlook dict κ with _ | s1 <;> rw [hA] at hs
      · have hs' : (if κ = obsKey o then some (obsStat o) else none) =
            some s := hs
        by_cases hκ : κ = obsKey o
        · rw [if_pos hκ] at hs'
          have hso : obsStat o = s := Option.some.inj hs'
          refine ⟨⟨o, hoin, hκ.symm⟩, ?_, ?_⟩
          · intro hsl
            exact ⟨o, hoin, hκ.symm, by rw [hso, hsl]⟩
          · rintro ⟨o2, ho2, hk2, hs2⟩
            rcases List.mem_append.mp ho2 with h2 | h2
            · exact absurd ⟨o2, h2, hk2⟩ (I2 κ hA)
            · have he2 : o2 = o := List.mem_singleton.mp h2
              subst he2
              rw [← hso]
              exact hs2
        · rw [if_neg hκ] at hs'
          exact absurd hs' (by simp)
      · have hseq : s1 = s := Option.some.inj hs
        subst hseq
        rcases I1 κ s1 hA with ⟨hex, hiff⟩
        have hκ : κ ≠ obsKey o := by
          intro he
          rw [he] at hA
          rw [hd] at hA
          exact Option.noConfusion hA
        refine ⟨?_, ?_, ?_⟩
        · rcases hex with ⟨o2, ho2, hk2⟩
          exact ⟨o2, List.mem_append.mpr (Or.inl ho2), hk2⟩
        · intro hsl
          rcases hiff.mp hsl with ⟨o2, ho2, hk2, hs2⟩
          exact ⟨o2, List.mem_append.mpr (Or.inl ho2), hk2, hs2⟩
        · rintro ⟨o2, ho2, hk2, hs2⟩
          rcases List.mem_append.mp ho2 with h2 | h2
          · exact hiff.mpr ⟨o2, h2, hk2, hs2⟩
          · have he2 : o2 = o := List.mem_singleton.mp h2
            subst he2
            exact absurd hk2.symm hκ
    · intro κ h2
      rw [dlook_append, dlook_singleton] at h2
      rcases hA : dlook dict κ with _ | s1 <;> rw [hA] at h2
      · have h2' : (if κ = obsKey o then some (obsStat o) else none) =
            (none : Option RelationshipStatus) := h2
        by_cases hκ : κ = obsKey o
        · rw [if_pos hκ] at h2'
          exact absurd h2' (by simp)
        · rintro ⟨o2, ho2, hk2⟩
          rcases List.mem_append.mp ho2 with hm | hm
          · exact I2 κ hA ⟨o2, hm, hk2⟩
          · have he2 : o2 = o := List.mem_singleton.mp hm
            subst he2
            exact hκ hk2.symm
      · have h2' : some s1 = (none : Option RelationshipStatus) := h2
        exact absurd h2' (by simp)
    · intro r hr
      rcases I3 r hr with ⟨hp, hP, hL⟩
      refine ⟨hp, ?_, ?_⟩
      · rcases hP with ⟨o2, ho2, hk2, hs2⟩
        exact ⟨o2, List.mem_append.mpr (Or.inl ho2), hk2, hs2⟩
      · rcases hL with ⟨o2, ho2, hk2, hs2⟩
        exact ⟨o2, List.mem_append.mpr (Or.inl ho2), hk2, hs2⟩
    · intro κ hP hL
      rcases hP with ⟨oP, hoP, hkP, hsP⟩
      rcases hL with ⟨oL, hoL, hkL, hsL⟩
      rcases List.mem_append.mp hoP with hmP | hmP <;>
        rcases List.mem_append.mp hoL with hmL | hmL
      · exact I4 κ ⟨oP, hmP, hkP, hsP⟩ ⟨oL, hmL, hkL, hsL⟩
      · have heL : oL = o := List.mem_singleton.mp hmL
        subst heL
        exact absurd ⟨oP, hmP, hkP⟩ (I2 κ (by rw [← hkL]; exact hd))
      · have heP : oP = o := List.mem_singleton.mp hmP
        subst heP
        exact absurd ⟨oL, hmL, hkL⟩ (I2 κ (by rw [← hkP]; exact hd))
      · have heP : oP = o := List.mem_singleton.mp hmP
        have heL : oL = o := List.mem_singleton.mp hmL
        subst heP
        subst heL
        rw [hsP] at hsL
        exact RelationshipStatus.noConfusion hsL
  · -- a previous status exists for this key
    have hd' : (dict.find? (fun e =>
        e.1 = ((pairSorted o.1 o.2.1, o.2.2.2) : CleanKey))).map Prod.snd =
        some prev := hd
    by_cases heq : obsStat o = prev
    · -- same status: the chart state is untouched
      have heq' : o.2.2.1 = prev := heq
      have hred : cleanStep (removes, dict) o = (removes, dict) := by
        unfold cleanStep
        dsimp only
        rw [hd']
        dsimp only
        rw [← heq', statusSorted_self]
        dsimp only
        rw [if_neg (fun hc => hc rfl)]
      rw [hred]
      refine ⟨?_, ?_, ?_, ?_⟩
      · intro κ s hs
        rcases I1 κ s hs with ⟨hex, hiff⟩
        refine ⟨?_, ?_, ?_⟩
        · rcases hex with ⟨o2, ho2, hk2⟩
          exact ⟨o2, List.mem_append.mpr (Or.inl ho2), hk2⟩
        · intro hsl
          rcases hiff.mp hsl with ⟨o2, ho2, hk2, hs2⟩
          exact ⟨o2, List.mem_append.mpr (Or.inl ho2), hk2, hs2⟩
        · rintro ⟨o2, ho2, hk2, hs2⟩
          rcases List.mem_append.mp ho2 with h2 | h2
          · exact hiff.mpr ⟨o2, h2, hk2, hs2⟩
          · have he2 : o2 = o := List.mem_singleton.mp h2
            subst he2
            have hps : prev = s := by
              rw [← hk2] at hs
              rw [hd] at hs
              exact Option.some.inj hs
            rw [← hps, ← heq]
            exact hs2
      · intro κ h2
        rintro ⟨o2, ho2, hk2⟩
        rcases List.mem_append.mp ho2 with hm | hm
        · exact I2 κ h2 ⟨o2, hm, hk2⟩
        · have he2 : o2 = o := List.mem_singleton.mp hm
          subst he2
          rw [← hk2] at h2
          rw [hd] at h2
          exact Option.noConfusion h2
      · intro r hr
        rcases I3 r hr with ⟨hp, hP, hL⟩
        refine ⟨hp, ?_, ?_⟩
        · rcases hP with ⟨o2, ho2, hk2, hs2⟩
          exact ⟨o2, List.mem_append.mpr (Or.inl ho2), hk2, hs2⟩
        · rcases hL with ⟨o2, ho2, hk2, hs2⟩
          exact ⟨o2, List.mem_append.mpr (Or.inl ho2), hk2, hs2⟩
      · intro κ hP hL
        rcases hP with ⟨oP, hoP, hkP, hsP⟩
        rcases hL with ⟨oL, hoL, hkL, hsL⟩
        rcases List.mem_append.mp hoP with hmP | hmP <;>
          rcases List.mem_append.mp hoL with hmL | hmL
        · exact I4 κ ⟨oP, hmP, hkP, hsP⟩ ⟨oL, hmL, hkL, hsL⟩
        · have heL : oL = o := List.mem_singleton.mp hmL
          subst heL
          have hprevL : prev = .LOCKED := by rw [← heq]; exact hsL
          rcases I1 κ prev (by rw [← hkL]; exact hd) with ⟨_, hiff⟩
          exact I4 κ ⟨oP, hmP, hkP, hsP⟩ (hiff.mp hprevL)
        · have heP : oP = o := List.mem_singleton.mp hmP
          subst heP
          have hprevP : prev = .PAST := by rw [← heq]; exact hsP
          rcases I1 κ prev (by rw [← hkP]; exact hd) with ⟨_, hiff⟩
          exfalso
          have : prev = .LOCKED := hiff.mpr ⟨oL, hmL, hkL, hsL⟩
          rw [hprevP] at this
          exact RelationshipStatus.noConfusion this
        · have heP : oP = o := List.mem_singleton.mp hmP
          have heL : oL = o := List.mem_singleton.mp hmL
          subst heP
          subst heL
          rw [hsP] at hsL
          exact RelationshipStatus.noConfusion hsL
    · -- conflicting statuses: remove the PAST edge, keep LOCKED
      have hsort : statusSorted (obsStat o) prev = (.PAST, .LOCKED) :=
        statusSorted_ne heq
      have hcase : (obsStat o = .PAST ∧ prev = .LOCKED) ∨
          (obsStat o = .LOCKED ∧ prev = .PAST) := by
        rcases status_cases (obsStat o) with h1 | h1 <;>
          rcases status_cases prev with h2 | h2
        · exact absurd (h1.trans h2.symm) heq
        · exact Or.inl ⟨h1, h2⟩
        · exact Or.inr ⟨h1, h2⟩
        · exact absurd (h1.trans h2.symm) heq
      have hsort' : statusSorted o.2.2.1 prev = (.PAST, .LOCKED) := hsort
      have hred : cleanStep (removes, dict) o =
          (removes ++ [(o.1, o.2.1, .PAST, o.2.2.2)],
           dict.map (fun e => if e.1 = obsKey o then (e.1, .LOCKED) else e)) := by
        unfold cleanStep
        dsimp only
        rw [hd']
        dsimp only
        rw [hsort']
        dsimp only
        rw [if_pos (show (RelationshipStatus.PAST ≠ RelationshipStatus.LOCKED)
          from fun hc => RelationshipStatus.noConfusion hc)]
        rfl
      rw [hred]
      have hPdone : ∃ o2 ∈ done ++ [o], obsKey o2 = obsKey o ∧
          obsStat o2 = .PAST := by
        rcases hcase with ⟨h1, _⟩ | ⟨_, h2⟩
        · exact ⟨o, hoin, rfl, h1⟩
        · rcases I1 (obsKey o) prev hd with ⟨⟨o2, ho2, hk2⟩, hiff⟩
          rcases status_cases (obsStat o2) with h3 | h3
          · exact ⟨o2, List.mem_append.mpr (Or.inl ho2), hk2, h3⟩
          · exfalso
            have : prev = .LOCKED := hiff.mpr ⟨o2, ho2, hk2, h3⟩
            rw [h2] at this
            exact RelationshipStatus.noConfusion this
      have hLdone : ∃ o2 ∈ done ++ [o], obsKey o2 = obsKey o ∧
          obsStat o2 = .LOCKED := by
        rcases hcase with ⟨_, h2⟩ | ⟨h1, _⟩
        · rcases I1 (obsKey o) prev hd with ⟨_, hiff⟩
          rcases hiff.mp h2 with ⟨o2, ho2, hk2, hs2⟩
          exact ⟨o2, List.mem_append.mpr (Or.inl ho2), hk2, hs2⟩
        · exact ⟨o, hoin, rfl, h1⟩
      refine ⟨?_, ?_, ?_, ?_⟩
      · intro κ s hs
        rw [dlook_update] at hs
        by_cases hκ : κ = obsKey o
        · rw [if_pos hκ, hκ, hd] at hs
          have hsl : RelationshipStatus.LOCKED = s := Option.some.inj hs
          rcases I1 (obsKey o) prev hd with ⟨⟨o2, ho2, hk2⟩, _⟩
          refine ⟨⟨o2, List.mem_append.mpr (Or.inl ho2), by rw [hk2, hκ]⟩,
            ?_, ?_⟩
          · intro _
            rcases hLdone with ⟨o3, ho3, hk3, hs3⟩
            exact ⟨o3, ho3, by rw [hk3, hκ], hs3⟩
          · intro _
            rw [← hsl]
        · rw [if_neg hκ] at hs
          rcases I1 κ s hs with ⟨hex, hiff⟩
          refine ⟨?_, ?_, ?_⟩
          · rcases hex with ⟨o2, ho2, hk2⟩
            exact ⟨o2, List.mem_append.mpr (Or.inl ho2), hk2⟩
          · intro hsl
            rcases hiff.mp hsl with ⟨o2, ho2, hk2, hs2⟩
            exact ⟨o2, List.mem_append.mpr (Or.inl ho2), hk2, hs2⟩
          · rintro ⟨o2, ho2, hk2, hs2⟩
            rcases List.mem_append.mp ho2 with h2 | h2
            · exact hiff.mpr ⟨o2, h2, hk2, hs2⟩
            · have he2 : o2 = o := List.mem_singleton.mp h2
              subst he2
              exact absurd hk2.symm hκ
      · intro κ h2
        rw [dlook_update] at h2
        by_cases hκ : κ = obsKey o
        · rw [if_pos hκ, hκ, hd] at h2
          exact absurd h2 (by simp)
        · rw [if_neg hκ] at h2
          rintro ⟨o2, ho2, hk2⟩
          rcases List.mem_append.mp ho2 with hm | hm
          · exact I2 κ h2 ⟨o2, hm, hk2⟩
          · have he2 : o2 = o := List.mem_singleton.mp hm
            subst he2
            exact hκ hk2.symm
      · intro r hr
        rcases List.mem_append.mp hr with hm | hm
        · rcases I3 r hm with ⟨hp, hP, hL⟩
          refine ⟨hp, ?_, ?_⟩
          · rcases hP with ⟨o2, ho2, hk2, hs2⟩
            exact ⟨o2, List.mem_append.mpr (Or.inl ho2), hk2, hs2⟩
          · rcases hL with ⟨o2, ho2, hk2, hs2⟩
            exact ⟨o2, List.mem_append.mpr (Or.inl ho2), hk2, hs2⟩
        · have her : r = (o.1, o.2.1, .PAST, o.2.2.2) :=
            List.mem_singleton.mp hm
          subst her
          exact ⟨rfl, hPdone, hLdone⟩
      · intro κ hP hL
        by_cases hκ : κ = obsKey o
        · refine ⟨(o.1, o.2.1, .PAST, o.2.2.2),
            List.mem_append.mpr (Or.inr (List.mem_singleton.mpr rfl)), ?_⟩
          rw [hκ]
          rfl
        · rcases hP with ⟨oP, hoP, hkP, hsP⟩
          rcases hL with ⟨oL, hoL, hkL, hsL⟩
          have hmP : oP ∈ done := by
            rcases List.mem_append.mp hoP with hm | hm
            · exact hm
            · exfalso
              have he2 : oP = o := List.mem_singleton.mp hm
              subst he2
              exact hκ hkP.symm
          have hmL : oL ∈ done := by
            rcases List.mem_append.mp hoL with hm | hm
            · exact hm
            · exfalso
              have he2 : oL = o := List.mem_singleton.mp hm
              subst he2
              exact hκ hkL.symm
          rcases I4 κ ⟨oP, hmP, hkP, hsP⟩ ⟨oL, hmL, hkL, hsL⟩ with ⟨r, hr, hk⟩
          exact ⟨r, List.mem_append.mpr (Or.inl hr), hk⟩

end RelationshipChart

namespace RelationshipChart

theorem cleanFold_inv :
    ∀ (obs done : List (String × String × RelKey))
      (st : List (String × String × RelationshipStatus × String) ×
        List (CleanKey × RelationshipStatus)),
      cleanInv done st → cleanInv (done ++ obs) (obs.foldl cleanStep st) := by
  intro obs
  induction obs with
  | nil =>
      intro done st h
      rw [List.append_nil]
      exact h
  | cons o t ih =>
      intro done st h
      rw [List.foldl_cons]
      have h2 : cleanInv (done ++ [o]) (cleanStep st o) := by
        obtain ⟨removes, dict⟩ := st
        exact cleanStep_inv h o
      have h3 := ih (done ++ [o]) (cleanStep st o) h2
      rw [List.append_assoc] at h3
      exact h3

theorem cleanFold_full (obs : List (String × String × RelKey)) :
    cleanInv obs (obs.foldl cleanStep ([], [])) :=
  cleanFold_inv obs [] ([], []) cleanInv_init

theorem cleanFold_removes_nil {obs : List (String × String × RelKey)}
    (hnc : ∀ κ, ¬((∃ o ∈ obs, obsKey o = κ ∧ obsStat o = .PAST) ∧
      (∃ o ∈ obs, obsKey o = κ ∧ obsStat o = .LOCKED))) :
    (obs.foldl cleanStep ([], [])).1 = [] := by
  rcases cleanFold_full obs with ⟨_, _, I3, _⟩
  rcases hr : (obs.foldl cleanStep ([], [])).1 with _ | ⟨r, t⟩
  · rfl
  · exfalso
    have hmem : r ∈ (obs.foldl cleanStep ([], [])).1 := by
      rw [hr]
      exact List.mem_cons_self r t
    rcases I3 r hmem with ⟨_, hP, hL⟩
    exact hnc (remKey r) ⟨hP, hL⟩

end RelationshipChart

theorem find_assoc_map_update {α β : Type} [DecidableEq α] (κ0 : α) (f : β → β) :
    ∀ (l : List (α × β)) (κ : α),
      (((l.map (fun e => if e.1 = κ0 then (e.1, f e.2) else e)).find?
        (fun e => e.1 = κ)).map Prod.snd) =
      if κ = κ0 then ((l.find? (fun e => e.1 = κ)).map Prod.snd).map f
      else (l.find? (fun e => e.1 = κ)).map Prod.snd := by
  intro l
  induction l with
  | nil =>
      intro κ
      by_cases h : κ = κ0 <;> simp [h]
  | cons e t ih =>
      intro κ
      rw [List.map_cons]
      simp only [List.find?]
      have h1 : (if e.1 = κ0 then ((e.1, f e.2) : α × β) else e).1 = e.1 := by
        split <;> rfl
      rw [h1]
      by_cases he : e.1 = κ
      · have hd : (decide (e.1 = κ)) = true := by simp [he]
        rw [hd]
        by_cases h : κ = κ0
        · rw [if_pos h, if_pos (show e.1 = κ0 by rw [he]; exact h)]
          rfl
        · rw [if_neg h, if_neg (show ¬ e.1 = κ0 by rw [he]; exact h)]
      · have hd : (decide (e.1 = κ)) = false := by simp [he]
        rw [hd]
        have hih := ih κ
        by_cases h : κ = κ0
        · rw [if_pos h] at hih ⊢
          exact hih
        · rw [if_neg h] at hih ⊢
          exact hih

namespace RelationshipChart

theorem relGet_relDiscard_ne {n : CharacterNode} {κ0 κ : RelKey} {x : String}
    (hne : κ ≠ κ0) : (n.relDiscard κ0 x).relGet κ = n.relGet κ := by
  unfold CharacterNode.relDiscard
  rcases hg : n.relGet κ0 with _ | ts
  · unfold CharacterNode.relGet
    dsimp only
    rw [List.find?_append]
    have hone : ([((κ0, ([] : List String)) : RelKey × List String)].find?
        (fun e => e.1 = κ)) = none := by
      rw [List.find?]
      have hd : (decide (((κ0, ([] : List String)) :
          RelKey × List String).1 = κ)) = false := by
        simp
        exact fun hc => hne hc.symm
      rw [hd]
      rfl
    rw [hone]
    rcases hf : n.relationships.find? (fun e => e.1 = κ) with _ | r <;>
      rw [hf] <;> rfl
  · unfold CharacterNode.relGet
    dsimp only
    have hmain := find_assoc_map_update κ0 (fun v => sDiscard v x)
      n.relationships κ
    rw [if_neg hne] at hmain
    exact hmain

theorem relGet_relDiscard_self (n : CharacterNode) (κ0 : RelKey) (x : String) :
    (n.relDiscard κ0 x).relGet κ0 =
      some (sDiscard ((n.relGet κ0).getD []) x) := by
  unfold CharacterNode.relDiscard
  rcases hg : n.relGet κ0 with _ | ts
  · unfold CharacterNode.relGet at hg ⊢
    dsimp only
    rw [List.find?_append]
    have hnone : n.relationships.find? (fun e => e.1 = κ0) = none := by
      rcases hf : n.relationships.find? (fun e => e.1 = κ0) with _ | r
      · exact hf
      · rw [hf] at hg
        simp at hg
    rw [hnone]
    have hone : ([((κ0, ([] : List String)) : RelKey × List String)].find?
        (fun e => e.1 = κ0)) = some (κ0, []) := by
      rw [List.find?]
      have hd : (decide (((κ0, ([] : List String)) :
          RelKey × List String).1 = κ0)) = true := by simp
      rw [hd]
    rw [hone]
    rfl
  · unfold CharacterNode.relGet at hg ⊢
    dsimp only
    have hmain := find_assoc_map_update κ0 (fun v => sDiscard v x)
      n.relationships κ0
    rw [if_pos rfl] at hmain
    rw [hmain, hg]
    rfl

theorem remove_relationship_eq {g g₂ : RelationshipChart} {a b : String}
    {κ0 : RelKey} (h : g.remove_relationship a b κ0 = .ok g₂) :
    g₂ = (g.setF a (fun n => n.relDiscard κ0 b)).setF b
      (fun n => n.relDiscard κ0 a) := by
  unfold remove_relationship at h
  rcases exBind_ok h with ⟨n1, _, h2⟩
  rcases exBind_ok h2 with ⟨n2, _, h3⟩
  exact (exPure_ok h3).symm

theorem hasRelTarget_setF_relDiscard {g : RelationshipChart} {a q : String}
    {κ0 : RelKey} (x y : String) (κ : RelKey) :
    (g.setF a (fun n => n.relDiscard κ0 q)).hasRelTarget x κ y = true ↔
      (g.hasRelTarget x κ y = true ∧ ¬(κ = κ0 ∧ x = a ∧ y = q)) := by
  rw [hasRelTarget_true_iff, hasRelTarget_true_iff, findNode_setF]
  by_cases hxa : x = a
  · rw [if_pos hxa]
    rcases hfn : g.findNode x with _ | n
    · simp
    · simp only [Option.map_some', Option.some.injEq]
      by_cases hκ : κ = κ0
      · subst hκ
        constructor
        · rintro ⟨n', hn', ts', hts', hm⟩
          rw [← hn'] at hts'
          rw [relGet_relDiscard_self] at hts'
          have hts'' : sDiscard ((n.relGet κ).getD []) q = ts' :=
            Option.some.inj hts'
          rw [← hts''] at hm
          rcases mem_sDiscard.mp hm with ⟨hmem, hne⟩
          rcases horig : n.relGet κ with _ | ts
          · rw [horig] at hmem
            exact absurd hmem (List.not_mem_nil y)
          · rw [horig] at hmem
            exact ⟨⟨n, rfl, ts, horig, hmem⟩, fun hc => hne hc.2.2⟩
        · rintro ⟨⟨n2, hn2, ts, hts, hm⟩, hnc⟩
          have hn2e : n2 = n := hn2.symm
          subst hn2e
          refine ⟨n2.relDiscard κ q, rfl,
            sDiscard ((n2.relGet κ).getD []) q, relGet_relDiscard_self n2 κ q,
            ?_⟩
          rw [hts]
          exact mem_sDiscard.mpr ⟨by exact hm,
            fun he => hnc ⟨rfl, hxa, he⟩⟩
      · constructor
        · rintro ⟨n', hn', ts', hts', hm⟩
          rw [← hn'] at hts'
          rw [relGet_relDiscard_ne hκ] at hts'
          exact ⟨⟨n, rfl, ts', hts', hm⟩, fun hc => hκ hc.1⟩
        · rintro ⟨⟨n2, hn2, ts, hts, hm⟩, _⟩
          have hn2e : n2 = n := hn2.symm
          subst hn2e
          exact ⟨n2.relDiscard κ0 q, rfl, ts,
            by rw [relGet_relDiscard_ne hκ]; exact hts, hm⟩
  · rw [if_neg hxa]
    constructor
    · intro hh
      exact ⟨hh, fun hc => hxa hc.2.1⟩
    · rintro ⟨hh, _⟩
      exact hh

end RelationshipChart

namespace RelationshipChart

theorem hasRelTarget_remove_relationship {g g₂ : RelationshipChart}
    {a b : String} {κ0 : RelKey} (h : g.remove_relationship a b κ0 = .ok g₂)
    (x y : String) (κ : RelKey) :
    g₂.hasRelTarget x κ y = true ↔
      (g.hasRelTarget x κ y = true ∧
        ¬(κ = κ0 ∧ ((x = a ∧ y = b) ∨ (x = b ∧ y = a)))) := by
  rw [remove_relationship_eq h]
  rw [hasRelTarget_setF_relDiscard, hasRelTarget_setF_relDiscard]
  constructor
  · rintro ⟨⟨hg, h1⟩, h2⟩
    refine ⟨hg, ?_⟩
    rintro ⟨hκ, hp | hp⟩
    · exact h1 ⟨hκ, hp.1, hp.2⟩
    · exact h2 ⟨hκ, hp.1, hp.2⟩
  · rintro ⟨hg, hnc⟩
    exact ⟨⟨hg, fun hc => hnc ⟨hc.1, Or.inl ⟨hc.2.1, hc.2.2⟩⟩⟩,
      fun hc => hnc ⟨hc.1, Or.inr ⟨hc.2.1, hc.2.2⟩⟩⟩

theorem hasRelTarget_removeFold
    {removes : List (String × String × RelationshipStatus × String)} :
    ∀ (g g' : RelationshipChart),
      removes.foldlM (fun g r => g.remove_relationship r.1 r.2.1
        (r.2.2.1, r.2.2.2)) g = .ok g' →
      ∀ x y κ, (g'.hasRelTarget x κ y = true ↔
        g.hasRelTarget x κ y = true ∧
          ∀ r ∈ removes, ¬(κ = (r.2.2.1, r.2.2.2) ∧
            ((x = r.1 ∧ y = r.2.1) ∨ (x = r.2.1 ∧ y = r.1)))) := by
  induction removes with
  | nil =>
      intro g g' h x y κ
      rw [List.foldlM_nil] at h
      have hg : g = g' := exPure_ok h
      subst hg
      simp
  | cons r t ih =>
      intro g g' h x y κ
      rw [List.foldlM_cons] at h
      rcases exBind_ok h with ⟨g₂, hg₂, hrest⟩
      rw [ih g₂ g' hrest x y κ, hasRelTarget_remove_relationship hg₂ x y κ]
      constructor
      · rintro ⟨⟨hg, h1⟩, h2⟩
        refine ⟨hg, ?_⟩
        intro r2 hr2
        rcases List.mem_cons.mp hr2 with rfl | hr2
        · exact h1
        · exact h2 r2 hr2
      · rintro ⟨hg, hall⟩
        exact ⟨⟨hg, hall r (List.mem_cons_self r t)⟩,
          fun r2 hr2 => hall r2 (List.mem_cons_of_mem r hr2)⟩

theorem keys_remove_relationship {g g₂ : RelationshipChart} {a b : String}
    {κ0 : RelKey} (h : g.remove_relationship a b κ0 = .ok g₂) :
    g₂.keys = g.keys := by
  rw [remove_relationship_eq h, keys_setF, keys_setF]

theorem wfIds_setF {g : RelationshipChart} {i : String}
    {f : CharacterNode → CharacterNode} (hpres : ∀ n, (f n).id = n.id)
    (h : wfIds g = true) : wfIds (g.setF i f) = true := by
  unfold wfIds at h ⊢
  unfold setF
  rw [List.all_eq_true] at h ⊢
  intro e' he'
  dsimp only at he'
  rcases List.mem_map.mp he' with ⟨e, he, hee⟩
  by_cases hi : e.1 = i
  · rw [if_pos hi] at hee
    rw [← hee]
    have h2 := h e he
    simp only [beq_iff_eq] at h2 ⊢
    show (f e.2).id = e.1
    rw [hpres]
    exact h2
  · rw [if_neg hi] at hee
    rw [← hee]
    exact h e he

theorem relDiscard_targets {n : CharacterNode} {κ0 : RelKey} {x : String} :
    ∀ r2 ∈ (n.relDiscard κ0 x).relationships, ∀ t ∈ r2.2,
      ∃ r ∈ n.relationships, t ∈ r.2 := by
  unfold CharacterNode.relDiscard
  rcases hg : n.relGet κ0 with _ | ts
  · intro r2 hr2 t htm
    dsimp only at hr2
    rcases List.mem_append.mp hr2 with hm | hm
    · exact ⟨r2, hm, htm⟩
    · have : r2 = (κ0, []) := List.mem_singleton.mp hm
      rw [this] at htm
      exact absurd htm (List.not_mem_nil t)
  · intro r2 hr2 t htm
    dsimp only at hr2
    rcases List.mem_map.mp hr2 with ⟨r, hr, hrr⟩
    by_cases hk : r.1 = κ0
    · rw [if_pos hk] at hrr
      rw [← hrr] at htm
      exact ⟨r, hr, (mem_sDiscard.mp htm).1⟩
    · rw [if_neg hk] at hrr
      rw [← hrr] at htm
      exact ⟨r, hr, htm⟩

theorem relDiscard_keysNodup {n : CharacterNode} {κ0 : RelKey} {x : String}
    (h : (n.relationships.map Prod.fst).Nodup) :
    ((n.relDiscard κ0 x).relationships.map Prod.fst).Nodup := by
  unfold CharacterNode.relDiscard
  rcases hg : n.relGet κ0 with _ | ts
  · dsimp only
    rw [List.map_append]
    have hnm : κ0 ∉ n.relationships.map Prod.fst := by
      have hfn : n.relationships.find? (fun e => e.1 = κ0) = none := by
        unfold CharacterNode.relGet at hg
        rcases hf : n.relationships.find? (fun e => e.1 = κ0) with _ | r
        · exact hf
        · rw [hf] at hg
          simp at hg
      rw [List.find?_eq_none] at hfn
      rintro hmem
      rcases List.mem_map.mp hmem with ⟨e, he, hee⟩
      exact hfn e he (by simp [hee])
    refine List.Nodup.append h (by simp) ?_
    intro a ha hb
    have : a = κ0 := List.mem_singleton.mp hb
    rw [this] at ha
    exact hnm ha
  · dsimp only
    have heq : (n.relationships.map
        (fun e => if e.1 = κ0 then (e.1, sDiscard e.2 x) else e)).map Prod.fst =
        n.relationships.map Prod.fst := by
      rw [List.map_map]
      apply List.map_congr_left
      intro e _
      by_cases hk : e.1 = κ0 <;> simp [hk]
    rw [heq]
    exact h

end RelationshipChart

namespace RelationshipChart

theorem relKeysNodup_setF {g : RelationshipChart} {i : String}
    {f : CharacterNode → CharacterNode}
    (hf : ∀ n : CharacterNode, (n.relationships.map Prod.fst).Nodup →
      ((f n).relationships.map Prod.fst).Nodup)
    (h : ∀ e ∈ g.nodes, (e.2.relationships.map Prod.fst).Nodup) :
    ∀ e ∈ (g.setF i f).nodes, (e.2.relationships.map Prod.fst).Nodup := by
  intro e' he'
  unfold setF at he'
  dsimp only at he'
  rcases List.mem_map.mp he' with ⟨e, he, hee⟩
  by_cases hi : e.1 = i
  · rw [if_pos hi] at hee
    rw [← hee]
    exact hf e.2 (h e he)
  · rw [if_neg hi] at hee
    rw [← hee]
    exact h e he

theorem relTargetsOk_setF {g : RelationshipChart} {i : String}
    {f : CharacterNode → CharacterNode}
    (hsub : ∀ n : CharacterNode, ∀ r2 ∈ (f n).relationships, ∀ t ∈ r2.2,
      ∃ r ∈ n.relationships, t ∈ r.2)
    (h : relTargetsOk g) : relTargetsOk (g.setF i f) := by
  intro e' he' r2 hr2 t htm
  rw [keys_setF]
  unfold setF at he'
  dsimp only at he'
  rcases List.mem_map.mp he' with ⟨e, he, hee⟩
  by_cases hi : e.1 = i
  · rw [if_pos hi] at hee
    have hr2' : r2 ∈ (f e.2).relationships := by
      rw [← hee] at hr2
      exact hr2
    rcases hsub e.2 r2 hr2' t htm with ⟨r, hr, htr⟩
    exact h e he r hr t htr
  · rw [if_neg hi] at hee
    rw [← hee] at hr2
    exact h e he r2 hr2 t htm

theorem wfChart_remove_relationship {g g₂ : RelationshipChart} {a b : String}
    {κ0 : RelKey} (h : g.remove_relationship a b κ0 = .ok g₂)
    (hwf : wfChart g) : wfChart g₂ := by
  rcases hwf with ⟨hids, hnd, hrk⟩
  rw [remove_relationship_eq h]
  refine ⟨?_, ?_, ?_⟩
  · exact wfIds_setF (fun n => (relDiscard_fieldPres κ0 a n).1)
      (wfIds_setF (fun n => (relDiscard_fieldPres κ0 b n).1) hids)
  · rw [keys_setF, keys_setF]
    exact hnd
  · exact relKeysNodup_setF (fun n hn => relDiscard_keysNodup hn)
      (relKeysNodup_setF (fun n hn => relDiscard_keysNodup hn) hrk)

theorem relTargetsOk_remove_relationship {g g₂ : RelationshipChart}
    {a b : String} {κ0 : RelKey} (h : g.remove_relationship a b κ0 = .ok g₂)
    (hrt : relTargetsOk g) : relTargetsOk g₂ := by
  rw [remove_relationship_eq h]
  exact relTargetsOk_setF (fun n => relDiscard_targets)
    (relTargetsOk_setF (fun n => relDiscard_targets) hrt)

theorem removeFold_pres
    {removes : List (String × String × RelationshipStatus × String)} :
    ∀ (g g' : RelationshipChart),
      removes.foldlM (fun g r => g.remove_relationship r.1 r.2.1
        (r.2.2.1, r.2.2.2)) g = .ok g' →
      wfChart g → relTargetsOk g → wfChart g' ∧ relTargetsOk g' := by
  induction removes with
  | nil =>
      intro g g' h hwf hrt
      rw [List.foldlM_nil] at h
      have hg : g = g' := exPure_ok h
      subst hg
      exact ⟨hwf, hrt⟩
  | cons r t ih =>
      intro g g' h hwf hrt
      rw [List.foldlM_cons] at h
      rcases exBind_ok h with ⟨g₂, hg₂, hrest⟩
      exact ih g₂ g' hrest (wfChart_remove_relationship hg₂ hwf)
        (relTargetsOk_remove_relationship hg₂ hrt)

end RelationshipChart

theorem bool_eq_of_iff {b1 b2 : Bool} (h : b1 = true ↔ b2 = true) : b1 = b2 := by
  cases b1 <;> cases b2
  · rfl
  · exact h.mpr rfl
  · exact Bool.noConfusion (h.mp rfl)
  · rfl

namespace RelationshipChart

theorem recorded_comm {g : RelationshipChart} {a b : String}
    {s : RelationshipStatus} {k : String} :
    recorded g a b s k = recorded g b a s k := by
  unfold recorded
  exact Bool.or_comm _ _

theorem inv5_of_noConflict {g : RelationshipChart} (hwf : wfChart g)
    (hcon : ∀ x y k, ¬(recorded g x y .PAST k = true ∧
      recorded g x y .LOCKED k = true)) : inv5 g = true := by
  unfold inv5
  rw [List.all_eq_true]
  intro e he
  rw [List.all_eq_true]
  intro r hr
  rw [List.all_eq_true]
  intro t htm
  have hrel : g.hasRelTarget e.1 r.1 t = true := by
    rw [hasRelTarget_true_iff]
    refine ⟨e.2, ?_, r.2, ?_, htm⟩
    · exact findNode_of_mem_nodup hwf.2.1 he
    · exact relGet_of_mem_nodup (hwf.2.2 e he) hr
  have hrec : recorded g e.1 t r.1.1 r.1.2 = true := by
    unfold recorded
    rw [Bool.or_eq_true]
    left
    have hre : r.1 = (r.1.1, r.1.2) := rfl
    rw [← hre]
    exact hrel
  rcases hb : g.recorded e.1 t (otherStatus r.1.1) r.1.2 with _ | _
  · rfl
  · exfalso
    rcases status_cases r.1.1 with hs | hs
    · rw [hs] at hrec hb
      exact hcon e.1 t r.1.2 ⟨hrec,
        by rw [show otherStatus .PAST = .LOCKED from rfl] at hb; exact hb⟩
    · rw [hs] at hrec hb
      exact hcon e.1 t r.1.2
        ⟨by rw [show otherStatus .LOCKED = .PAST from rfl] at hb; exact hb, hrec⟩

end RelationshipChart

/-- C8 — confirmed: on a well-formed chart (dict keys unique and equal to
node ids, per-node relationship keys unique — the invariants Python's dicts
provide), after `clean_relationships(inplace=True)` completes, invariant 5
holds (at most one status per unordered pair and kind); every pair and kind
that carried both a PAST and a LOCKED entry beforehand keeps the LOCKED entry
and loses the PAST entry on both endpoints; and running `clean_relationships`
again returns the same chart unchanged. -/
theorem C8_clean_relationships (g g' : RelationshipChart)
    (hwf : RelationshipChart.wfChart g)
    (h : g.clean_relationships = .ok g') :
    RelationshipChart.inv5 g' = true ∧
    (∀ a b k, RelationshipChart.recorded g a b .PAST k = true →
      RelationshipChart.recorded g a b .LOCKED k = true →
      RelationshipChart.recorded g' a b .LOCKED k = true ∧
      RelationshipChart.recorded g' a b .PAST k = false) ∧
    g'.clean_relationships = .ok g' := by
  unfold RelationshipChart.clean_relationships at h
  rcases exBind_ok h with ⟨obs, hobs, h2⟩
  have h2' : ((obs.foldl RelationshipChart.cleanStep ([], [])).1).foldlM
      (fun g r => g.remove_relationship r.1 r.2.1 (r.2.2.1, r.2.2.2)) g =
      .ok g' := h2
  have ht : RelationshipChart.relTargetsOk g :=
    RelationshipChart.iterRelsAll_targets hobs
  have hobs2 := RelationshipChart.iterRelsAll_eq hwf.1 ht
  have hobse : obs = g.canonicalObs := by
    rw [hobs] at hobs2
    injection hobs2 with hh
  subst hobse
  obtain ⟨_, _, I3, I4⟩ := RelationshipChart.cleanFold_full g.canonicalObs
  have hE := RelationshipChart.hasRelTarget_removeFold g g' h2'
  obtain ⟨hwf', hrt'⟩ := RelationshipChart.removeFold_pres g g' h2' hwf ht
  have hallPAST : ∀ r ∈ (g.canonicalObs.foldl
      RelationshipChart.cleanStep ([], [])).1,
      r.2.2.1 = RelationshipStatus.PAST :=
    fun r hr => (I3 r hr).1
  have hLock : ∀ x y k, g'.hasRelTarget x (.LOCKED, k) y =
      g.hasRelTarget x (.LOCKED, k) y := by
    intro x y k
    apply bool_eq_of_iff
    rw [hE x y (.LOCKED, k)]
    constructor
    · rintro ⟨hg, _⟩
      exact hg
    · intro hg
      refine ⟨hg, ?_⟩
      rintro r hr ⟨hκ, _⟩
      have h1 : RelationshipStatus.LOCKED = r.2.2.1 := by
        injection hκ with h1 h2
      rw [hallPAST r hr] at h1
      exact RelationshipStatus.noConfusion h1
  have hrecLock : ∀ x y k, RelationshipChart.recorded g' x y .LOCKED k =
      RelationshipChart.recorded g x y .LOCKED k := by
    intro x y k
    unfold RelationshipChart.recorded
    rw [hLock, hLock]
  have hPgone : ∀ x y k, (∃ r ∈ (g.canonicalObs.foldl
      RelationshipChart.cleanStep ([], [])).1, r.2.2.2 = k ∧
      RelationshipChart.pairSorted r.1 r.2.1 =
        RelationshipChart.pairSorted x y) →
      g'.hasRelTarget x (.PAST, k) y = false := by
    intro x y k hex
    rcases hb : g'.hasRelTarget x (.PAST, k) y with _ | _
    · rfl
    · exfalso
      rcases (hE x y (.PAST, k)).mp hb with ⟨_, hall⟩
      rcases hex with ⟨r, hr, hk, hpair⟩
      refine hall r hr ⟨?_, ?_⟩
      · rw [hallPAST r hr, hk]
      · rcases RelationshipChart.pairSorted_eq hpair with ⟨h1, h2⟩ | ⟨h1, h2⟩
        · exact Or.inl ⟨h1.symm, h2.symm⟩
        · exact Or.inr ⟨h2.symm, h1.symm⟩
  have hremEx : ∀ a b k, RelationshipChart.recorded g a b .PAST k = true →
      RelationshipChart.recorded g a b .LOCKED k = true →
      ∃ r ∈ (g.canonicalObs.foldl RelationshipChart.cleanStep ([], [])).1,
        r.2.2.2 = k ∧ RelationshipChart.pairSorted r.1 r.2.1 =
          RelationshipChart.pairSorted a b := by
    intro a b k hP hL
    have hobsP : ∃ o ∈ g.canonicalObs,
        RelationshipChart.obsKey o = (RelationshipChart.pairSorted a b, k) ∧
        RelationshipChart.obsStat o = .PAST := by
      unfold RelationshipChart.recorded at hP
      rw [Bool.or_eq_true] at hP
      rcases hP with hh | hh
      · exact ⟨(a, b, (.PAST, k)),
          (RelationshipChart.hasRelTarget_iff_canonical hwf).mp hh, rfl, rfl⟩
      · refine ⟨(b, a, (.PAST, k)),
          (RelationshipChart.hasRelTarget_iff_canonical hwf).mp hh, ?_, rfl⟩
        show (RelationshipChart.pairSorted b a, k) = _
        rw [RelationshipChart.pairSorted_comm]
    have hobsL : ∃ o ∈ g.canonicalObs,
        RelationshipChart.obsKey o = (RelationshipChart.pairSorted a b, k) ∧
        RelationshipChart.obsStat o = .LOCKED := by
      unfold RelationshipChart.recorded at hL
      rw [Bool.or_eq_true] at hL
      rcases hL with hh | hh
      · exact ⟨(a, b, (.LOCKED, k)),
          (RelationshipChart.hasRelTarget_iff_canonical hwf).mp hh, rfl, rfl⟩
      · refine ⟨(b, a, (.LOCKED, k)),
          (RelationshipChart.hasRelTarget_iff_canonical hwf).mp hh, ?_, rfl⟩
        show (RelationshipChart.pairSorted b a, k) = _
        rw [RelationshipChart.pairSorted_comm]
    rcases I4 (RelationshipChart.pairSorted a b, k) hobsP hobsL with ⟨r, hr, hk⟩
    have hk' : (RelationshipChart.pairSorted r.1 r.2.1, r.2.2.2) =
        (RelationshipChart.pairSorted a b, k) := hk
    injection hk' with h1 h2
    exact ⟨r, hr, h2, h1⟩
  have hcon' : ∀ x y k, ¬(RelationshipChart.recorded g' x y .PAST k = true ∧
      RelationshipChart.recorded g' x y .LOCKED k = true) := by
    rintro x y k ⟨hP', hL'⟩
    have hLg : RelationshipChart.recorded g x y .LOCKED k = true := by
      rw [← hrecLock]
      exact hL'
    unfold RelationshipChart.recorded at hP'
    rw [Bool.or_eq_true] at hP'
    rcases hP' with hh | hh
    · have hPg : RelationshipChart.recorded g x y .PAST k = true := by
        unfold RelationshipChart.recorded
        rw [Bool.or_eq_true]
        exact Or.inl ((hE x y (.PAST, k)).mp hh).1
      have hfalse := hPgone x y k (hremEx x y k hPg hLg)
      rw [hfalse] at hh
      exact Bool.noConfusion hh
    · have hPg : RelationshipChart.recorded g x y .PAST k = true := by
        unfold RelationshipChart.recorded
        rw [Bool.or_eq_true]
        exact Or.inr ((hE y x (.PAST, k)).mp hh).1
      have hfalse : g'.hasRelTarget y (.PAST, k) x = false := by
        apply hPgone y x k
        rcases hremEx x y k hPg hLg with ⟨r, hr, hk2, hpair⟩
        exact ⟨r, hr, hk2,
          by rw [hpair, RelationshipChart.pairSorted_comm]⟩
      rw [hfalse] at hh
      exact Bool.noConfusion hh
  refine ⟨RelationshipChart.inv5_of_noConflict hwf' hcon', ?_, ?_⟩
  · intro a b k hP hL
    constructor
    · rw [hrecLock]
      exact hL
    · unfold RelationshipChart.recorded
      rw [hPgone a b k (hremEx a b k hP hL)]
      have hrem2 : ∃ r ∈ (g.canonicalObs.foldl
          RelationshipChart.cleanStep ([], [])).1, r.2.2.2 = k ∧
          RelationshipChart.pairSorted r.1 r.2.1 =
            RelationshipChart.pairSorted b a := by
        rcases hremEx a b k hP hL with ⟨r, hr, hk2, hpair⟩
        exact ⟨r, hr, hk2,
          by rw [hpair, RelationshipChart.pairSorted_comm]⟩
      rw [hPgone b a k hrem2]
      rfl
  · have hobs' : g'.iterRelsAll = .ok g'.canonicalObs :=
      RelationshipChart.iterRelsAll_eq hwf'.1 hrt'
    have hnc : ∀ κ, ¬((∃ o ∈ g'.canonicalObs,
        RelationshipChart.obsKey o = κ ∧
        RelationshipChart.obsStat o = .PAST) ∧
        (∃ o ∈ g'.canonicalObs, RelationshipChart.obsKey o = κ ∧
          RelationshipChart.obsStat o = .LOCKED)) := by
      rintro κ ⟨⟨oP, hoP, hkP, hsP⟩, ⟨oL, hoL, hkL, hsL⟩⟩
      have hPrel : g'.hasRelTarget oP.1 oP.2.2 oP.2.1 = true :=
        (RelationshipChart.hasRelTarget_iff_canonical hwf').mpr hoP
      have hLrel : g'.hasRelTarget oL.1 oL.2.2 oL.2.1 = true :=
        (RelationshipChart.hasRelTarget_iff_canonical hwf').mpr hoL
      have hsP' : oP.2.2.1 = RelationshipStatus.PAST := hsP
      have hsL' : oL.2.2.1 = RelationshipStatus.LOCKED := hsL
      have hP2 : oP.2.2 = (RelationshipStatus.PAST, oP.2.2.2) := by
        have he : oP.2.2 = (oP.2.2.1, oP.2.2.2) := rfl
        rw [he, hsP']
      have hL2 : oL.2.2 = (RelationshipStatus.LOCKED, oL.2.2.2) := by
        have he : oL.2.2 = (oL.2.2.1, oL.2.2.2) := rfl
        rw [he, hsL']
      rw [hP2] at hPrel
      rw [hL2] at hLrel
      have hkey : (RelationshipChart.pairSorted oP.1 oP.2.1, oP.2.2.2) =
          (RelationshipChart.pairSorted oL.1 oL.2.1, oL.2.2.2) := by
        have h1 : (RelationshipChart.pairSorted oP.1 oP.2.1, oP.2.2.2) = κ :=
          hkP
        have h2 : (RelationshipChart.pairSorted oL.1 oL.2.1, oL.2.2.2) = κ :=
          hkL
        rw [h1, h2]
      injection hkey with hpair hkind
      rw [← hkind] at hLrel
      have hrecP : RelationshipChart.recorded g' oP.1 oP.2.1 .PAST
          oP.2.2.2 = true := by
        unfold RelationshipChart.recorded
        rw [Bool.or_eq_true]
        exact Or.inl hPrel
      have hrecL2 : RelationshipChart.recorded g' oP.1 oP.2.1 .LOCKED
          oP.2.2.2 = true := by
        unfold RelationshipChart.recorded
        rw [Bool.or_eq_true]
        rcases RelationshipChart.pairSorted_eq hpair with ⟨h1, h2⟩ | ⟨h1, h2⟩
        · left
          rw [h1, h2]
          exact hLrel
        · right
          rw [h2, h1]
          exact hLrel
      exact hcon' oP.1 oP.2.1 oP.2.2.2 ⟨hrecP, hrecL2⟩
    unfold RelationshipChart.clean_relationships
    rw [hobs', exOk_bind]
    show ((g'.canonicalObs.foldl RelationshipChart.cleanStep ([], [])).1).foldlM
        (fun g r => g.remove_relationship r.1 r.2.1 (r.2.2.1, r.2.2.2)) g' =
      .ok g'
    rw [RelationshipChart.cleanFold_removes_nil hnc, List.foldlM_nil]
    rfl

namespace RelationshipChart

instance instDecidableWfChart (g : RelationshipChart) :
    Decidable (wfChart g) := by
  unfold wfChart
  exact inferInstance

end RelationshipChart

/-- Two nodes holding both a PAST and a LOCKED "friend" relationship with
each other. -/
def c8WitnessGraph : RelationshipChart :=
  { nodes := [
      mkNode "a" false [] []
        [((.PAST, "friend"), ["b"]), ((.LOCKED, "friend"), ["b"])],
      mkNode "b" false [] []
        [((.PAST, "friend"), ["a"]), ((.LOCKED, "friend"), ["a"])]] }

/-- The chart produced by `clean_relationships` on `c8WitnessGraph`: the
PAST entries are emptied on both endpoints, the LOCKED ones survive. -/
def c8WitnessResult : RelationshipChart :=
  { nodes := [
      mkNode "a" false [] []
        [((.PAST, "friend"), []), ((.LOCKED, "friend"), ["b"])],
      mkNode "b" false [] []
        [((.PAST, "friend"), []), ((.LOCKED, "friend"), ["a"])]] }

/-- Closed witness for the C8 theorem at the concrete graph. -/
theorem C8_clean_relationships_witness :
    (RelationshipChart.wfChart c8WitnessGraph ∧
     c8WitnessGraph.clean_relationships = .ok c8WitnessResult) ∧
    (RelationshipChart.inv5 c8WitnessResult = true ∧
     (∀ a b k, RelationshipChart.recorded c8WitnessGraph a b .PAST k = true →
       RelationshipChart.recorded c8WitnessGraph a b .LOCKED k = true →
       RelationshipChart.recorded c8WitnessResult a b .LOCKED k = true ∧
       RelationshipChart.recorded c8WitnessResult a b .PAST k = false) ∧
     c8WitnessResult.clean_relationships = .ok c8WitnessResult) :=
  ⟨⟨by decide, by decide⟩,
   C8_clean_relationships c8WitnessGraph c8WitnessResult (by decide) (by decide)⟩

theorem foldlM_graph_inv_mem {β : Type}
    (step : RelationshipChart → β → Except Err RelationshipChart)
    (motive : RelationshipChart → Prop) :
    ∀ (l : List β), (∀ s b, b ∈ l → motive s → ∀ s', step s b = .ok s' →
      motive s') →
    ∀ (s s' : RelationshipChart),
      motive s → l.foldlM step s = .ok s' → motive s' := by
  intro l
  induction l with
  | nil =>
      intro _ s s' hm h
      rw [List.foldlM_nil] at h
      exact (exPure_ok h) ▸ hm
  | cons b t ih =>
      intro hstep s s' hm h
      rw [List.foldlM_cons] at h
      rcases exBind_ok h with ⟨s1, hs1, hrest⟩
      exact ih (fun s b2 hb2 => hstep s b2 (List.mem_cons_of_mem b hb2)) s1 s'
        (hstep s b (List.mem_cons_self b t) hm s1 hs1) hrest

theorem foldlM_id {β : Type}
    (step : RelationshipChart → β → Except Err RelationshipChart)
    (g : RelationshipChart) :
    ∀ (l : List β), (∀ b ∈ l, step g b = .ok g) →
      l.foldlM step g = .ok g := by
  intro l
  induction l with
  | nil => intro _; rfl
  | cons b t ih =>
      intro h
      rw [List.foldlM_cons, h b (List.mem_cons_self b t), exOk_bind]
      exact ih (fun b2 hb2 => h b2 (List.mem_cons_of_mem b hb2))

theorem foldl_id_of {α β : Type} (f : α → β → α) (a : α) :
    ∀ (l : List β), (∀ b ∈ l, f a b = a) → l.foldl f a = a := by
  intro l
  induction l with
  | nil => intro _; rfl
  | cons b t ih =>
      intro h
      rw [List.foldl_cons, h b (List.mem_cons_self b t)]
      exact ih (fun b2 hb2 => h b2 (List.mem_cons_of_mem b hb2))

namespace RelationshipChart

theorem foldl_setF_notMem {β : Type} (kf : β → String)
    (f : CharacterNode → CharacterNode) :
    ∀ (l : List β) (g : RelationshipChart) (k : String), k ∉ l.map kf →
      (l.foldl (fun g b => g.setF (kf b) f) g).findNode k = g.findNode k := by
  intro l
  induction l with
  | nil => intro g k _; rfl
  | cons b t ih =>
      intro g k hk
      rw [List.map_cons] at hk
      rw [List.foldl_cons, ih (g.setF (kf b) f) k
        (fun hm => hk (List.mem_cons_of_mem _ hm)), findNode_setF,
        if_neg (fun he => hk (by rw [he]; exact List.mem_cons_self (kf b) _))]

theorem findNode_unique_of_mem {g : RelationshipChart} {e : String × CharacterNode}
    {n : CharacterNode} (hnd : g.keys.Nodup) (he : e ∈ g.nodes)
    (hfn : g.findNode e.1 = some n) : e.2 = n := by
  have h2 : g.findNode e.1 = some e.2 := findNode_of_mem_nodup hnd
    (by rcases e with ⟨k, v⟩; exact he)
  rw [h2] at hfn
  exact Option.some.inj hfn

theorem setF_eq_self {g : RelationshipChart} {i : String}
    {f : CharacterNode → CharacterNode} {n : CharacterNode}
    (hnd : g.keys.Nodup) (hfn : g.findNode i = some n) (hf : f n = n) :
    g.setF i f = g := by
  unfold setF
  have hmap : g.nodes.map (fun e => if e.1 = i then (e.1, f e.2) else e) =
      g.nodes := by
    conv_rhs => rw [← List.map_id g.nodes]
    apply List.map_congr_left
    intro e he
    by_cases hi : e.1 = i
    · rw [if_pos hi]
      have hen : e.2 = n := findNode_unique_of_mem hnd he (by rw [hi]; exact hfn)
      rw [hen, hf, ← hen]
      rfl
    · rw [if_neg hi]
      rfl
  rw [hmap]

theorem relGet_relAdd_ne {n : CharacterNode} {κ0 κ : RelKey} {x : String}
    (hne : κ ≠ κ0) : (n.relAdd κ0 x).relGet κ = n.relGet κ := by
  unfold CharacterNode.relAdd
  rcases hg : n.relGet κ0 with _ | ts
  · unfold CharacterNode.relGet
    dsimp only
    rw [List.find?_append]
    have hone : ([((κ0, sAdd [] x) : RelKey × List String)].find?
        (fun e => e.1 = κ)) = none := by
      rw [List.find?]
      have hd : (decide (((κ0, sAdd [] x) :
          RelKey × List String).1 = κ)) = false := by
        simp
        exact fun hc => hne hc.symm
      rw [hd]
      rfl
    rw [hone]
    rcases hf : n.relationships.find? (fun e => e.1 = κ) with _ | r <;>
      rw [hf] <;> rfl
  · unfold CharacterNode.relGet
    dsimp only
    have hmain := find_assoc_map_update κ0 (fun v => sAdd v x)
      n.relationships κ
    rw [if_neg hne] at hmain
    exact hmain

theorem relGet_relAdd_self (n : CharacterNode) (κ0 : RelKey) (x : String) :
    (n.relAdd κ0 x).relGet κ0 =
      some (sAdd ((n.relGet κ0).getD []) x) := by
  unfold CharacterNode.relAdd
  rcases hg : n.relGet κ0 with _ | ts
  · unfold CharacterNode.relGet at hg ⊢
    dsimp only
    rw [List.find?_append]
    have hnone : n.relationships.find? (fun e => e.1 = κ0) = none := by
      rcases hf : n.relationships.find? (fun e => e.1 = κ0) with _ | r
      · exact hf
      · rw [hf] at hg
        simp at hg
    rw [hnone]
    have hone : ([((κ0, sAdd [] x) : RelKey × List String)].find?
        (fun e => e.1 = κ0)) = some (κ0, sAdd [] x) := by
      rw [List.find?]
      have hd : (decide (((κ0, sAdd [] x) :
          RelKey × List String).1 = κ0)) = true := by simp
      rw [hd]
    rw [hone]
    rfl
  · unfold CharacterNode.relGet at hg ⊢
    dsimp only
    have hmain := find_assoc_map_update κ0 (fun v => sAdd v x)
      n.relationships κ0
    rw [if_pos rfl] at hmain
    rw [hmain, hg]
    rfl

theorem relAdd_fieldPres (key : RelKey) (x : String) :
    ∀ n : CharacterNode, (n.relAdd key x).id = n.id ∧
      (n.relAdd key x).is_phantom = n.is_phantom ∧
      (n.relAdd key x).child_ids = n.child_ids ∧
      (n.relAdd key x).parent_ids = n.parent_ids := by
  intro n
  unfold CharacterNode.relAdd
  rcases h : n.relGet key with _ | ts <;> exact ⟨rfl, rfl, rfl, rfl⟩

theorem relAdd_keysNodup {n : CharacterNode} {κ0 : RelKey} {x : String}
    (h : (n.relationships.map Prod.fst).Nodup) :
    ((n.relAdd κ0 x).relationships.map Prod.fst).Nodup := by
  unfold CharacterNode.relAdd
  rcases hg : n.relGet κ0 with _ | ts
  · dsimp only
    rw [List.map_append]
    have hnm : κ0 ∉ n.relationships.map Prod.fst := by
      have hfn : n.relationships.find? (fun e => e.1 = κ0) = none := by
        unfold CharacterNode.relGet at hg
        rcases hf : n.relationships.find? (fun e => e.1 = κ0) with _ | r
        · exact hf
        · rw [hf] at hg
          simp at hg
      rw [List.find?_eq_none] at hfn
      rintro hmem
      rcases List.mem_map.mp hmem with ⟨e, he, hee⟩
      exact hfn e he (by simp [hee])
    refine List.Nodup.append h (by simp) ?_
    intro a ha hb
    have : a = κ0 := List.mem_singleton.mp hb
    rw [this] at ha
    exact hnm ha
  · dsimp only
    have heq : (n.relationships.map
        (fun e => if e.1 = κ0 then (e.1, sAdd e.2 x) else e)).map Prod.fst =
        n.relationships.map Prod.fst := by
      rw [List.map_map]
      apply List.map_congr_left
      intro e _
      by_cases hk : e.1 = κ0 <;> simp [hk]
    rw [heq]
    exact h

theorem relAdd_eq_self {n : CharacterNode} {κ0 : RelKey} {x : String}
    {ts : List String} (hnd : (n.relationships.map Prod.fst).Nodup)
    (hg : n.relGet κ0 = some ts) (hx : x ∈ ts) : n.relAdd κ0 x = n := by
  unfold CharacterNode.relAdd
  rw [hg]
  have hmap : n.relationships.map
      (fun e => if e.1 = κ0 then (e.1, sAdd e.2 x) else e) =
      n.relationships := by
    conv_rhs => rw [← List.map_id n.relationships]
    apply List.map_congr_left
    intro e he
    by_cases hk : e.1 = κ0
    · rw [if_pos hk]
      have hets : e.2 = ts := by
        have h3 := relGet_of_mem_nodup hnd (show (κ0, e.2) ∈ n.relationships by
          rw [← hk]
          exact he)
        rw [hg] at h3
        exact (Option.some.inj h3).symm
      rw [hets, sAdd_of_mem hx, ← hets]
      rfl
    · rw [if_neg hk]
      rfl
  rw [hmap]

end RelationshipChart

namespace RelationshipChart

/-- Relation form of invariant 1: every referenced id names a node. -/
def closed (g : RelationshipChart) : Prop :=
  ∀ e ∈ g.nodes, (∀ c ∈ e.2.child_ids, c ∈ g.keys) ∧
    (∀ p ∈ e.2.parent_ids, p ∈ g.keys) ∧
    (∀ r ∈ e.2.relationships, ∀ t ∈ r.2, t ∈ g.keys)

/-- No phantom node at all. -/
def phantomFree (g : RelationshipChart) : Prop :=
  ∀ e ∈ g.nodes, e.2.is_phantom = false

/-- Relation form of invariant 6. -/
def noSelf (g : RelationshipChart) : Prop :=
  ∀ e ∈ g.nodes, e.1 ∉ e.2.parent_ids ∧ e.1 ∉ e.2.child_ids ∧
    ∀ r ∈ e.2.relationships, e.1 ∉ r.2

/-- Mutuality of all edges owned by one stored node. -/
def mutOk (g : RelationshipChart) (x : String) (n : CharacterNode) : Prop :=
  (∀ c ∈ n.child_ids, g.hasParent c x = true) ∧
  (∀ p ∈ n.parent_ids, g.hasChild p x = true) ∧
  (∀ r ∈ n.relationships, ∀ t ∈ r.2, g.hasRelTarget t r.1 x = true)

theorem inv1_iff_closed {g : RelationshipChart} : inv1 g = true ↔ closed g := by
  unfold inv1 closed
  rw [List.all_eq_true]
  constructor
  · intro h e he
    have h2 := h e he
    rw [Bool.and_eq_true, Bool.and_eq_true] at h2
    obtain ⟨⟨hp, hc⟩, hr⟩ := h2
    rw [List.all_eq_true] at hp hc hr
    refine ⟨?_, ?_, ?_⟩
    · intro c hcm
      simpa using hc c hcm
    · intro p hpm
      simpa using hp p hpm
    · intro r hrm t htm
      have h3 := hr r hrm
      rw [List.all_eq_true] at h3
      simpa using h3 t htm
  · intro h e he
    obtain ⟨hc, hp, hr⟩ := h e he
    rw [Bool.and_eq_true, Bool.and_eq_true]
    refine ⟨⟨?_, ?_⟩, ?_⟩
    · rw [List.all_eq_true]
      intro p hpm
      simpa using hp p hpm
    · rw [List.all_eq_true]
      intro c hcm
      simpa using hc c hcm
    · rw [List.all_eq_true]
      intro r hrm
      rw [List.all_eq_true]
      intro t htm
      simpa using hr r hrm t htm

theorem inv6_iff_noSelf {g : RelationshipChart} : inv6 g = true ↔ noSelf g := by
  unfold inv6 noSelf
  rw [List.all_eq_true]
  constructor
  · intro h e he
    have h2 := h e he
    rw [Bool.and_eq_true, Bool.and_eq_true] at h2
    obtain ⟨⟨hp, hc⟩, hr⟩ := h2
    rw [List.all_eq_true] at hr
    refine ⟨by simpa using hp, by simpa using hc, ?_⟩
    intro r hrm
    simpa using hr r hrm
  · intro h e he
    obtain ⟨hp, hc, hr⟩ := h e he
    rw [Bool.and_eq_true, Bool.and_eq_true]
    refine ⟨⟨by simpa using hp, by simpa using hc⟩, ?_⟩
    rw [List.all_eq_true]
    intro r hrm
    simpa using hr r hrm

theorem inv2_of {g : RelationshipChart}
    (h : ∀ e ∈ g.nodes, mutOk g e.1 e.2) : inv2 g = true := by
  unfold inv2
  rw [List.all_eq_true]
  intro e he
  obtain ⟨hc, hp, hr⟩ := h e he
  rw [Bool.and_eq_true, Bool.and_eq_true]
  refine ⟨⟨?_, ?_⟩, ?_⟩
  · rw [List.all_eq_true]
    intro c hcm
    exact hc c hcm
  · rw [List.all_eq_true]
    intro p hpm
    exact hp p hpm
  · rw [List.all_eq_true]
    intro r hrm
    rw [List.all_eq_true]
    intro t htm
    exact hr r hrm t htm

/-- The per-node transformation of `remove_dead_edges`. -/
def deadF (g : RelationshipChart) (n : CharacterNode) : CharacterNode :=
  { n with
    parent_ids := sInter n.parent_ids g.keys
    child_ids := sInter n.child_ids g.keys
    relationships := n.relationships.map (fun r => (r.1, sInter r.2 g.keys)) }

theorem remove_dead_edges_eq (g : RelationshipChart) :
    g.remove_dead_edges = { nodes := g.nodes.map (fun e => (e.1, deadF g e.2)) } :=
  rfl

theorem findNode_mapValues (F : CharacterNode → CharacterNode) :
    ∀ (nodes : List (String × CharacterNode)) (k : String),
      RelationshipChart.findNode
          { nodes := nodes.map (fun e => (e.1, F e.2)) } k =
        (RelationshipChart.findNode { nodes := nodes } k).map F := by
  intro nodes
  induction nodes with
  | nil => intro k; rfl
  | cons e t ih =>
      intro k
      unfold findNode
      dsimp only
      rw [List.map_cons, List.find?, List.find?]
      by_cases he : e.1 = k
      · have hd : (decide (e.1 = k)) = true := by simp [he]
        rw [hd]
        rfl
      · have hd : (decide (e.1 = k)) = false := by simp [he]
        rw [hd]
        have hih := ih k
        unfold findNode at hih
        exact hih

theorem keys_remove_dead_edges (g : RelationshipChart) :
    g.remove_dead_edges.keys = g.keys := by
  rw [remove_dead_edges_eq]
  unfold keys
  dsimp only
  rw [List.map_map]
  apply List.map_congr_left
  intro e _
  rfl

theorem findNode_remove_dead_edges (g : RelationshipChart) (k : String) :
    g.remove_dead_edges.findNode k = (g.findNode k).map (deadF g) := by
  rw [remove_dead_edges_eq, findNode_mapValues]

theorem closed_remove_dead_edges (g : RelationshipChart) :
    closed g.remove_dead_edges := by
  rw [remove_dead_edges_eq]
  intro e' he'
  dsimp only at he'
  rcases List.mem_map.mp he' with ⟨e, _, hee⟩
  have hkeq : RelationshipChart.keys
      { nodes := g.nodes.map (fun e => (e.1, deadF g e.2)) } = g.keys := by
    have := keys_remove_dead_edges g
    rw [remove_dead_edges_eq] at this
    exact this
  rw [← hee]
  refine ⟨?_, ?_, ?_⟩
  · intro c hcm
    rw [hkeq]
    exact (mem_sInter.mp hcm).2
  · intro p hpm
    rw [hkeq]
    exact (mem_sInter.mp hpm).2
  · intro r hrm t htm
    rw [hkeq]
    rcases List.mem_map.mp hrm with ⟨r0, _, hrr⟩
    rw [← hrr] at htm
    exact (mem_sInter.mp htm).2

theorem wfChart_remove_dead_edges {g : RelationshipChart}
    (hwf : wfChart g) : wfChart g.remove_dead_edges := by
  rcases hwf with ⟨hids, hnd, hrk⟩
  rw [remove_dead_edges_eq]
  refine ⟨?_, ?_, ?_⟩
  · unfold wfIds at hids ⊢
    rw [List.all_eq_true] at hids ⊢
    intro e' he'
    dsimp only at he'
    rcases List.mem_map.mp he' with ⟨e, he, hee⟩
    rw [← hee]
    exact hids e he
  · have hkeq : RelationshipChart.keys
        { nodes := g.nodes.map (fun e => (e.1, deadF g e.2)) } = g.keys := by
      have := keys_remove_dead_edges g
      rw [remove_dead_edges_eq] at this
      exact this
    rw [hkeq]
    exact hnd
  · intro e' he'
    dsimp only at he'
    rcases List.mem_map.mp he' with ⟨e, he, hee⟩
    rw [← hee]
    show (((deadF g e.2).relationships).map Prod.fst).Nodup
    unfold deadF
    dsimp only
    have heq : ((e.2.relationships.map (fun r => (r.1, sInter r.2 g.keys))).map
        Prod.fst) = e.2.relationships.map Prod.fst := by
      rw [List.map_map]
      apply List.map_congr_left
      intro r _
      rfl
    rw [heq]
    exact hrk e he

theorem remove_dead_edges_self {g : RelationshipChart} (h : closed g) :
    g.remove_dead_edges = g := by
  rw [remove_dead_edges_eq]
  have hmap : g.nodes.map (fun e => (e.1, deadF g e.2)) = g.nodes := by
    conv_rhs => rw [← List.map_id g.nodes]
    apply List.map_congr_left
    intro e he
    obtain ⟨hc, hp, hr⟩ := h e he
    show (e.1, deadF g e.2) = e
    unfold deadF
    have h1 : sInter e.2.parent_ids g.keys = e.2.parent_ids :=
      sInter_eq_self hp
    have h2 : sInter e.2.child_ids g.keys = e.2.child_ids :=
      sInter_eq_self hc
    have h3 : e.2.relationships.map (fun r => (r.1, sInter r.2 g.keys)) =
        e.2.relationships := by
      conv_rhs => rw [← List.map_id e.2.relationships]
      apply List.map_congr_left
      intro r hrm
      show (r.1, sInter r.2 g.keys) = r
      rw [sInter_eq_self (hr r hrm)]
    rw [h1, h2, h3]
  rw [hmap]

theorem phantomFree_remove_dead_edges {g : RelationshipChart}
    (h : phantomFree g) : phantomFree g.remove_dead_edges := by
  rw [remove_dead_edges_eq]
  intro e' he'
  dsimp only at he'
  rcases List.mem_map.mp he' with ⟨e, he, hee⟩
  rw [← hee]
  exact h e he

theorem noSelf_remove_dead_edges {g : RelationshipChart}
    (h : noSelf g) : noSelf g.remove_dead_edges := by
  rw [remove_dead_edges_eq]
  intro e' he'
  dsimp only at he'
  rcases List.mem_map.mp he' with ⟨e, he, hee⟩
  obtain ⟨hp, hc, hr⟩ := h e he
  rw [← hee]
  refine ⟨?_, ?_, ?_⟩
  · intro hm
    exact hp (mem_sInter.mp hm).1
  · intro hm
    exact hc (mem_sInter.mp hm).1
  · intro r' hr' hm
    rcases List.mem_map.mp hr' with ⟨r0, hr0, hrr⟩
    rw [← hrr] at hm
    exact hr r0 hr0 (mem_sInter.mp hm).1

end RelationshipChart

theorem foldlM_inv {σ β : Type}
    (step : σ → β → Except Err σ) (motive : σ → Prop) :
    ∀ (l : List β), (∀ s b, b ∈ l → motive s → ∀ s', step s b = .ok s' →
      motive s') →
    ∀ (s s' : σ), motive s → l.foldlM step s = .ok s' → motive s' := by
  intro l
  induction l with
  | nil =>
      intro _ s s' hm h
      exact (exPure_ok h) ▸ hm
  | cons b t ih =>
      intro hstep s s' hm h
      rw [List.foldlM_cons] at h
      rcases exBind_ok h with ⟨s1, h1, h2⟩
      exact ih (fun s0 b0 hb0 => hstep s0 b0 (List.mem_cons_of_mem b hb0)) s1 s'
        (hstep s b (List.mem_cons_self b t) hm s1 h1) h2

theorem foldlM_fix {σ β : Type}
    (step : σ → β → Except Err σ) (s : σ) :
    ∀ (l : List β), (∀ b ∈ l, step s b = .ok s) →
      l.foldlM step s = .ok s := by
  intro l
  induction l with
  | nil => intro _; rfl
  | cons b t ih =>
      intro h
      rw [List.foldlM_cons, h b (List.mem_cons_self b t), exOk_bind]
      exact ih (fun b2 hb2 => h b2 (List.mem_cons_of_mem b hb2))

namespace RelationshipChart

theorem findNode_some_of_mem_keys {g : RelationshipChart} {k : String}
    (h : k ∈ g.keys) : ∃ n, g.findNode k = some n := by
  have := findNode_isSome_iff.mpr h
  rcases hf : g.findNode k with _ | n
  · rw [hf] at this
    exact absurd this (by simp)
  · exact ⟨n, rfl⟩

/-- One stored node only gains edges: id and phantom flag kept, parent, child
and relationship-target sets only grow. -/
def nodeLe (n1 n2 : CharacterNode) : Prop :=
  n2.id = n1.id ∧ n2.is_phantom = n1.is_phantom ∧
  (∀ c ∈ n1.child_ids, c ∈ n2.child_ids) ∧
  (∀ p ∈ n1.parent_ids, p ∈ n2.parent_ids) ∧
  (∀ κ ts t, n1.relGet κ = some ts → t ∈ ts →
    ∃ ts2, n2.relGet κ = some ts2 ∧ t ∈ ts2)

/-- The chart only gains edges: same key universe, every stored node only
gains edges. -/
def graphLe (g1 g2 : RelationshipChart) : Prop :=
  g1.keys = g2.keys ∧
  ∀ k n1, g1.findNode k = some n1 →
    ∃ n2, g2.findNode k = some n2 ∧ nodeLe n1 n2

theorem nodeLe_refl (n : CharacterNode) : nodeLe n n :=
  ⟨rfl, rfl, fun _ h => h, fun _ h => h, fun _ ts t h ht => ⟨ts, h, ht⟩⟩

theorem nodeLe_trans {n1 n2 n3 : CharacterNode}
    (h12 : nodeLe n1 n2) (h23 : nodeLe n2 n3) : nodeLe n1 n3 := by
  obtain ⟨hi, hp, hc, hpa, hr⟩ := h12
  obtain ⟨hi', hp', hc', hpa', hr'⟩ := h23
  refine ⟨hi'.trans hi, hp'.trans hp, fun c hc0 => hc' c (hc c hc0),
    fun p hp0 => hpa' p (hpa p hp0), ?_⟩
  intro κ ts t hts ht
  rcases hr κ ts t hts ht with ⟨ts2, hts2, ht2⟩
  exact hr' κ ts2 t hts2 ht2

theorem graphLe_refl (g : RelationshipChart) : graphLe g g :=
  ⟨rfl, fun _ n1 h => ⟨n1, h, nodeLe_refl n1⟩⟩

theorem graphLe_trans {g1 g2 g3 : RelationshipChart}
    (h12 : graphLe g1 g2) (h23 : graphLe g2 g3) : graphLe g1 g3 := by
  refine ⟨h12.1.trans h23.1, ?_⟩
  intro k n1 h1
  rcases h12.2 k n1 h1 with ⟨n2, h2, hle12⟩
  rcases h23.2 k n2 h2 with ⟨n3, h3, hle23⟩
  exact ⟨n3, h3, nodeLe_trans hle12 hle23⟩

theorem hasParent_mono {g1 g2 : RelationshipChart} {c x : String}
    (hle : graphLe g1 g2) (h : g1.hasParent c x = true) :
    g2.hasParent c x = true := by
  unfold hasParent at h ⊢
  rcases hf : g1.findNode c with _ | n
  · rw [hf] at h
    exact absurd h (by simp)
  · rw [hf] at h
    rcases hle.2 c n hf with ⟨n2, hf2, hle2⟩
    rw [hf2]
    simp only [decide_eq_true_eq] at h ⊢
    exact hle2.2.2.2.1 x h

theorem hasChild_mono {g1 g2 : RelationshipChart} {p x : String}
    (hle : graphLe g1 g2) (h : g1.hasChild p x = true) :
    g2.hasChild p x = true := by
  unfold hasChild at h ⊢
  rcases hf : g1.findNode p with _ | n
  · rw [hf] at h
    exact absurd h (by simp)
  · rw [hf] at h
    rcases hle.2 p n hf with ⟨n2, hf2, hle2⟩
    rw [hf2]
    simp only [decide_eq_true_eq] at h ⊢
    exact hle2.2.2.1 x h

theorem hasRelTarget_mono {g1 g2 : RelationshipChart} {a x : String} {κ : RelKey}
    (hle : graphLe g1 g2) (h : g1.hasRelTarget a κ x = true) :
    g2.hasRelTarget a κ x = true := by
  rcases hasRelTarget_true_iff.mp h with ⟨n, hn, ts, hts, htm⟩
  rcases hle.2 a n hn with ⟨n2, hn2, hle2⟩
  rcases hle2.2.2.2.2 κ ts x hts htm with ⟨ts2, hts2, htm2⟩
  exact hasRelTarget_true_iff.mpr ⟨n2, hn2, ts2, hts2, htm2⟩

theorem nodeLe_parAdd (n : CharacterNode) (y : String) :
    nodeLe n { n with parent_ids := sAdd n.parent_ids y } :=
  ⟨rfl, rfl, fun _ h => h, fun _ h => mem_sAdd_of_mem h,
    fun _ ts t h ht => ⟨ts, h, ht⟩⟩

theorem nodeLe_chAdd (n : CharacterNode) (y : String) :
    nodeLe n { n with child_ids := sAdd n.child_ids y } :=
  ⟨rfl, rfl, fun _ h => mem_sAdd_of_mem h, fun _ h => h,
    fun _ ts t h ht => ⟨ts, h, ht⟩⟩

theorem nodeLe_relAdd (n : CharacterNode) (κ0 : RelKey) (y : String) :
    nodeLe n (n.relAdd κ0 y) := by
  obtain ⟨hid, hph, hch, hpa⟩ := relAdd_fieldPres κ0 y n
  refine ⟨hid, hph, fun c hc => by rw [hch]; exact hc,
    fun p hp => by rw [hpa]; exact hp, ?_⟩
  intro κ ts t hts ht
  by_cases hκ : κ = κ0
  · subst hκ
    rw [relGet_relAdd_self]
    exact ⟨_, rfl, by rw [hts]; exact mem_sAdd_of_mem ht⟩
  · rw [relGet_relAdd_ne hκ]
    exact ⟨ts, hts, ht⟩

theorem graphLe_setF {g : RelationshipChart} {i : String}
    {f : CharacterNode → CharacterNode} (hf : ∀ n, nodeLe n (f n)) :
    graphLe g (g.setF i f) := by
  refine ⟨keys_setF.symm, ?_⟩
  intro k n1 h1
  rw [findNode_setF]
  by_cases hk : k = i
  · rw [if_pos hk, h1]
    exact ⟨f n1, rfl, hf n1⟩
  · rw [if_neg hk]
    exact ⟨n1, h1, nodeLe_refl n1⟩

theorem graphLe_foldl_setF {f : CharacterNode → CharacterNode}
    (hf : ∀ n, nodeLe n (f n)) :
    ∀ (l : List String) (g : RelationshipChart),
      graphLe g (l.foldl (fun g c => g.setF c f) g) := by
  intro l
  induction l with
  | nil => intro g; exact graphLe_refl g
  | cons c t ih =>
      intro g
      rw [List.foldl_cons]
      exact graphLe_trans (graphLe_setF hf) (ih (g.setF c f))

end RelationshipChart

namespace RelationshipChart

theorem foldl_setF_cases {f : CharacterNode → CharacterNode}
    (hidem : ∀ n, f (f n) = f n) (l : List String) (g : RelationshipChart)
    (k : String) :
    (l.foldl (fun g c => g.setF c f) g).findNode k =
      if k ∈ l then (g.findNode k).map f else g.findNode k := by
  by_cases hk : k ∈ l
  · rw [if_pos hk]
    exact foldl_setF_char_mem (fun s => s) f hidem l g k (by simpa using hk)
  · rw [if_neg hk]
    exact foldl_setF_notMem (fun s => s) f l g k (by simpa using hk)

theorem wfChart_setF {g : RelationshipChart} {i : String}
    {f : CharacterNode → CharacterNode} (hid : ∀ n, (f n).id = n.id)
    (hrk : ∀ n : CharacterNode, (n.relationships.map Prod.fst).Nodup →
      ((f n).relationships.map Prod.fst).Nodup)
    (h : wfChart g) : wfChart (g.setF i f) :=
  ⟨wfIds_setF hid h.1, by rw [keys_setF]; exact h.2.1,
    relKeysNodup_setF hrk h.2.2⟩

theorem wfChart_foldl_setF {f : CharacterNode → CharacterNode}
    (hid : ∀ n, (f n).id = n.id)
    (hrk : ∀ n : CharacterNode, (n.relationships.map Prod.fst).Nodup →
      ((f n).relationships.map Prod.fst).Nodup) :
    ∀ (l : List String) (g : RelationshipChart), wfChart g →
      wfChart (l.foldl (fun g c => g.setF c f) g) := by
  intro l
  induction l with
  | nil => intro g h; exact h
  | cons c t ih =>
      intro g h
      rw [List.foldl_cons]
      exact ih (g.setF c f) (wfChart_setF hid hrk h)

theorem keys_foldl_setF {f : CharacterNode → CharacterNode} :
    ∀ (l : List String) (g : RelationshipChart),
      (l.foldl (fun g c => g.setF c f) g).keys = g.keys := by
  intro l
  induction l with
  | nil => intro g; rfl
  | cons c t ih =>
      intro g
      rw [List.foldl_cons, ih (g.setF c f), keys_setF]

theorem closed_findNode {g : RelationshipChart} (h : closed g) {k : String}
    {n : CharacterNode} (hf : g.findNode k = some n) :
    (∀ c ∈ n.child_ids, c ∈ g.keys) ∧ (∀ p ∈ n.parent_ids, p ∈ g.keys) ∧
    (∀ r ∈ n.relationships, ∀ t ∈ r.2, t ∈ g.keys) :=
  h (k, n) (mem_values_of_findNode hf)

theorem closed_of_findNode {g : RelationshipChart} (hnd : g.keys.Nodup)
    (h : ∀ k n, g.findNode k = some n →
      (∀ c ∈ n.child_ids, c ∈ g.keys) ∧ (∀ p ∈ n.parent_ids, p ∈ g.keys) ∧
      (∀ r ∈ n.relationships, ∀ t ∈ r.2, t ∈ g.keys)) : closed g := by
  intro e he
  exact h e.1 e.2 (findNode_of_mem_nodup hnd
    (by rcases e with ⟨k, v⟩; exact he))

theorem noSelf_findNode {g : RelationshipChart} (h : noSelf g) {k : String}
    {n : CharacterNode} (hf : g.findNode k = some n) :
    k ∉ n.parent_ids ∧ k ∉ n.child_ids ∧ ∀ r ∈ n.relationships, k ∉ r.2 :=
  h (k, n) (mem_values_of_findNode hf)

theorem noSelf_of_findNode {g : RelationshipChart} (hnd : g.keys.Nodup)
    (h : ∀ k n, g.findNode k = some n →
      k ∉ n.parent_ids ∧ k ∉ n.child_ids ∧ ∀ r ∈ n.relationships, k ∉ r.2) :
    noSelf g := by
  intro e he
  exact h e.1 e.2 (findNode_of_mem_nodup hnd
    (by rcases e with ⟨k, v⟩; exact he))

theorem phantomFree_findNode {g : RelationshipChart} (h : phantomFree g)
    {k : String} {n : CharacterNode} (hf : g.findNode k = some n) :
    n.is_phantom = false :=
  h (k, n) (mem_values_of_findNode hf)

theorem phantomFree_of_findNode {g : RelationshipChart} (hnd : g.keys.Nodup)
    (h : ∀ k n, g.findNode k = some n → n.is_phantom = false) :
    phantomFree g := by
  intro e he
  exact h e.1 e.2 (findNode_of_mem_nodup hnd
    (by rcases e with ⟨k, v⟩; exact he))

theorem mutOk_findNode {g : RelationshipChart}
    (h : ∀ e ∈ g.nodes, mutOk g e.1 e.2) {k : String} {n : CharacterNode}
    (hf : g.findNode k = some n) : mutOk g k n :=
  h (k, n) (mem_values_of_findNode hf)

theorem mutOk_of_findNode {g : RelationshipChart} (hnd : g.keys.Nodup)
    (h : ∀ k n, g.findNode k = some n → mutOk g k n) :
    ∀ e ∈ g.nodes, mutOk g e.1 e.2 := by
  intro e he
  exact h e.1 e.2 (findNode_of_mem_nodup hnd
    (by rcases e with ⟨k, v⟩; exact he))

end RelationshipChart

namespace RelationshipChart

theorem relFoldInner_props (κ : RelKey) (y : String) :
    ∀ (ts : List String) (g g' : RelationshipChart),
      ts.foldlM (fun g t => do
        let _tn ← g.get_node t
        return g.setF t (fun n => n.relAdd κ y)) g = .ok g' →
      graphLe g g' ∧
      (wfChart g → wfChart g') ∧
      (∀ k n n', g.findNode k = some n → g'.findNode k = some n' →
        n'.id = n.id ∧ n'.is_phantom = n.is_phantom ∧
        n'.child_ids = n.child_ids ∧ n'.parent_ids = n.parent_ids ∧
        ∀ κ2 ts2 t, n'.relGet κ2 = some ts2 → t ∈ ts2 →
          (∃ ts0, n.relGet κ2 = some ts0 ∧ t ∈ ts0) ∨
          (t = y ∧ κ2 = κ ∧ k ∈ ts)) ∧
      (∀ t ∈ ts, g'.hasRelTarget t κ y = true) := by
  intro ts
  induction ts with
  | nil =>
      intro g g' h
      have hgg : g = g' := exPure_ok h
      subst hgg
      refine ⟨graphLe_refl g, fun h => h, ?_, ?_⟩
      · intro k n n' hn hn'
        rw [hn] at hn'
        have : n = n' := Option.some.inj hn'
        subst this
        exact ⟨rfl, rfl, rfl, rfl, fun κ2 ts2 t h2 ht => Or.inl ⟨ts2, h2, ht⟩⟩
      · intro t ht
        exact absurd ht (List.not_mem_nil t)
  | cons t0 rest ih =>
      intro g g' h
      rw [List.foldlM_cons] at h
      rcases exBind_ok h with ⟨g1, h1, h2⟩
      rcases exBind_ok h1 with ⟨n0, hn0, hp⟩
      have hn0' : g.findNode t0 = some n0 := get_node_ok_iff.mp hn0
      have hg1 : g.setF t0 (fun n => n.relAdd κ y) = g1 := exPure_ok hp
      obtain ⟨ihle, ihwf, ihprov, ihex⟩ := ih g1 g' h2
      have hstep_le : graphLe g g1 := by
        rw [← hg1]
        exact graphLe_setF (fun n => nodeLe_relAdd n κ y)
      refine ⟨graphLe_trans hstep_le ihle, ?_, ?_, ?_⟩
      · intro hwf
        apply ihwf
        rw [← hg1]
        exact wfChart_setF (fun n => (relAdd_fieldPres κ y n).1)
          (fun n hn => relAdd_keysNodup hn) hwf
      · intro k n n' hn hn'
        have hfn1 : g1.findNode k =
            if k = t0 then (g.findNode k).map (fun n => n.relAdd κ y)
            else g.findNode k := by
          rw [← hg1]
          exact findNode_setF
        by_cases hk : k = t0
        · rw [if_pos hk, hn] at hfn1
          obtain ⟨hid, hph, hch, hpa, hrel⟩ :=
            ihprov k (n.relAdd κ y) n' hfn1 hn'
          obtain ⟨hid0, hph0, hch0, hpa0⟩ := relAdd_fieldPres κ y n
          refine ⟨hid.trans hid0, hph.trans hph0, hch.trans hch0,
            hpa.trans hpa0, ?_⟩
          intro κ2 ts2 t h2 ht
          rcases hrel κ2 ts2 t h2 ht with ⟨ts0', hts0', ht0'⟩ | ⟨hty, hκ, hkr⟩
          · by_cases hκ2 : κ2 = κ
            · subst hκ2
              rw [relGet_relAdd_self] at hts0'
              have hts0'' := Option.some.inj hts0'
              rw [← hts0''] at ht0'
              rcases mem_sAdd.mp ht0' with hold | hty
              · rcases hgd : n.relGet κ2 with _ | ts0
                · rw [hgd] at hold
                  exact absurd hold (List.not_mem_nil t)
                · rw [hgd] at hold
                  exact Or.inl ⟨ts0, rfl, by simpa using hold⟩
              · exact Or.inr ⟨hty, rfl, by rw [hk]; exact List.mem_cons_self t0 rest⟩
            · rw [relGet_relAdd_ne hκ2] at hts0'
              exact Or.inl ⟨ts0', hts0', ht0'⟩
          · exact Or.inr ⟨hty, hκ, List.mem_cons_of_mem t0 hkr⟩
        · rw [if_neg hk] at hfn1
          rw [hn] at hfn1
          obtain ⟨hid, hph, hch, hpa, hrel⟩ := ihprov k n n' hfn1 hn'
          refine ⟨hid, hph, hch, hpa, ?_⟩
          intro κ2 ts2 t h2 ht
          rcases hrel κ2 ts2 t h2 ht with hl | ⟨hty, hκ, hkr⟩
          · exact Or.inl hl
          · exact Or.inr ⟨hty, hκ, List.mem_cons_of_mem t0 hkr⟩
      · intro t ht
        rcases List.mem_cons.mp ht with rfl | ht
        · apply hasRelTarget_mono ihle
          apply hasRelTarget_true_iff.mpr
          have hfn1 : g1.findNode t = some (n0.relAdd κ y) := by
            rw [← hg1, findNode_setF, if_pos rfl, hn0']
            rfl
          refine ⟨n0.relAdd κ y, hfn1, sAdd ((n0.relGet κ).getD []) y,
            relGet_relAdd_self n0 κ y, mem_sAdd_self⟩
        · exact ihex t ht

theorem relFoldOuter_props (y : String) :
    ∀ (rels : List (RelKey × List String)) (g g' : RelationshipChart),
      rels.foldlM (fun g r => r.2.foldlM (fun g t => do
          let _tn ← g.get_node t
          return g.setF t (fun n => n.relAdd r.1 y)) g) g = .ok g' →
      graphLe g g' ∧
      (wfChart g → wfChart g') ∧
      (∀ k n n', g.findNode k = some n → g'.findNode k = some n' →
        n'.id = n.id ∧ n'.is_phantom = n.is_phantom ∧
        n'.child_ids = n.child_ids ∧ n'.parent_ids = n.parent_ids ∧
        ∀ κ2 ts2 t, n'.relGet κ2 = some ts2 → t ∈ ts2 →
          (∃ ts0, n.relGet κ2 = some ts0 ∧ t ∈ ts0) ∨
          (t = y ∧ ∃ r ∈ rels, r.1 = κ2 ∧ k ∈ r.2)) ∧
      (∀ r ∈ rels, ∀ t ∈ r.2, g'.hasRelTarget t r.1 y = true) := by
  intro rels
  induction rels with
  | nil =>
      intro g g' h
      have hgg : g = g' := exPure_ok h
      subst hgg
      refine ⟨graphLe_refl g, fun h => h, ?_, ?_⟩
      · intro k n n' hn hn'
        rw [hn] at hn'
        have : n = n' := Option.some.inj hn'
        subst this
        exact ⟨rfl, rfl, rfl, rfl, fun κ2 ts2 t h2 ht => Or.inl ⟨ts2, h2, ht⟩⟩
      · intro r hr
        exact absurd hr (List.not_mem_nil r)
  | cons r0 rest ih =>
      intro g g' h
      rw [List.foldlM_cons] at h
      rcases exBind_ok h with ⟨g1, h1, h2⟩
      obtain ⟨inle, inwf, inprov, inex⟩ := relFoldInner_props r0.1 y r0.2 g g1 h1
      obtain ⟨ihle, ihwf, ihprov, ihex⟩ := ih g1 g' h2
      refine ⟨graphLe_trans inle ihle, fun hwf => ihwf (inwf hwf), ?_, ?_⟩
      · intro k n n' hn hn'
        rcases inle.2 k n hn with ⟨n1, hn1, _⟩
        obtain ⟨hid1, hph1, hch1, hpa1, hrel1⟩ := inprov k n n1 hn hn1
        obtain ⟨hid2, hph2, hch2, hpa2, hrel2⟩ := ihprov k n1 n' hn1 hn'
        refine ⟨hid2.trans hid1, hph2.trans hph1, hch2.trans hch1,
          hpa2.trans hpa1, ?_⟩
        intro κ2 ts2 t h2' ht
        rcases hrel2 κ2 ts2 t h2' ht with ⟨tsm, htsm, htm⟩ | ⟨hty, r, hrm, hr1, hr2⟩
        · rcases hrel1 κ2 tsm t htsm htm with hl | ⟨hty, hκ, hkr⟩
          · exact Or.inl hl
          · exact Or.inr ⟨hty, r0, List.mem_cons_self r0 rest, hκ.symm, hkr⟩
        · exact Or.inr ⟨hty, r, List.mem_cons_of_mem r0 hrm, hr1, hr2⟩
      · intro r hr t ht
        rcases List.mem_cons.mp hr with rfl | hr
        · exact hasRelTarget_mono ihle (inex t ht)
        · exact ihex r hr t ht

end RelationshipChart

namespace RelationshipChart

/-- Phase 1 of `ensureMutualStep`: add the node's id to every child's parent
set. -/
def emsPhase1 (g : RelationshipChart) (node : CharacterNode) :
    RelationshipChart :=
  node.child_ids.foldl (fun g cid =>
    g.setF cid (fun n => { n with parent_ids := sAdd n.parent_ids node.id })) g

/-- Phase 2 of `ensureMutualStep`: add the node's id to every parent's child
set (the parent list is re-read from the live store). -/
def emsPhase2 (g : RelationshipChart) (node node2 : CharacterNode) :
    RelationshipChart :=
  node2.parent_ids.foldl (fun g pid2 =>
    g.setF pid2 (fun n => { n with child_ids := sAdd n.child_ids node.id })) g

/-- Phase 3 of `ensureMutualStep`: add the reciprocal relationship entry on
every relationship target (the relationship dict is re-read). -/
def emsPhase3 (g : RelationshipChart) (node node3 : CharacterNode) :
    Except Err RelationshipChart :=
  node3.relationships.foldlM (fun g r =>
    r.2.foldlM (fun g t => do
      let _tn ← g.get_node t
      return g.setF t (fun n => n.relAdd r.1 node.id)) g) g

theorem ensureMutualStep_decomp {g g' : RelationshipChart} {x : String}
    (h : g.ensureMutualStep x = .ok g') :
    ∃ node cs node2 ps node3,
      g.dictGet x = .ok node ∧
      g.children node = .ok cs ∧
      (emsPhase1 g node).dictGet x = .ok node2 ∧
      (emsPhase1 g node).parents node2 = .ok ps ∧
      (emsPhase2 (emsPhase1 g node) node node2).dictGet x = .ok node3 ∧
      emsPhase3 (emsPhase2 (emsPhase1 g node) node node2) node node3 = .ok g' := by
  have e : g.ensureMutualStep x =
      (g.dictGet x >>= fun node =>
        g.children node >>= fun _cs =>
        (emsPhase1 g node).dictGet x >>= fun node2 =>
        (emsPhase1 g node).parents node2 >>= fun _ps =>
        (emsPhase2 (emsPhase1 g node) node node2).dictGet x >>= fun node3 =>
        emsPhase3 (emsPhase2 (emsPhase1 g node) node node2) node node3) := by
    unfold ensureMutualStep emsPhase1 emsPhase2 emsPhase3
    rfl
  rw [e] at h
  rcases exBind_ok h with ⟨node, h1, h⟩
  rcases exBind_ok h with ⟨cs, h2, h⟩
  rcases exBind_ok h with ⟨node2, h3, h⟩
  rcases exBind_ok h with ⟨ps, h4, h⟩
  rcases exBind_ok h with ⟨node3, h5, h⟩
  exact ⟨node, cs, node2, ps, node3, h1, h2, h3, h4, h5, h⟩

theorem parAdd_idem (y : String) : ∀ n : CharacterNode,
    (fun m => { m with parent_ids := sAdd m.parent_ids y })
      ((fun m => { m with parent_ids := sAdd m.parent_ids y }) n) =
    (fun m => { m with parent_ids := sAdd m.parent_ids y }) n := by
  intro n
  dsimp only
  rw [sAdd_idem]

theorem chAdd_idem (y : String) : ∀ n : CharacterNode,
    (fun m => { m with child_ids := sAdd m.child_ids y })
      ((fun m => { m with child_ids := sAdd m.child_ids y }) n) =
    (fun m => { m with child_ids := sAdd m.child_ids y }) n := by
  intro n
  dsimp only
  rw [sAdd_idem]

theorem children_ok_mem {g : RelationshipChart} {node : CharacterNode}
    {cs : List CharacterNode} (h : g.children node = .ok cs) :
    ∀ c ∈ node.child_ids, ∃ nc, g.findNode c = some nc := by
  intro c hc
  rcases mapM_ok_mem (fun cid => g.dictGet cid) node.child_ids cs h c hc with
    ⟨nc, hnc⟩
  exact ⟨nc, dictGet_ok_iff.mp hnc⟩

theorem parents_ok_mem {g : RelationshipChart} {node : CharacterNode}
    {ps : List CharacterNode} (h : g.parents node = .ok ps) :
    ∀ p ∈ node.parent_ids, ∃ np, g.findNode p = some np := by
  intro p hp
  rcases mapM_ok_mem (fun cid => g.dictGet cid) node.parent_ids ps h p hp with
    ⟨np, hnp⟩
  exact ⟨np, dictGet_ok_iff.mp hnp⟩

theorem findNode_emsPhase1 (g : RelationshipChart) (node : CharacterNode)
    (k : String) :
    (emsPhase1 g node).findNode k =
      if k ∈ node.child_ids then
        (g.findNode k).map
          (fun n => { n with parent_ids := sAdd n.parent_ids node.id })
      else g.findNode k := by
  unfold emsPhase1
  exact foldl_setF_cases (parAdd_idem node.id) node.child_ids g k

theorem findNode_emsPhase2 (g : RelationshipChart) (node node2 : CharacterNode)
    (k : String) :
    (emsPhase2 g node node2).findNode k =
      if k ∈ node2.parent_ids then
        (g.findNode k).map
          (fun n => { n with child_ids := sAdd n.child_ids node.id })
      else g.findNode k := by
  unfold emsPhase2
  exact foldl_setF_cases (chAdd_idem node.id) node2.parent_ids g k

theorem wfChart_emsPhase1 {g : RelationshipChart} (node : CharacterNode)
    (h : wfChart g) : wfChart (emsPhase1 g node) := by
  unfold emsPhase1
  refine wfChart_foldl_setF ?_ ?_ node.child_ids g h
  · intro n
    rfl
  · intro n hn
    exact hn

theorem wfChart_emsPhase2 {g : RelationshipChart} (node node2 : CharacterNode)
    (h : wfChart g) : wfChart (emsPhase2 g node node2) := by
  unfold emsPhase2
  refine wfChart_foldl_setF ?_ ?_ node2.parent_ids g h
  · intro n
    rfl
  · intro n hn
    exact hn

theorem graphLe_emsPhase1 (g : RelationshipChart) (node : CharacterNode) :
    graphLe g (emsPhase1 g node) := by
  unfold emsPhase1
  exact graphLe_foldl_setF (fun n => nodeLe_parAdd n node.id) node.child_ids g

theorem graphLe_emsPhase2 (g : RelationshipChart) (node node2 : CharacterNode) :
    graphLe g (emsPhase2 g node node2) := by
  unfold emsPhase2
  exact graphLe_foldl_setF (fun n => nodeLe_chAdd n node.id) node2.parent_ids g

end RelationshipChart

namespace RelationshipChart

theorem hasParent_intro {g : RelationshipChart} {c p : String}
    {n : CharacterNode} (hf : g.findNode c = some n)
    (hm : p ∈ n.parent_ids) : g.hasParent c p = true := by
  unfold hasParent
  rw [hf]
  simpa using hm

theorem hasChild_intro {g : RelationshipChart} {p c : String}
    {n : CharacterNode} (hf : g.findNode p = some n)
    (hm : c ∈ n.child_ids) : g.hasChild p c = true := by
  unfold hasChild
  rw [hf]
  simpa using hm

theorem ensureMutualStep_master {g g' : RelationshipChart} {x : String}
    (hwf : wfChart g) (h : g.ensureMutualStep x = .ok g') :
    wfChart g' ∧ graphLe g g' ∧
    (closed g → closed g') ∧
    (phantomFree g → phantomFree g') ∧
    (noSelf g → noSelf g') ∧
    (∃ nx, g'.findNode x = some nx ∧ mutOk g' x nx) ∧
    (∀ k n n', k ≠ x → g.findNode k = some n → g'.findNode k = some n' →
      mutOk g k n → mutOk g' k n') := by
  rcases ensureMutualStep_decomp h with
    ⟨node, cs, node2, ps, node3, h1, h2, h3, h4, h5, h6⟩
  have hnodef : g.findNode x = some node := dictGet_ok_iff.mp h1
  have hxid : node.id = x := wfIds_findNode hwf.1 hnodef
  have hxkeys : x ∈ g.keys := mem_keys_of_findNode hnodef
  have hwf1 : wfChart (emsPhase1 g node) := wfChart_emsPhase1 node hwf
  have hle1 : graphLe g (emsPhase1 g node) := graphLe_emsPhase1 g node
  have hnode2f : (emsPhase1 g node).findNode x = some node2 :=
    dictGet_ok_iff.mp h3
  have hn2 : node2 = node ∨
      (node2 = { node with parent_ids := sAdd node.parent_ids node.id } ∧
        x ∈ node.child_ids) := by
    have hc := findNode_emsPhase1 g node x
    rw [hnode2f, hnodef] at hc
    by_cases hx : x ∈ node.child_ids
    · rw [if_pos hx] at hc
      simp only [Option.map_some'] at hc
      exact Or.inr ⟨Option.some.inj hc, hx⟩
    · rw [if_neg hx] at hc
      exact Or.inl (Option.some.inj hc)
  have hn2ch : node2.child_ids = node.child_ids := by
    rcases hn2 with rfl | ⟨he, _⟩
    · rfl
    · rw [he]
  have hn2rel : node2.relationships = node.relationships := by
    rcases hn2 with rfl | ⟨he, _⟩
    · rfl
    · rw [he]
  have hwf2 : wfChart (emsPhase2 (emsPhase1 g node) node node2) :=
    wfChart_emsPhase2 node node2 hwf1
  have hle2 : graphLe (emsPhase1 g node)
      (emsPhase2 (emsPhase1 g node) node node2) :=
    graphLe_emsPhase2 (emsPhase1 g node) node node2
  have hnode3f : (emsPhase2 (emsPhase1 g node) node node2).findNode x =
      some node3 := dictGet_ok_iff.mp h5
  have hn3 : node3 = node2 ∨
      (node3 = { node2 with child_ids := sAdd node2.child_ids node.id } ∧
        x ∈ node2.parent_ids) := by
    have hc := findNode_emsPhase2 (emsPhase1 g node) node node2 x
    rw [hnode3f, hnode2f] at hc
    by_cases hx : x ∈ node2.parent_ids
    · rw [if_pos hx] at hc
      simp only [Option.map_some'] at hc
      exact Or.inr ⟨Option.some.inj hc, hx⟩
    · rw [if_neg hx] at hc
      exact Or.inl (Option.some.inj hc)
  have hn3pa : node3.parent_ids = node2.parent_ids := by
    rcases hn3 with rfl | ⟨he, _⟩
    · rfl
    · rw [he]
  have hn3rel : node3.relationships = node2.relationships := by
    rcases hn3 with rfl | ⟨he, _⟩
    · rfl
    · rw [he]
  have hn3ch_sup : ∀ c ∈ node.child_ids, c ∈ node3.child_ids := by
    intro c hc
    rcases hn3 with rfl | ⟨he, _⟩
    · rw [hn2ch]
      exact hc
    · rw [he]
      have : c ∈ node2.child_ids := by
        rw [hn2ch]
        exact hc
      exact mem_sAdd_of_mem this
  have hn3ch_cases : ∀ c ∈ node3.child_ids,
      c ∈ node.child_ids ∨ (c = node.id ∧ x ∈ node2.parent_ids) := by
    intro c hc
    rcases hn3 with rfl | ⟨he, hx2⟩
    · rw [hn2ch] at hc
      exact Or.inl hc
    · rw [he] at hc
      have hc' : c ∈ sAdd node2.child_ids node.id := hc
      rcases mem_sAdd.mp hc' with hc0 | hceq
      · rw [hn2ch] at hc0
        exact Or.inl hc0
      · exact Or.inr ⟨hceq, hx2⟩
  unfold emsPhase3 at h6
  obtain ⟨hle3, hwf3f, hprov3, hex3⟩ :=
    relFoldOuter_props node.id node3.relationships
      (emsPhase2 (emsPhase1 g node) node node2) g' h6
  have hwf' : wfChart g' := hwf3f hwf2
  have hle13 : graphLe (emsPhase1 g node) g' := graphLe_trans hle2 hle3
  have hle : graphLe g g' := graphLe_trans hle1 hle13
  have hkeq : g.keys = g'.keys := hle.1
  obtain ⟨nx, hnxf, hnxle⟩ := hle3.2 x node3 hnode3f
  obtain ⟨hnxid, hnxph, hnxch, hnxpa, hnxrel⟩ :=
    hprov3 x node3 nx hnode3f hnxf
  have hchildPar : ∀ c ∈ node.child_ids, g'.hasParent c x = true := by
    intro c hc
    rcases children_ok_mem h2 c hc with ⟨nc, hncf⟩
    have hfc : (emsPhase1 g node).findNode c =
        some { nc with parent_ids := sAdd nc.parent_ids node.id } := by
      rw [findNode_emsPhase1, if_pos hc, hncf]
      rfl
    apply hasParent_mono hle13
    apply hasParent_intro hfc
    show x ∈ sAdd nc.parent_ids node.id
    rw [hxid]
    exact mem_sAdd_self
  have hparCh : ∀ p ∈ node2.parent_ids, g'.hasChild p x = true := by
    intro p hp
    rcases parents_ok_mem h4 p hp with ⟨np, hnpf⟩
    have hfp : (emsPhase2 (emsPhase1 g node) node node2).findNode p =
        some { np with child_ids := sAdd np.child_ids node.id } := by
      rw [findNode_emsPhase2, if_pos hp, hnpf]
      rfl
    apply hasChild_mono hle3
    apply hasChild_intro hfp
    show x ∈ sAdd np.child_ids node.id
    rw [hxid]
    exact mem_sAdd_self
  have hmid : ∀ k n, g.findNode k = some n →
      ∃ m, (emsPhase2 (emsPhase1 g node) node node2).findNode k = some m ∧
        m.id = n.id ∧ m.is_phantom = n.is_phantom ∧
        m.relationships = n.relationships ∧
        (m.child_ids = n.child_ids ∨
          (m.child_ids = sAdd n.child_ids node.id ∧ k ∈ node2.parent_ids)) ∧
        (m.parent_ids = n.parent_ids ∨
          (m.parent_ids = sAdd n.parent_ids node.id ∧ k ∈ node.child_ids)) := by
    intro k n hn
    have hc1 := findNode_emsPhase1 g node k
    have hc2 := findNode_emsPhase2 (emsPhase1 g node) node node2 k
    by_cases hk1 : k ∈ node.child_ids
    · rw [if_pos hk1, hn] at hc1
      simp only [Option.map_some'] at hc1
      by_cases hk2 : k ∈ node2.parent_ids
      · rw [if_pos hk2, hc1] at hc2
        simp only [Option.map_some'] at hc2
        exact ⟨_, hc2, rfl, rfl, rfl, Or.inr ⟨rfl, hk2⟩, Or.inr ⟨rfl, hk1⟩⟩
      · rw [if_neg hk2, hc1] at hc2
        exact ⟨_, hc2, rfl, rfl, rfl, Or.inl rfl, Or.inr ⟨rfl, hk1⟩⟩
    · rw [if_neg hk1, hn] at hc1
      by_cases hk2 : k ∈ node2.parent_ids
      · rw [if_pos hk2, hc1] at hc2
        simp only [Option.map_some'] at hc2
        exact ⟨_, hc2, rfl, rfl, rfl, Or.inr ⟨rfl, hk2⟩, Or.inl rfl⟩
      · rw [if_neg hk2, hc1] at hc2
        exact ⟨_, hc2, rfl, rfl, rfl, Or.inl rfl, Or.inl rfl⟩
  refine ⟨hwf', hle, ?_, ?_, ?_, ?_, ?_⟩
  · -- closed is preserved
    intro hcl
    apply closed_of_findNode hwf'.2.1
    intro k n' hn'
    have hkk : k ∈ g.keys := by
      rw [hkeq]
      exact mem_keys_of_findNode hn'
    rcases findNode_some_of_mem_keys hkk with ⟨n, hn⟩
    obtain ⟨m, hmf, hmi, hmph, hmrel, hmch, hmpa⟩ := hmid k n hn
    obtain ⟨hid', hph', hch', hpa', hrel'⟩ := hprov3 k m n' hmf hn'
    obtain ⟨hclc, hclp, hclr⟩ := closed_findNode hcl hn
    refine ⟨?_, ?_, ?_⟩
    · intro c hc
      rw [← hkeq]
      rw [hch'] at hc
      rcases hmch with hme | ⟨hme, _⟩
      · rw [hme] at hc
        exact hclc c hc
      · rw [hme] at hc
        rcases mem_sAdd.mp hc with hc0 | hceq
        · exact hclc c hc0
        · rw [hceq, hxid]
          exact hxkeys
    · intro p hp
      rw [← hkeq]
      rw [hpa'] at hp
      rcases hmpa with hme | ⟨hme, _⟩
      · rw [hme] at hp
        exact hclp p hp
      · rw [hme] at hp
        rcases mem_sAdd.mp hp with hp0 | hpeq
        · exact hclp p hp0
        · rw [hpeq, hxid]
          exact hxkeys
    · intro r hr t ht
      rw [← hkeq]
      have hnd' : (n'.relationships.map Prod.fst).Nodup :=
        hwf'.2.2 (k, n') (mem_values_of_findNode hn')
      have hget : n'.relGet r.1 = some r.2 :=
        relGet_of_mem_nodup hnd' (by rw [Prod.mk.eta]; exact hr)
      rcases hrel' r.1 r.2 t hget ht with ⟨ts0, hts0, ht0⟩ |
        ⟨hty, _, _, _, _⟩
      · have hts0' : n.relGet r.1 = some ts0 := by
          unfold CharacterNode.relGet at hts0 ⊢
          rw [← hmrel]
          exact hts0
        exact hclr (r.1, ts0) (relGet_mem hts0') t ht0
      · rw [hty, hxid]
        exact hxkeys
  · -- phantom-freeness is preserved
    intro hp
    apply phantomFree_of_findNode hwf'.2.1
    intro k n' hn'
    have hkk : k ∈ g.keys := by
      rw [hkeq]
      exact mem_keys_of_findNode hn'
    rcases findNode_some_of_mem_keys hkk with ⟨n, hn⟩
    obtain ⟨m, hmf, hmi, hmph, hmrel, hmch, hmpa⟩ := hmid k n hn
    obtain ⟨hid', hph', hch', hpa', hrel'⟩ := hprov3 k m n' hmf hn'
    rw [hph', hmph]
    exact phantomFree_findNode hp hn
  · -- no-self-reference is preserved
    intro hnsg
    have hxnotch : x ∉ node.child_ids := (noSelf_findNode hnsg hnodef).2.1
    have hn2e : node2 = node := by
      rcases hn2 with he | ⟨_, hx⟩
      · exact he
      · exact absurd hx hxnotch
    apply noSelf_of_findNode hwf'.2.1
    intro k n' hn'
    have hkk : k ∈ g.keys := by
      rw [hkeq]
      exact mem_keys_of_findNode hn'
    rcases findNode_some_of_mem_keys hkk with ⟨n, hn⟩
    obtain ⟨m, hmf, hmi, hmph, hmrel, hmch, hmpa⟩ := hmid k n hn
    obtain ⟨hid', hph', hch', hpa', hrel'⟩ := hprov3 k m n' hmf hn'
    obtain ⟨hnp, hnc, hnr⟩ := noSelf_findNode hnsg hn
    refine ⟨?_, ?_, ?_⟩
    · rw [hpa']
      rcases hmpa with hme | ⟨hme, hk1⟩
      · rw [hme]
        exact hnp
      · rw [hme]
        intro hk
        rcases mem_sAdd.mp hk with hk0 | hkeq2
        · exact hnp hk0
        · rw [hkeq2, hxid] at hk1
          exact hxnotch hk1
    · rw [hch']
      rcases hmch with hme | ⟨hme, hk2⟩
      · rw [hme]
        exact hnc
      · rw [hme]
        intro hk
        rcases mem_sAdd.mp hk with hk0 | hkeq2
        · exact hnc hk0
        · rw [hn2e] at hk2
          rw [hkeq2, hxid] at hk2
          exact (noSelf_findNode hnsg hnodef).1 hk2
    · intro r hr
      have hnd' : (n'.relationships.map Prod.fst).Nodup :=
        hwf'.2.2 (k, n') (mem_values_of_findNode hn')
      have hget : n'.relGet r.1 = some r.2 :=
        relGet_of_mem_nodup hnd' (by rw [Prod.mk.eta]; exact hr)
      intro hk
      rcases hrel' r.1 r.2 k hget hk with ⟨ts0, hts0, ht0⟩ |
        ⟨hty, r2, hr2m, _, hr2k⟩
      · have hts0' : n.relGet r.1 = some ts0 := by
          unfold CharacterNode.relGet at hts0 ⊢
          rw [← hmrel]
          exact hts0
        exact hnr (r.1, ts0) (relGet_mem hts0') ht0
      · rw [hn3rel, hn2rel] at hr2m
        rw [hty, hxid] at hr2k
        exact (noSelf_findNode hnsg hnodef).2.2 r2 hr2m hr2k
  · -- the processed node itself is fully mutual afterwards
    refine ⟨nx, hnxf, ?_, ?_, ?_⟩
    · intro c hc
      rw [hnxch] at hc
      rcases hn3ch_cases c hc with hc0 | ⟨hceq, hxp⟩
      · exact hchildPar c hc0
      · rw [hceq, hxid]
        apply hasParent_intro hnxf
        rw [hnxpa, hn3pa]
        exact hxp
    · intro p hp
      rw [hnxpa, hn3pa] at hp
      exact hparCh p hp
    · intro r hr t ht
      have hnd' : (nx.relationships.map Prod.fst).Nodup :=
        hwf'.2.2 (x, nx) (mem_values_of_findNode hnxf)
      have hget : nx.relGet r.1 = some r.2 :=
        relGet_of_mem_nodup hnd' (by rw [Prod.mk.eta]; exact hr)
      rcases hnxrel r.1 r.2 t hget ht with ⟨ts0, hts0, ht0⟩ |
        ⟨hty, r2, hr2m, hr2κ, hr2x⟩
      · have := hex3 (r.1, ts0) (relGet_mem hts0) t ht0
        rw [hxid] at this
        exact this
      · have := hex3 r2 hr2m x hr2x
        rw [hxid, hr2κ] at this
        rw [hty, hxid]
        exact this
  · -- mutuality of every other node is preserved
    intro k n n' hk hn hn' hmut
    obtain ⟨m, hmf, hmi, hmph, hmrel, hmch, hmpa⟩ := hmid k n hn
    obtain ⟨hid', hph', hch', hpa', hrel'⟩ := hprov3 k m n' hmf hn'
    refine ⟨?_, ?_, ?_⟩
    · intro c hc
      rw [hch'] at hc
      rcases hmch with hme | ⟨hme, hk2⟩
      · rw [hme] at hc
        exact hasParent_mono hle (hmut.1 c hc)
      · rw [hme] at hc
        rcases mem_sAdd.mp hc with hc0 | hceq
        · exact hasParent_mono hle (hmut.1 c hc0)
        · rw [hceq, hxid]
          apply hasParent_intro hnxf
          rw [hnxpa, hn3pa]
          exact hk2
    · intro p hp
      rw [hpa'] at hp
      rcases hmpa with hme | ⟨hme, hk1⟩
      · rw [hme] at hp
        exact hasChild_mono hle (hmut.2.1 p hp)
      · rw [hme] at hp
        rcases mem_sAdd.mp hp with hp0 | hpeq
        · exact hasChild_mono hle (hmut.2.1 p hp0)
        · rw [hpeq, hxid]
          apply hasChild_intro hnxf
          rw [hnxch]
          exact hn3ch_sup k hk1
    · intro r hr t ht
      have hnd' : (n'.relationships.map Prod.fst).Nodup :=
        hwf'.2.2 (k, n') (mem_values_of_findNode hn')
      have hget : n'.relGet r.1 = some r.2 :=
        relGet_of_mem_nodup hnd' (by rw [Prod.mk.eta]; exact hr)
      rcases hrel' r.1 r.2 t hget ht with ⟨ts0, hts0, ht0⟩ |
        ⟨hty, r2, hr2m, hr2κ, hr2k⟩
      · have hts0' : n.relGet r.1 = some ts0 := by
          unfold CharacterNode.relGet at hts0 ⊢
          rw [← hmrel]
          exact hts0
        exact hasRelTarget_mono hle (hmut.2.2 (r.1, ts0) (relGet_mem hts0') t ht0)
      · have hnd3 : (node3.relationships.map Prod.fst).Nodup :=
          hwf2.2.2 (x, node3) (mem_values_of_findNode hnode3f)
        have hget3 : node3.relGet r2.1 = some r2.2 :=
          relGet_of_mem_nodup hnd3 (by rw [Prod.mk.eta]; exact hr2m)
        rcases hnxle.2.2.2.2 r2.1 r2.2 k hget3 hr2k with ⟨ts2, hts2, hk2⟩
        rw [hty, hxid]
        exact hasRelTarget_true_iff.mpr
          ⟨nx, hnxf, ts2, by rw [← hr2κ]; exact hts2, hk2⟩

end RelationshipChart

theorem mapM_ok_of_exists {α β : Type} (f : α → Except Err β) :
    ∀ l : List α, (∀ a ∈ l, ∃ b, f a = .ok b) → ∃ bs, l.mapM f = .ok bs := by
  intro l
  induction l with
  | nil => intro _; exact ⟨[], rfl⟩
  | cons a t ih =>
      intro h
      rcases h a (List.mem_cons_self a t) with ⟨b, hb⟩
      rcases ih (fun x hx => h x (List.mem_cons_of_mem a hx)) with ⟨bs, hbs⟩
      refine ⟨b :: bs, ?_⟩
      rw [List.mapM_cons, hb, hbs]
      rfl

namespace RelationshipChart

theorem hasParent_elim {g : RelationshipChart} {c p : String}
    {n : CharacterNode} (h : g.hasParent c p = true)
    (hf : g.findNode c = some n) : p ∈ n.parent_ids := by
  unfold hasParent at h
  rw [hf] at h
  simpa using h

theorem hasChild_elim {g : RelationshipChart} {p c : String}
    {n : CharacterNode} (h : g.hasChild p c = true)
    (hf : g.findNode p = some n) : c ∈ n.child_ids := by
  unfold hasChild at h
  rw [hf] at h
  simpa using h

theorem mutual_pass :
    ∀ (todo : List String) (g g' : RelationshipChart),
      wfChart g → closed g →
      (∀ e ∈ g.nodes, e.1 ∉ todo → mutOk g e.1 e.2) →
      todo.foldlM ensureMutualStep g = .ok g' →
      wfChart g' ∧ closed g' ∧ ∀ e ∈ g'.nodes, mutOk g' e.1 e.2 := by
  intro todo
  induction todo with
  | nil =>
      intro g g' hwf hcl hmut h
      have hgg : g = g' := exPure_ok h
      subst hgg
      exact ⟨hwf, hcl, fun e he => hmut e he (List.not_mem_nil e.1)⟩
  | cons y T ih =>
      intro g g' hwf hcl hmut h
      rw [List.foldlM_cons] at h
      rcases exBind_ok h with ⟨g1, h1, h2⟩
      obtain ⟨hwf1, hle1, hcl1, _, _, ⟨nx, hnxf, hnxmut⟩, hpres⟩ :=
        ensureMutualStep_master hwf h1
      refine ih g1 g' hwf1 (hcl1 hcl) ?_ h2
      intro e he hni
      have hef : g1.findNode e.1 = some e.2 :=
        findNode_of_mem_nodup hwf1.2.1 (by rcases e with ⟨a, b⟩; exact he)
      by_cases hey : e.1 = y
      · rw [hey] at hef
        rw [hnxf] at hef
        have he2 : e.2 = nx := (Option.some.inj hef).symm
        rw [hey, he2]
        exact hnxmut
      · have hkk : e.1 ∈ g.keys := by
          rw [hle1.1]
          exact List.mem_map_of_mem Prod.fst he
        rcases findNode_some_of_mem_keys hkk with ⟨n, hn⟩
        have hmutk : mutOk g e.1 n := by
          have hni' : e.1 ∉ y :: T := by
            intro hm
            rcases List.mem_cons.mp hm with hm0 | hm0
            · exact hey hm0
            · exact hni hm0
          exact hmut (e.1, n) (mem_values_of_findNode hn) hni'
        exact hpres e.1 n e.2 hey hn hef hmutk

theorem ensure_everything_mutual_props {g g' : RelationshipChart}
    (hwf : wfChart g) (hcl : closed g)
    (h : g.ensure_everything_mutual = .ok g') :
    wfChart g' ∧ closed g' ∧ (∀ e ∈ g'.nodes, mutOk g' e.1 e.2) ∧
    (phantomFree g → phantomFree g') ∧
    (noSelf g → noSelf g') ∧ g.keys = g'.keys := by
  unfold ensure_everything_mutual at h
  obtain ⟨hwf', hcl', hmut'⟩ := mutual_pass g.keys g g' hwf hcl
    (fun e he hni => absurd (List.mem_map_of_mem Prod.fst he) hni) h
  refine ⟨hwf', hcl', hmut', ?_, ?_, ?_⟩
  · intro hp
    exact (foldlM_inv ensureMutualStep
      (fun s => wfChart s ∧ phantomFree s) g.keys
      (fun s b _ hm s' hs =>
        ⟨(ensureMutualStep_master hm.1 hs).1,
         (ensureMutualStep_master hm.1 hs).2.2.2.1 hm.2⟩)
      g g' ⟨hwf, hp⟩ h).2
  · intro hns
    exact (foldlM_inv ensureMutualStep
      (fun s => wfChart s ∧ noSelf s) g.keys
      (fun s b _ hm s' hs =>
        ⟨(ensureMutualStep_master hm.1 hs).1,
         (ensureMutualStep_master hm.1 hs).2.2.2.2.1 hm.2⟩)
      g g' ⟨hwf, hns⟩ h).2
  · exact (foldlM_inv ensureMutualStep
      (fun s => wfChart s ∧ g.keys = s.keys) g.keys
      (fun s b _ hm s' hs =>
        ⟨(ensureMutualStep_master hm.1 hs).1,
         hm.2.trans ((ensureMutualStep_master hm.1 hs).2.1).1⟩)
      g g' ⟨hwf, rfl⟩ h).2

theorem ensureMutualStep_id {g : RelationshipChart} {x : String}
    (hwf : wfChart g) (hcl : closed g)
    (hmut : ∀ e ∈ g.nodes, mutOk g e.1 e.2) (hx : x ∈ g.keys) :
    g.ensureMutualStep x = .ok g := by
  rcases findNode_some_of_mem_keys hx with ⟨node, hnode⟩
  have hxid : node.id = x := wfIds_findNode hwf.1 hnode
  have hmutx : mutOk g x node := mutOk_findNode hmut hnode
  obtain ⟨hclc, hclp, hclr⟩ := closed_findNode hcl hnode
  have hph1 : emsPhase1 g node = g := by
    unfold emsPhase1
    apply foldl_id_of
    intro c hc
    rcases findNode_some_of_mem_keys (hclc c hc) with ⟨nc, hncf⟩
    apply setF_eq_self hwf.2.1 hncf
    show { nc with parent_ids := sAdd nc.parent_ids node.id } = nc
    rw [hxid, sAdd_of_mem (hasParent_elim (hmutx.1 c hc) hncf)]
  have hph2 : emsPhase2 g node node = g := by
    unfold emsPhase2
    apply foldl_id_of
    intro p hp
    rcases findNode_some_of_mem_keys (hclp p hp) with ⟨np, hnpf⟩
    apply setF_eq_self hwf.2.1 hnpf
    show { np with child_ids := sAdd np.child_ids node.id } = np
    rw [hxid, sAdd_of_mem (hasChild_elim (hmutx.2.1 p hp) hnpf)]
  have hph3 : emsPhase3 g node node = .ok g := by
    unfold emsPhase3
    apply foldlM_fix
    intro r hr
    apply foldlM_fix
    intro t ht
    rcases hasRelTarget_true_iff.mp (hmutx.2.2 r hr t ht) with
      ⟨nt, hntf, ts, hts, htm⟩
    show (g.get_node t >>= fun _tn =>
      pure (g.setF t (fun n => n.relAdd r.1 node.id))) = .ok g
    rw [get_node_ok_iff.mpr hntf, exOk_bind]
    have hnd : (nt.relationships.map Prod.fst).Nodup :=
      hwf.2.2 (t, nt) (mem_values_of_findNode hntf)
    have hself : nt.relAdd r.1 node.id = nt :=
      relAdd_eq_self hnd hts (by rw [hxid]; exact htm)
    rw [setF_eq_self hwf.2.1 hntf hself]
    rfl
  have e : g.ensureMutualStep x =
      (g.dictGet x >>= fun node =>
        g.children node >>= fun _cs =>
        (emsPhase1 g node).dictGet x >>= fun node2 =>
        (emsPhase1 g node).parents node2 >>= fun _ps =>
        (emsPhase2 (emsPhase1 g node) node node2).dictGet x >>= fun node3 =>
        emsPhase3 (emsPhase2 (emsPhase1 g node) node node2) node node3) := by
    unfold ensureMutualStep emsPhase1 emsPhase2 emsPhase3
    rfl
  obtain ⟨cs, hcs⟩ := mapM_ok_of_exists (fun cid => g.dictGet cid)
    node.child_ids
    (fun c hc => by
      rcases findNode_some_of_mem_keys (hclc c hc) with ⟨nc, hncf⟩
      exact ⟨nc, dictGet_ok_iff.mpr hncf⟩)
  obtain ⟨ps, hps⟩ := mapM_ok_of_exists (fun cid => g.dictGet cid)
    node.parent_ids
    (fun p hp => by
      rcases findNode_some_of_mem_keys (hclp p hp) with ⟨np, hnpf⟩
      exact ⟨np, dictGet_ok_iff.mpr hnpf⟩)
  have hcs' : g.children node = .ok cs := hcs
  have hps' : g.parents node = .ok ps := hps
  rw [e, dictGet_ok_iff.mpr hnode, exOk_bind,
    hcs', exOk_bind, hph1,
    dictGet_ok_iff.mpr hnode, exOk_bind,
    hps', exOk_bind, hph2,
    dictGet_ok_iff.mpr hnode, exOk_bind]
  exact hph3

theorem ensure_everything_mutual_id {g : RelationshipChart}
    (hwf : wfChart g) (hcl : closed g)
    (hmut : ∀ e ∈ g.nodes, mutOk g e.1 e.2) :
    g.ensure_everything_mutual = .ok g := by
  unfold ensure_everything_mutual
  exact foldlM_fix ensureMutualStep g g.keys
    (fun x hx => ensureMutualStep_id hwf hcl hmut hx)

end RelationshipChart

namespace RelationshipChart

theorem remove_node_false_ok {g g' : RelationshipChart} {rid : String}
    (h : g.remove_node rid false = .ok g') : g' = g.popNode rid := by
  unfold remove_node at h
  rcases exBind_ok h with ⟨node, hnode, h2⟩
  have h2' : (pure (g.popNode rid) : Except Err RelationshipChart) = .ok g' := h2
  exact (exPure_ok h2').symm

theorem wfChart_popNode {g : RelationshipChart} (hwf : wfChart g)
    (i : String) : wfChart (g.popNode i) := by
  rcases hwf with ⟨hids, hnd, hrk⟩
  refine ⟨?_, ?_, ?_⟩
  · unfold wfIds at hids ⊢
    unfold popNode
    rw [List.all_eq_true] at hids ⊢
    intro e he
    exact hids e (List.mem_of_mem_filter he)
  · show ((g.nodes.filter (fun e => e.1 ≠ i)).map Prod.fst).Nodup
    exact hnd.sublist ((List.filter_sublist g.nodes).map Prod.fst)
  · intro e he
    exact hrk e (List.mem_of_mem_filter he)

theorem noSelf_popNode {g : RelationshipChart} (h : noSelf g) (i : String) :
    noSelf (g.popNode i) :=
  fun e he => h e (List.mem_of_mem_filter he)

theorem add_child_false_eq {g g' : RelationshipChart} {p c : String}
    (h : g.add_child p c false = .ok g') :
    p ≠ c ∧ (∃ np, g.findNode p = some np) ∧ (∃ nc, g.findNode c = some nc) ∧
    g' = (g.setF p (fun n => { n with child_ids := sAdd n.child_ids c })).setF c
      (fun n => { n with parent_ids := sAdd n.parent_ids p }) := by
  by_cases hpc : p = c
  · unfold add_child at h
    rw [if_pos hpc] at h
    exact Except.noConfusion h
  · have e : g.add_child p c false =
        (g.get_node p >>= fun _np => g.get_node c >>= fun _nc =>
          pure ((g.setF p
              (fun n => { n with child_ids := sAdd n.child_ids c })).setF c
            (fun n => { n with parent_ids := sAdd n.parent_ids p }))) := by
      unfold add_child
      rw [if_neg hpc]
      rfl
    rw [e] at h
    rcases exBind_ok h with ⟨np, hnp, h2⟩
    rcases exBind_ok h2 with ⟨nc, hnc, h3⟩
    exact ⟨hpc, ⟨np, get_node_ok_iff.mp hnp⟩, ⟨nc, get_node_ok_iff.mp hnc⟩,
      (exPure_ok h3).symm⟩

theorem wfChart_add_child_false {g g' : RelationshipChart} {p c : String}
    (hwf : wfChart g) (h : g.add_child p c false = .ok g') : wfChart g' := by
  obtain ⟨_, _, _, hge⟩ := add_child_false_eq h
  rw [hge]
  refine wfChart_setF ?_ ?_ (wfChart_setF ?_ ?_ hwf)
  · intro n
    rfl
  · intro n hn
    exact hn
  · intro n
    rfl
  · intro n hn
    exact hn

theorem noSelf_add_child_false {g g' : RelationshipChart} {p c : String}
    (hwf : wfChart g) (hns : noSelf g) (h : g.add_child p c false = .ok g') :
    noSelf g' := by
  obtain ⟨hpc, _, _, hge⟩ := add_child_false_eq h
  have hwf' : wfChart g' := wfChart_add_child_false hwf h
  apply noSelf_of_findNode hwf'.2.1
  intro k n' hn'
  rw [hge, findNode_setF] at hn'
  by_cases hkc : k = c
  · rw [if_pos hkc, findNode_setF] at hn'
    by_cases hkp : k = p
    · exact absurd (hkp.symm.trans hkc) hpc
    · rw [if_neg hkp] at hn'
      rcases hfk : g.findNode k with _ | n
      · rw [hfk] at hn'
        exact Option.noConfusion hn'
      · rw [hfk] at hn'
        simp only [Option.map_some'] at hn'
        have hn'' : n' = { n with parent_ids := sAdd n.parent_ids p } :=
          (Option.some.inj hn').symm
        obtain ⟨h1, h2, h3⟩ := noSelf_findNode hns hfk
        rw [hn'']
        refine ⟨?_, h2, h3⟩
        intro hk
        rcases mem_sAdd.mp hk with hk0 | hk0
        · exact h1 hk0
        · exact hkp hk0
  · rw [if_neg hkc, findNode_setF] at hn'
    by_cases hkp : k = p
    · rw [if_pos hkp] at hn'
      rcases hfk : g.findNode k with _ | n
      · rw [hfk] at hn'
        exact Option.noConfusion hn'
      · rw [hfk] at hn'
        simp only [Option.map_some'] at hn'
        have hn'' : n' = { n with child_ids := sAdd n.child_ids c } :=
          (Option.some.inj hn').symm
        obtain ⟨h1, h2, h3⟩ := noSelf_findNode hns hfk
        rw [hn'']
        refine ⟨h1, ?_, h3⟩
        intro hk
        rcases mem_sAdd.mp hk with hk0 | hk0
        · exact h2 hk0
        · exact hkc hk0
    · rw [if_neg hkp] at hn'
      exact noSelf_findNode hns hn'

theorem rrpStep_graph_inv (motive : RelationshipChart → Prop)
    (hadd : ∀ s p c s', motive s → s.add_child p c false = .ok s' →
      motive s') :
    ∀ {g : RelationshipChart} {rids : List String} {nid : String}
      {out : RelationshipChart × List String},
      rrpStep g rids nid = .ok out → motive g → motive out.1 := by
  intro g rids nid out h hm
  unfold rrpStep at h
  rcases exBind_ok h with ⟨node, hnode, h⟩
  by_cases hph : node.is_phantom = true
  · rw [if_neg (not_not_intro hph)] at h
    by_cases hch : node.child_ids = []
    · rw [if_pos hch] at h
      obtain rfl := exPure_ok h
      exact hm
    · rw [if_neg hch] at h
      rcases exBind_ok h with ⟨cs, hcs, h⟩
      rcases exBind_ok h with ⟨child0, hc0, h⟩
      rcases exBind_ok h with ⟨ps, hps, h⟩
      by_cases hany : (ps.any (fun op =>
          op.id ≠ node.id ∧ sSubset node.child_ids op.child_ids)) = true
      · rw [if_pos hany] at h
        obtain rfl := exPure_ok h
        exact hm
      · rw [if_neg hany] at h
        rcases exBind_ok h with ⟨com?, hcom, h⟩
        rcases com? with _ | com
        · have h' : (pure ((g, rids)) :
              Except Err (RelationshipChart × List String)) = .ok out := h
          obtain rfl := exPure_ok h'
          exact hm
        · have h' : (if com ≠ [] then
              (com.foldlM (fun g sib => g.add_child node.id sib false) g >>=
                fun g2 => pure ((g2, rids))) else pure ((g, rids)) :
              Except Err (RelationshipChart × List String)) = .ok out := h
          by_cases hcome : com ≠ []
          · rw [if_pos hcome] at h'
            rcases exBind_ok h' with ⟨g2, hg2, h''⟩
            have hm2 : motive g2 := foldlM_inv
              (fun g sib => g.add_child node.id sib false) motive com
              (fun s b _ hms s' hs => hadd s node.id b s' hms hs)
              g g2 hm hg2
            obtain rfl := exPure_ok h''
            exact hm2
          · rw [if_neg hcome] at h'
            obtain rfl := exPure_ok h'
            exact hm
  · rw [if_pos hph] at h
    obtain rfl := exPure_ok h
    exact hm

theorem rrp_false_inv (motive : RelationshipChart → Prop)
    (hadd : ∀ s p c s', motive s → s.add_child p c false = .ok s' → motive s')
    (hpop : ∀ s : RelationshipChart, ∀ i, motive s → motive (s.popNode i)) :
    ∀ {g g' : RelationshipChart}, g.remove_redundant_phantoms false = .ok g' →
      motive g → motive g' := by
  intro g g' h hm
  unfold remove_redundant_phantoms at h
  rcases exBind_ok h with ⟨pr, hpr, h2⟩
  have h2' : pr.2.foldlM (fun g rid => g.remove_node rid false) pr.1 =
      .ok g' := h2
  have hm1 : motive pr.1 := foldlM_inv
    (fun (p : RelationshipChart × List String) nid => rrpStep p.1 p.2 nid)
    (fun p => motive p.1) g.keys
    (fun s b _ hms s' hs => rrpStep_graph_inv motive hadd hs hms)
    (g, []) pr hm hpr
  exact foldlM_inv (fun g rid => g.remove_node rid false) motive pr.2
    (fun s b _ hms s' hs => by
      rw [remove_node_false_ok hs]
      exact hpop s b hms) pr.1 g' hm1 h2'

theorem wfChart_rrp_false {g g' : RelationshipChart} (hwf : wfChart g)
    (h : g.remove_redundant_phantoms false = .ok g') : wfChart g' :=
  rrp_false_inv wfChart (fun s p c s' hm hs => wfChart_add_child_false hm hs)
    (fun s i hm => wfChart_popNode hm i) h hwf

theorem noSelf_rrp_false {g g' : RelationshipChart} (hwf : wfChart g)
    (hns : noSelf g) (h : g.remove_redundant_phantoms false = .ok g') :
    noSelf g' :=
  (rrp_false_inv (fun s => wfChart s ∧ noSelf s)
    (fun s p c s' hm hs => ⟨wfChart_add_child_false hm.1 hs,
      noSelf_add_child_false hm.1 hm.2 hs⟩)
    (fun s i hm => ⟨wfChart_popNode hm.1 i, noSelf_popNode hm.2 i⟩)
    h ⟨hwf, hns⟩).2

theorem rrp_id_phantomFree {g : RelationshipChart} (hwf : wfChart g)
    (hpf : phantomFree g) : g.remove_redundant_phantoms false = .ok g := by
  unfold remove_redundant_phantoms
  have hfold : g.keys.foldlM
      (fun (p : RelationshipChart × List String) nid => rrpStep p.1 p.2 nid)
      (g, ([] : List String)) = .ok (g, []) := by
    apply foldlM_fix
    intro nid hnid
    rcases findNode_some_of_mem_keys hnid with ⟨node, hnode⟩
    show rrpStep g [] nid = .ok (g, [])
    unfold rrpStep
    rw [dictGet_ok_iff.mpr hnode, exOk_bind,
      if_pos (show ¬node.is_phantom = true by
        rw [phantomFree_findNode hpf hnode]
        exact Bool.false_ne_true)]
    rfl
  rw [hfold, exOk_bind]
  rfl

end RelationshipChart

instance instDecidablePhantomFree (g : RelationshipChart) :
    Decidable (RelationshipChart.phantomFree g) := by
  unfold RelationshipChart.phantomFree
  exact inferInstance

/-- C2 (corrected): on every well-formed chart on which `postprocess`
completes without error, invariant 1 (no dangling references) and invariant 2
(all edges mutual) hold afterwards, and invariant 6 (no self references)
holds afterwards provided it held before. -/
theorem C2_amended (g g' : RelationshipChart)
    (hwf : RelationshipChart.wfChart g) (h : g.postprocess = .ok g') :
    RelationshipChart.inv1 g' = true ∧ RelationshipChart.inv2 g' = true ∧
    (RelationshipChart.inv6 g = true → RelationshipChart.inv6 g' = true) := by
  unfold RelationshipChart.postprocess at h
  rcases exBind_ok h with ⟨gm, hgm, h2⟩
  have h2' : (gm.remove_dead_edges).ensure_everything_mutual = .ok g' := h2
  have hwfm : RelationshipChart.wfChart gm :=
    RelationshipChart.wfChart_rrp_false hwf hgm
  obtain ⟨hwf', hcl', hmut', _, hns', _⟩ :=
    RelationshipChart.ensure_everything_mutual_props
      (RelationshipChart.wfChart_remove_dead_edges hwfm)
      (RelationshipChart.closed_remove_dead_edges gm) h2'
  refine ⟨RelationshipChart.inv1_iff_closed.mpr hcl',
    RelationshipChart.inv2_of hmut', ?_⟩
  intro h6
  exact RelationshipChart.inv6_iff_noSelf.mpr (hns'
    (RelationshipChart.noSelf_remove_dead_edges
      (RelationshipChart.noSelf_rrp_false hwf
        (RelationshipChart.inv6_iff_noSelf.mp h6) hgm)))

/-- Concrete two-node mutual chart exercising the amended postprocess
invariant claim. -/
def c2WitnessGraph : RelationshipChart :=
  { nodes := [mkNode "a" false ["b"], mkNode "b" false [] ["a"]] }

/-- Witness for the amended postprocess invariant claim at a concrete
chart. -/
theorem C2_amended_witness :
    RelationshipChart.wfChart c2WitnessGraph ∧
    c2WitnessGraph.postprocess = .ok c2WitnessGraph ∧
    (RelationshipChart.inv1 c2WitnessGraph = true ∧
     RelationshipChart.inv2 c2WitnessGraph = true ∧
     (RelationshipChart.inv6 c2WitnessGraph = true →
       RelationshipChart.inv6 c2WitnessGraph = true)) :=
  ⟨by decide, by decide,
    C2_amended c2WitnessGraph c2WitnessGraph (by decide) (by decide)⟩

/-- C3 (corrected): `postprocess` is idempotent on phantom-free charts — for
every well-formed chart with no phantom nodes, when `postprocess` succeeds,
running it again on the result returns that result unchanged. -/
theorem C3_amended (g g' : RelationshipChart)
    (hwf : RelationshipChart.wfChart g)
    (hpf : RelationshipChart.phantomFree g) (h : g.postprocess = .ok g') :
    g'.postprocess = .ok g' := by
  unfold RelationshipChart.postprocess at h ⊢
  rw [RelationshipChart.rrp_id_phantomFree hwf hpf, exOk_bind] at h
  have h' : (g.remove_dead_edges).ensure_everything_mutual = .ok g' := h
  have hwfd := RelationshipChart.wfChart_remove_dead_edges hwf
  have hcld := RelationshipChart.closed_remove_dead_edges g
  have hpfd := RelationshipChart.phantomFree_remove_dead_edges hpf
  obtain ⟨hwf', hcl', hmut', hpf', _, _⟩ :=
    RelationshipChart.ensure_everything_mutual_props hwfd hcld h'
  rw [RelationshipChart.rrp_id_phantomFree hwf' (hpf' hpfd), exOk_bind]
  show (g'.remove_dead_edges).ensure_everything_mutual = .ok g'
  rw [RelationshipChart.remove_dead_edges_self hcl']
  exact RelationshipChart.ensure_everything_mutual_id hwf' hcl' hmut'

/-- Concrete phantom-free chart with mutual child, parent and relationship
edges, exercising the idempotence claim. -/
def c3WitnessGraph : RelationshipChart :=
  { nodes := [
      mkNode "u" false ["v"] [] [((.LOCKED, "friend"), ["v"])],
      mkNode "v" false [] ["u"] [((.LOCKED, "friend"), ["u"])] ] }

/-- Witness for the amended idempotence claim at a concrete chart. -/
theorem C3_amended_witness :
    RelationshipChart.wfChart c3WitnessGraph ∧
    RelationshipChart.phantomFree c3WitnessGraph ∧
    c3WitnessGraph.postprocess = .ok c3WitnessGraph ∧
    c3WitnessGraph.postprocess = .ok c3WitnessGraph :=
  ⟨by decide, by decide, by decide,
    C3_amended c3WitnessGraph c3WitnessGraph (by decide) (by decide)
      (by decide)⟩
